import Mathlib

/-!
golang-chat-api: room registry, broadcaster, worker pool, handlers and durable store.

A shallow embedding of `internal/usecase/chat_usecase.go`,
`internal/usecase/user_usecase.go`, `internal/repository/*.go`,
`internal/workerpool/workerpool.go` and `internal/delivery/http/*.go`.

The Go heap is explicit: a slice is a header (backing array, length) into a
list of backing arrays, so that two slice headers over one array alias; a
channel is an index into a list of "closed" flags.  Calls on the registry run one
at a time, as `roomsMutex` serialises them; the goroutines (broadcasters, workers,
handlers) are interleaved move by move in `Sys`, where a `CloseRoom` stays in its
send on `done`, holding the lock, until the value is received.  Every database
statement takes its outcome (a driver fault, or the values the database generates)
as an argument.
-/

set_option linter.dupNamespace false

namespace ChatApi

/-! ## Go runtime: pointers, maps, slices, channels -/

/-- A `*websocket.Conn`: `none` is the nil pointer, `some a` the connection at address `a`. -/
abbrev Conn := Option Nat

/-- A Go `map[string]V`. -/
structure GoMap (V : Type) where
  get : String → Option V

/-- The map `make(map[string]V)`. -/
def GoMap.empty {V : Type} : GoMap V := ⟨fun _ => none⟩

/-- The assignment `m[k] = v`. -/
def GoMap.set {V : Type} (m : GoMap V) (k : String) (v : V) : GoMap V :=
  ⟨fun j => if j = k then some v else m.get j⟩

/-- The statement `delete(m, k)`. -/
def GoMap.delete {V : Type} (m : GoMap V) (k : String) : GoMap V :=
  ⟨fun j => if j = k then none else m.get j⟩

/-- A slice header `[]*websocket.Conn` with offset 0: the index of its backing
array in the heap and its length.  Its capacity is the length of that array. -/
structure Slice where
  arr : Nat
  len : Nat
  deriving DecidableEq, Repr

/-- The backing arrays allocated so far.  Index 0 is the zero-capacity base that
nil and empty slices point to. -/
abbrev Heap := List (List Conn)

/-- The heap before any allocation. -/
def Heap.init : Heap := [[]]

/-- The backing array at index `a`. -/
def Heap.array (h : Heap) (a : Nat) : List Conn := (h[a]?).getD []

/-- The nil slice, also the value of the literal `[]*websocket.Conn{}` (length 0, capacity 0). -/
def Slice.nil : Slice := ⟨0, 0⟩

/-- `cap(s)`. -/
def Slice.cap (h : Heap) (s : Slice) : Nat := (h.array s.arr).length

/-- The elements `s[0], ..., s[len(s)-1]` as the heap holds them now. -/
def Slice.elems (h : Heap) (s : Slice) : List Conn := (h.array s.arr).take s.len

/-- `append(s, xs...)`: when the capacity suffices the elements are written into
the backing array of `s` behind its length; otherwise a new array is allocated,
of the capacity `growCap` chooses (at least the needed length), and the old
elements are copied into it.  `growCap` is the runtime's growth policy. -/
def goAppend (growCap : Nat → Nat) (h : Heap) (s : Slice) (xs : List Conn) : Heap × Slice :=
  let a := h.array s.arr
  let n := s.len + xs.length
  if n ≤ a.length then
    (h.set s.arr (a.take s.len ++ xs ++ a.drop n), ⟨s.arr, n⟩)
  else
    (h ++ [a.take s.len ++ xs ++ List.replicate (max (growCap a.length) n - n) none],
      ⟨h.length, n⟩)

/-- The index of the first element equal to `c`: the `for i, c := range clients`
loop of `RemoveClientFromRoom` up to its `break`. -/
def firstIndex (c : Conn) : List Conn → Option Nat
  | [] => none
  | x :: xs => if x = c then some 0 else (firstIndex c xs).map (· + 1)

/-- What can abort a goroutine. -/
inductive Panic where
  | closeOfClosedChannel
  | closeOfNilChannel
  deriving DecidableEq, Repr

/-- `close(ch)` on the list of channel states (`true` = closed). -/
def closeChan (chans : List Bool) (ch : Nat) : Except Panic (List Bool) :=
  match chans[ch]? with
  | none => .error .closeOfNilChannel
  | some true => .error .closeOfClosedChannel
  | some false => .ok (chans.set ch true)

/-! ## Domain and durable store -/

/-- The `domain.Room` struct (`CreatedAt` as a clock reading). -/
structure Room where
  ID : String
  RoomName : String
  CreatedAt : Nat
  deriving DecidableEq, Repr

/-- The `domain.Message` struct. -/
structure Message where
  ID : Int
  UserID : Int
  RoomID : String
  Message : String
  Timestamp : Nat
  deriving DecidableEq, Repr

/-- A Go `error` value: one the database driver returned, one built by `fmt.Errorf`,
one built by `fmt.Errorf` with `%w` around a cause, a `*pq.Error` with its `Code` and
`Message`, or one built by `errors.New`. -/
inductive Err where
  | driver (msg : String)
  | errorf (format : String) (args : List String)
  | wrap (format : String) (args : List String) (cause : Err)
  | pq (code : String) (message : String)
  | new (msg : String)
  deriving DecidableEq, Repr

/-- The tables behind `*sql.DB`. -/
structure DB where
  rooms : List Room
  messages : List Message
  deriving DecidableEq, Repr

/-- `RoomRepository.GetRoomByName`: `fault` is a driver error other than `sql.ErrNoRows`. -/
def RoomRepository.GetRoomByName (db : DB) (roomName : String) (fault : Option Err) :
    Except Err (Option Room) :=
  match fault with
  | some err => .error (.wrap "error retrieving room by name %s: %w" [roomName] err)
  | none => .ok (db.rooms.find? (fun r => r.RoomName = roomName))

/-- `RoomRepository.GetRoomByID`. -/
def RoomRepository.GetRoomByID (db : DB) (roomID : String) (fault : Option Err) :
    Except Err Room :=
  match fault with
  | some err => .error (.wrap "error retrieving room by id %s: %w" [roomID] err)
  | none =>
    match db.rooms.find? (fun r => r.ID = roomID) with
    | none => .error (.errorf "room not found with id: %s" [roomID])
    | some r => .ok r

/-- `RoomRepository.CreateRoom`: `outcome` is what `INSERT ... RETURNING id, created_at`
yields, a driver error or the generated id and creation time. -/
def RoomRepository.CreateRoom (db : DB) (room : Room) (outcome : Except Err (String × Nat)) :
    DB × Room × Option Err :=
  match outcome with
  | .error err => (db, room, some (.wrap "error creating room %s: %w" [room.RoomName] err))
  | .ok (id, t) =>
    ({ db with rooms := db.rooms ++ [⟨id, room.RoomName, t⟩] },
      { room with ID := id, CreatedAt := t }, none)

/-- `MessageRepository.SaveMessage`: `countFault` is a failure of the room count
query, `insert` the outcome of `INSERT ... RETURNING id`. -/
def MessageRepository.SaveMessage (db : DB) (msg : Message) (countFault : Option Err)
    (insert : Except Err Int) : DB × Option Err :=
  let roomCount := db.rooms.countP (fun r => r.ID = msg.RoomID)
  if countFault.isSome ∨ roomCount = 0 then
    (db, some (.errorf "room %s does not exist" [msg.RoomID]))
  else
    match insert with
    | .error err => (db, some (.wrap "error saving message for room %s: %w" [msg.RoomID] err))
    | .ok id => ({ db with messages := db.messages ++ [{ msg with ID := id }] }, none)

/-! ## The use case -/

/-- The `ChatUsecase` struct with the part of the Go heap it owns: `db` is the
database behind `messageRepo` and `roomRepo`, `rooms` maps a room id to its
channel, `clients` a room id to its slice of connections. -/
structure ChatUsecase where
  db : DB
  rooms : GoMap Nat
  clients : GoMap Slice
  heap : Heap
  chans : List Bool

/-- `NewChatUsecase`, over a database that may already hold rows. -/
def NewChatUsecase (db : DB) : ChatUsecase :=
  { db := db, rooms := GoMap.empty, clients := GoMap.empty, heap := Heap.init, chans := [] }

/-- `ChatUsecase.CreateRoom`: returns the new state, the room as `Scan` left it, and the error. -/
def ChatUsecase.CreateRoom (uc : ChatUsecase) (room : Room) (lookupFault : Option Err)
    (insert : Except Err (String × Nat)) : ChatUsecase × Room × Option Err :=
  match RoomRepository.GetRoomByName uc.db room.RoomName lookupFault with
  | .error err => (uc, room, some (.wrap "error checking room in database: %w" [] err))
  | .ok (some _) => (uc, room, some (.errorf "room already exists" []))
  | .ok none =>
    match RoomRepository.CreateRoom uc.db room insert with
    | (db1, room1, some err) =>
      ({ uc with db := db1 }, room1,
        some (.wrap "error creating room in the database: %w" [] err))
    | (db1, room1, none) =>
      ({ uc with db := db1, chans := uc.chans ++ [false],
                 rooms := uc.rooms.set room1.ID uc.chans.length }, room1, none)

/-- `ChatUsecase.CloseRoom` up to its send on `done`: the registry it leaves and the
value it goes on to send, or the panic of `close`.  The send itself, in which the call
stays, holding `roomsMutex`, until a receiver takes the value, is the `closing` of
`Sys.closeRoom`. -/
def ChatUsecase.CloseRoom (uc : ChatUsecase) (roomID : String) : Except Panic (ChatUsecase × Bool) :=
  match uc.rooms.get roomID with
  | some room =>
    match closeChan uc.chans room with
    | .error p => .error p
    | .ok chans1 => .ok ({ uc with chans := chans1, rooms := uc.rooms.delete roomID }, true)
  | none => .ok (uc, false)

/-- `ChatUsecase.GetConnectedClients`: the slice header stored in the map, or the nil slice. -/
def ChatUsecase.GetConnectedClients (uc : ChatUsecase) (roomID : String) : Slice :=
  match uc.clients.get roomID with
  | some clients => clients
  | none => Slice.nil

/-- `ChatUsecase.AddClientToRoom`. -/
def ChatUsecase.AddClientToRoom (growCap : Nat → Nat) (uc : ChatUsecase) (roomID : String)
    (client : Conn) : ChatUsecase :=
  let clients0 : GoMap Slice :=
    match uc.clients.get roomID with
    | some _ => uc.clients
    | none => uc.clients.set roomID Slice.nil
  let cur : Slice := (clients0.get roomID).getD Slice.nil
  let r := goAppend growCap uc.heap cur [client]
  { uc with heap := r.1, clients := clients0.set roomID r.2 }

/-- `ChatUsecase.RemoveClientFromRoom`: at the first `i` with `clients[i] == client`,
`uc.clients[roomID] = append(clients[:i], clients[i+1:]...)`. -/
def ChatUsecase.RemoveClientFromRoom (growCap : Nat → Nat) (uc : ChatUsecase) (roomID : String)
    (client : Conn) : ChatUsecase :=
  match uc.clients.get roomID with
  | some clients =>
    match firstIndex client (clients.elems uc.heap) with
    | some i =>
      let r := goAppend growCap uc.heap ⟨clients.arr, i⟩ ((clients.elems uc.heap).drop (i + 1))
      { uc with heap := r.1, clients := uc.clients.set roomID r.2 }
    | none => uc
  | none => uc

/-- The connections of a room as the registry lists them now: the elements of
`uc.GetConnectedClients(roomID)` read from the heap. -/
def ChatUsecase.clientList (uc : ChatUsecase) (roomID : String) : List Conn :=
  (uc.GetConnectedClients roomID).elems uc.heap

/-- One `client.WriteJSON(msg)` call of the broadcaster and the error it returned. -/
structure WriteAttempt where
  client : Nat
  msg : Message
  err : Option Err
  deriving DecidableEq, Repr

/-! ## Serialised calls on the registry -/

/-- A call on the registry, with the outcomes of the database statements it runs. -/
inductive Op where
  | CreateRoom (room : Room) (lookupFault : Option Err) (insert : Except Err (String × Nat))
  | CloseRoom (roomID : String)
  | AddClientToRoom (roomID : String) (client : Conn)
  | RemoveClientFromRoom (roomID : String) (client : Conn)

/-- The state after one call. -/
def ChatUsecase.step (growCap : Nat → Nat) (uc : ChatUsecase) : Op → Except Panic ChatUsecase
  | .CreateRoom room lookupFault insert => .ok (uc.CreateRoom room lookupFault insert).1
  | .CloseRoom roomID =>
    match uc.CloseRoom roomID with
    | .error p => .error p
    | .ok r => .ok r.1
  | .AddClientToRoom roomID client => .ok (uc.AddClientToRoom growCap roomID client)
  | .RemoveClientFromRoom roomID client => .ok (uc.RemoveClientFromRoom growCap roomID client)

/-- The state after a sequence of calls made one at a time. -/
def ChatUsecase.run (growCap : Nat → Nat) : ChatUsecase → List Op → Except Panic ChatUsecase
  | uc, [] => .ok uc
  | uc, op :: ops =>
    match uc.step growCap op with
    | .error p => .error p
    | .ok uc1 => ChatUsecase.run growCap uc1 ops

/-- The states the calls reach from a new use case. -/
def Reachable (growCap : Nat → Nat) (uc : ChatUsecase) : Prop :=
  ∃ db ops, (NewChatUsecase db).run growCap ops = .ok uc

/-- The shape the client slices have in every reachable state: the base array
is empty, and every slice stored in `clients` lies within an allocated array of
its own. -/
structure ClientsWF (uc : ChatUsecase) : Prop where
  heap_pos : 0 < uc.heap.length
  base : uc.heap.array 0 = []
  own : ∀ r s, uc.clients.get r = some s →
    0 < s.arr ∧ s.arr < uc.heap.length ∧ s.len ≤ s.cap uc.heap
  inj : ∀ r1 r2 s1 s2, uc.clients.get r1 = some s1 → uc.clients.get r2 = some s2 →
    s1.arr = s2.arr → r1 = r2

/-- The shape the room channels have in every reachable state: the channel of a
listed room is allocated and not closed, and no two rooms share a channel. -/
structure RoomsWF (uc : ChatUsecase) : Prop where
  isOpen : ∀ r ch, uc.rooms.get r = some ch → uc.chans[ch]? = some false
  inj : ∀ r1 r2 ch, uc.rooms.get r1 = some ch → uc.rooms.get r2 = some ch → r1 = r2

/-! ## Vocabulary of the properties -/

/-- The error `CreateRoom` returns for a name the database already holds. -/
def errRoomAlreadyExists : Err := .errorf "room already exists" []

/-- One `CreateRoom` call with the outcomes of its two statements. -/
structure CreateCall where
  room : Room
  lookupFault : Option Err
  insert : Except Err (String × Nat)

/-- Whether the `INSERT` of a call goes through. -/
def CreateCall.insertOk (c : CreateCall) : Bool :=
  match c.insert with
  | .ok _ => true
  | .error _ => false

/-- `CreateRoom` calls made one after the other: the final state and what each call returned. -/
def ChatUsecase.createAll : ChatUsecase → List CreateCall → ChatUsecase × List (Option Err)
  | uc, [] => (uc, [])
  | uc, c :: cs =>
    let r := uc.CreateRoom c.room c.lookupFault c.insert
    let rest := ChatUsecase.createAll r.1 cs
    (rest.1, r.2.2 :: rest.2)

/-- What the calls carrying `name` returned, in call order. -/
def resultsFor (name : String) (calls : List CreateCall) (results : List (Option Err)) :
    List (Option Err) :=
  ((calls.zip results).filter (fun p => p.1.room.RoomName = name)).map (·.2)

/-- The number of rows of table `rooms` with the given name. -/
def DB.rowsNamed (db : DB) (name : String) : Nat :=
  db.rooms.countP (fun r => r.RoomName = name)

/-- A join or leave call on one fixed room. -/
inductive ClientCall where
  | add (client : Conn)
  | remove (client : Conn)
  deriving DecidableEq, Repr

/-- The connection a call is about. -/
def ClientCall.client : ClientCall → Conn
  | .add c => c
  | .remove c => c

/-- Whether a call is `AddClientToRoom`. -/
def ClientCall.isAdd : ClientCall → Bool
  | .add _ => true
  | .remove _ => false

/-- `AddClientToRoom` and `RemoveClientFromRoom` calls on room `roomID`, one after the other. -/
def ChatUsecase.applyCalls (growCap : Nat → Nat) (roomID : String) :
    ChatUsecase → List ClientCall → ChatUsecase
  | uc, [] => uc
  | uc, .add c :: rest =>
    ChatUsecase.applyCalls growCap roomID (uc.AddClientToRoom growCap roomID c) rest
  | uc, .remove c :: rest =>
    ChatUsecase.applyCalls growCap roomID (uc.RemoveClientFromRoom growCap roomID c) rest

/-- Whether the most recent call about connection `c` was `AddClientToRoom`. -/
def lastCallIsAdd (calls : List ClientCall) (c : Conn) : Bool :=
  match calls.reverse.find? (fun x => x.client = c) with
  | some x => x.isAdd
  | none => false

/-- No call of `calls` adds a connection whose most recent call before it, in
`earlier` followed by the calls already passed, was `AddClientToRoom`. -/
def noRejoinAfter : List ClientCall → List ClientCall → Bool
  | _, [] => true
  | earlier, .add c :: rest =>
    !lastCallIsAdd earlier c && noRejoinAfter (earlier ++ [.add c]) rest
  | earlier, .remove c :: rest => noRejoinAfter (earlier ++ [.remove c]) rest

/-- No connection is added while its most recent call is `AddClientToRoom`: it
joins only when it has left or never joined. -/
def noRejoin (calls : List ClientCall) : Bool := noRejoinAfter [] calls

/-- Every `AddClientToRoom` of the calls is made for a connection that no other room
lists at that moment. -/
def ChatUsecase.joinsUnlisted (growCap : Nat → Nat) : ChatUsecase → List Op → Prop
  | _, [] => True
  | uc, op :: ops =>
    (match op with
      | .AddClientToRoom roomID client => ∀ j, j ≠ roomID → client ∉ uc.clientList j
      | _ => True) ∧
    (match uc.step growCap op with
      | .ok uc1 => ChatUsecase.joinsUnlisted growCap uc1 ops
      | .error _ => True)

/-- Each connection handle is in the client list of at most one room. -/
def ChatUsecase.oneRoomPerConn (uc : ChatUsecase) : Prop :=
  ∀ c r1 r2, c ∈ uc.clientList r1 → c ∈ uc.clientList r2 → r1 = r2

/-- The addresses of the non-nil connections of a list, in list order. -/
def nonNil (conns : List Conn) : List Nat := conns.filterMap id

/-- One write per non-nil connection, in list order, for each message in turn. -/
def expectedWrites (conns : List Conn) : List Message → List (Nat × Message)
  | [] => []
  | m :: ms => (nonNil conns).map (fun a => (a, m)) ++ expectedWrites conns ms

/-- An example state: a room created under id "1", then joined by connection 1, a nil
pointer and connection 2. -/
def exampleRoom : ChatUsecase :=
  ((((NewChatUsecase ⟨[], []⟩).CreateRoom ⟨"", "general", 0⟩ none
    (.ok ("1", 10))).1.AddClientToRoom (fun c => 2 * c) "1" (some 1)).AddClientToRoom
      (fun c => 2 * c) "1" none).AddClientToRoom (fun c => 2 * c) "1" (some 2)

/-- What holds of the client list of the room after the calls `earlier`, whatever they are. -/
structure JoinedListed (uc : ChatUsecase) (roomID : String) (earlier : List ClientCall) : Prop where
  wf : ClientsWF uc
  listed : ∀ c, lastCallIsAdd earlier c = true → c ∈ uc.clientList roomID

/-- What holds of it when no connection joined twice in a row. -/
structure ListedIff (uc : ChatUsecase) (roomID : String) (earlier : List ClientCall) : Prop where
  wf : ClientsWF uc
  nodup : (uc.clientList roomID).Nodup
  iff : ∀ c, c ∈ uc.clientList roomID ↔ lastCallIsAdd earlier c = true

/-! ## Users: repository, use case, HTTP handlers -/

/-- The `domain.User` struct, with the fields the repository and the handlers use. -/
structure User where
  ID : Int
  Username : String
  Email : String
  Password : String
  deriving DecidableEq, Repr

/-- `UserRepository.CreateUser` on table `users`: `outcome` is what
`INSERT ... RETURNING id` yields, an error of the driver or the generated id. -/
def UserRepository.CreateUser (users : List User) (user : User) (outcome : Except Err Int) :
    List User × User × Option Err :=
  match outcome with
  | .error err => (users, user, some (.wrap "error creating user %s: %w" [user.Username] err))
  | .ok id => (users ++ [{ user with ID := id }], { user with ID := id }, none)

/-- `UserRepository.GetUserByEmail`: `fault` is a driver error other than `sql.ErrNoRows`. -/
def UserRepository.GetUserByEmail (users : List User) (email : String) (fault : Option Err) :
    Except Err User :=
  match fault with
  | some err => .error (.wrap "error retrieving user by email %s: %w" [email] err)
  | none =>
    match users.find? (fun u => u.Email = email) with
    | none => .error (.errorf "user not found with email: %s" [email])
    | some u => .ok u

/-- `UserUsecase.Register`. -/
def UserUsecase.Register (users : List User) (user : User) (outcome : Except Err Int) :
    List User × User × Option Err :=
  UserRepository.CreateUser users user outcome

/-- `UserUsecase.Login`: `checkPasswordHash password hash` is the error
`security.CheckPasswordHash` returns, `none` when the password matches the hash. -/
def UserUsecase.Login (checkPasswordHash : String → String → Option Err) (users : List User)
    (email password : String) (fault : Option Err) : Except Err User :=
  match UserRepository.GetUserByEmail users email fault with
  | .error _ => .error (.new "user not found")
  | .ok user =>
    match checkPasswordHash password user.Password with
    | some _ => .error (.new "invalid password")
    | none => .ok user

/-- What `c.JSON(status, gin.H{...})` sends: the status code and the keys of the object. -/
structure Response where
  status : Nat
  body : List (String × String)
  deriving DecidableEq, Repr

/-- The `RegisterRequest` struct. -/
structure RegisterRequest where
  Username : String
  Email : String
  Password : String
  deriving DecidableEq, Repr

/-- The `LoginRequest` struct. -/
structure LoginRequest where
  Email : String
  Password : String
  deriving DecidableEq, Repr

/-- Whether the characters `sub` occur in a row somewhere in the list. -/
def containsChars (sub : List Char) : List Char → Bool
  | [] => sub.isEmpty
  | c :: cs => sub.isPrefixOf (c :: cs) || containsChars sub cs

/-- `strings.Contains(s, sub)`. -/
def stringsContains (s sub : String) : Bool := containsChars sub.data s.data

/-- The type assertion `err.(*pq.Error)`: it succeeds on a `*pq.Error` itself, not on
an error that wraps one. -/
def Err.asPqError : Err → Option (String × String)
  | .pq code message => some (code, message)
  | _ => none

/-- `UserHandler.Register`: `bind` is what `c.ShouldBindJSON(&req)` leaves,
`hashPassword` stands for `security.HashPassword`, `register` for the `Register` of the
use case behind the interface.  Returns the response and the calls made to `register`,
each with the error it returned. -/
def UserHandler.Register (register : User → Option Err)
    (hashPassword : String → Except Err String) (bind : Except Err RegisterRequest) :
    Response × List (User × Option Err) :=
  match bind with
  | .error _ => (⟨400, [("error", "Invalid request format")]⟩, [])
  | .ok req =>
    if req.Username = "" ∨ req.Email = "" ∨ req.Password = "" then
      (⟨400, [("error", "Username, email, and password are required")]⟩, [])
    else
      match hashPassword req.Password with
      | .error _ => (⟨500, [("error", "Error hashing password")]⟩, [])
      | .ok hashedPassword =>
        let user : User := ⟨0, req.Username, req.Email, hashedPassword⟩
        match register user with
        | some err =>
          match err.asPqError with
          | some (code, message) =>
            if code = "23505" ∧ stringsContains message "users_email_key" then
              (⟨409, [("error", "Email already exists")]⟩, [(user, some err)])
            else
              (⟨500, [("error", "Error creating user")]⟩, [(user, some err)])
          | none => (⟨500, [("error", "Error creating user")]⟩, [(user, some err)])
        | none => (⟨200, [("message", "User registered successfully")]⟩, [(user, none)])

/-- `UserHandler.Login`: `login` stands for the `Login` of the use case behind the
interface, `generateJWT` for `security.GenerateJWT`.  Returns the response and the
arguments of the calls made to `generateJWT`. -/
def UserHandler.Login (login : String → String → Except Err User)
    (generateJWT : String → Except Err String) (bind : Except Err LoginRequest) :
    Response × List String :=
  match bind with
  | .error _ => (⟨400, [("error", "Invalid request")]⟩, [])
  | .ok req =>
    match login req.Email req.Password with
    | .error _ => (⟨401, [("error", "Invalid credentials")]⟩, [])
    | .ok user =>
      match generateJWT (toString user.ID) with
      | .error _ => (⟨500, [("error", "Error generating token")]⟩, [toString user.ID])
      | .ok token => (⟨200, [("token", token)]⟩, [toString user.ID])

/-! ## The persistence worker pool -/

/-- The capacity of `jobQueue`: `make(chan domain.Message, 100)`. -/
def jobQueueCap : Nat := 100

/-- The `jobQueue` channel of a `WorkerPool`: the messages in its buffer, oldest
first, and the messages of the `AddJob` calls blocked in the send on a full buffer,
in the order the calls arrived. -/
structure WorkerPool where
  jobQueue : List Message
  blocked : List Message
  deriving DecidableEq, Repr

/-- `NewWorkerPool`: an empty queue (the workers it launches wait on it). -/
def NewWorkerPool : WorkerPool := ⟨[], []⟩

/-- `WorkerPool.AddJob`: the send `wp.jobQueue <- msg`.  With room in the buffer the
message goes to its tail and the call returns (`true`); on a full buffer the caller
blocks in the send (`false`) until a receive takes it over. -/
def WorkerPool.AddJob (wp : WorkerPool) (msg : Message) : WorkerPool × Bool :=
  if wp.jobQueue.length < jobQueueCap then
    ({ wp with jobQueue := wp.jobQueue ++ [msg] }, true)
  else
    ({ wp with blocked := wp.blocked ++ [msg] }, false)

/-- The receive of `for msg := range wp.jobQueue`: the oldest message of the buffer,
and the channel after it; the message of the longest blocked sender moves into the
buffer, which lets that `AddJob` return.  `none` on an empty buffer: the worker waits. -/
def WorkerPool.receive (wp : WorkerPool) : Option (Message × WorkerPool) :=
  match wp.jobQueue with
  | [] => none
  | msg :: rest =>
    match wp.blocked with
    | [] => some (msg, { wp with jobQueue := rest })
    | b :: bs => some (msg, { jobQueue := rest ++ [b], blocked := bs })

/-- A worker pool with the database behind its `messageRepo` and the record of the
`SaveMessage` calls its workers made: each message passed, with the error returned. -/
structure PoolState where
  wp : WorkerPool
  db : DB
  handed : List (Message × Option Err)
  deriving DecidableEq, Repr

/-- One iteration of `WorkerPool.worker`: receive a message and pass it to
`SaveMessage`, whose error is only logged.  Without a message the worker waits and
nothing changes. -/
def PoolState.workerStep (s : PoolState) (countFault : Option Err) (insert : Except Err Int) :
    PoolState :=
  match s.wp.receive with
  | none => s
  | some (msg, wp1) =>
    let r := MessageRepository.SaveMessage s.db msg countFault insert
    { wp := wp1, db := r.1, handed := s.handed ++ [(msg, r.2)] }

/-- `WorkerPool.worker`: the loop `for msg := range wp.jobQueue`, one iteration per
pair of outcomes of the two statements of `SaveMessage`. -/
def PoolState.worker : PoolState → List (Option Err × Except Err Int) → PoolState
  | s, [] => s
  | s, (countFault, insert) :: rest => PoolState.worker (s.workerStep countFault insert) rest

/-- A move of the pool: an `AddJob` call, or an iteration of one of the workers. -/
inductive PoolOp where
  | AddJob (msg : Message)
  | work (countFault : Option Err) (insert : Except Err Int)

/-- The pool after a move. -/
def PoolState.step (s : PoolState) : PoolOp → PoolState
  | .AddJob msg => { s with wp := (s.wp.AddJob msg).1 }
  | .work countFault insert => s.workerStep countFault insert

/-- The pool after a sequence of moves. -/
def PoolState.run (s : PoolState) (ops : List PoolOp) : PoolState := ops.foldl PoolState.step s

/-- The messages passed to `AddJob` by a sequence of moves, in call order. -/
def submitted : List PoolOp → List Message
  | [] => []
  | .AddJob msg :: rest => msg :: submitted rest
  | .work _ _ :: rest => submitted rest

/-- The pool `NewWorkerPool` builds over a database. -/
def PoolState.new (db : DB) : PoolState := ⟨NewWorkerPool, db, []⟩

/-- The `SaveMessage` calls made on `db` for the given messages, one after the other,
each with the outcomes of its two statements: the database after the last call and, for
each call, the message passed and the error returned. -/
def saveAll : DB → List (Message × Option Err × Except Err Int) → DB × List (Message × Option Err)
  | db, [] => (db, [])
  | db, (msg, countFault, insert) :: rest =>
    ((saveAll (MessageRepository.SaveMessage db msg countFault insert).1 rest).1,
      (msg, (MessageRepository.SaveMessage db msg countFault insert).2) ::
        (saveAll (MessageRepository.SaveMessage db msg countFault insert).1 rest).2)

/-- The statement outcomes of those worker iterations of a schedule that find a message
to take, when `pending` messages are in the queue or waiting in `AddJob` at its start. -/
def served : Nat → List PoolOp → List (Option Err × Except Err Int)
  | _, [] => []
  | pending, .AddJob _ :: rest => served (pending + 1) rest
  | 0, .work _ _ :: rest => served 0 rest
  | pending + 1, .work countFault insert :: rest => (countFault, insert) :: served pending rest

/-- `ChatUsecase.SendMessageToRoom`: hands the message to the worker pool and returns
nil when `AddJob` returns. -/
def ChatUsecase.SendMessageToRoom (wp : WorkerPool) (msg : Message) : WorkerPool × Bool :=
  wp.AddJob msg

/-! ## Goroutines: broadcasters, workers and connection handlers -/

/-- The zero value of `domain.Message`, which a receive on a closed channel yields. -/
def zeroMessage : Message := ⟨0, 0, "", "", 0⟩

/-- Where a `BroadcastMessages` goroutine stands: waiting in `select`; holding a
message received from the room channel, `SaveMessage` next; past `SaveMessage`,
`GetConnectedClients` next; at index `i` of the `range` over the slice that call
returned; or returned. -/
inductive LoopPc where
  | selecting
  | received (msg : Message)
  | saved (msg : Message)
  | ranging (msg : Message) (clients : Slice) (i : Nat)
  | returned
  deriving DecidableEq, Repr

/-- A `BroadcastMessages(roomID, done)` goroutine: its room, the channel it read
from `uc.rooms[roomID]`, and where it stands.  Its `done` channel is identified with
its index in the list of goroutines. -/
structure Loop where
  roomID : String
  room : Nat
  pc : LoopPc
  deriving DecidableEq, Repr

/-- The case a `select` of the broadcaster takes, when that case is ready. -/
inductive SelectChoice where
  | room
  | done
  deriving DecidableEq, Repr

/-- The server: the use case, the worker pool, the broadcaster goroutines, the sends
pending on room channels (channel and message, in the order they are made), a
`CloseRoom` blocked in `done <- v` on the `done` of goroutine `k` while it holds
`roomsMutex`, and the record of the writes to connections and of the `SaveMessage`
calls. -/
structure Sys where
  uc : ChatUsecase
  wp : WorkerPool
  loops : List Loop
  feed : List (Nat × Message)
  closing : Option (Nat × Bool)
  writes : List WriteAttempt
  saves : List (Message × Option Err)

/-- The server `main` builds: a new use case and pool, no goroutine, no pending send. -/
def Sys.new (db : DB) : Sys :=
  { uc := NewChatUsecase db, wp := NewWorkerPool, loops := [], feed := [], closing := none,
    writes := [], saves := [] }

/-- The start of `go BroadcastMessages(roomID, done)`: the goroutine reads
`uc.rooms[roomID]` and returns at once when there is no entry. -/
def Sys.spawn (s : Sys) (roomID : String) : Sys :=
  match s.uc.rooms.get roomID with
  | none => { s with loops := s.loops ++ [⟨roomID, 0, .returned⟩] }
  | some room => { s with loops := s.loops ++ [⟨roomID, room, .selecting⟩] }

/-- Goroutine `k` moves to `pc`. -/
def Sys.setPc (s : Sys) (k : Nat) (l : Loop) (pc : LoopPc) : Sys :=
  { s with loops := s.loops.set k { l with pc := pc } }

/-- The next move of broadcaster `k`.  In `select` it takes the chosen case if that
case is ready: the room channel is ready when it is closed (the receive yields the zero
message) or when the oldest pending send is on it; `done` is ready when a `CloseRoom`
is blocked sending on it.  A holder of a message calls `SaveMessage`, then
`GetConnectedClients` (which waits while `CloseRoom` holds the lock), then visits the
slice entry by entry, writing to every non-nil connection.  A goroutine that cannot
move leaves the state as it is. -/
def Sys.loopStep (s : Sys) (k : Nat) (choice : SelectChoice) (countFault : Option Err)
    (insert : Except Err Int) (writeErr : Option Err) : Sys :=
  match s.loops[k]? with
  | none => s
  | some l =>
    match l.pc with
    | .selecting =>
      match choice with
      | .room =>
        if s.uc.chans[l.room]? = some true then s.setPc k l (.received zeroMessage)
        else
          match s.feed with
          | [] => s
          | (ch, msg) :: rest =>
            if ch = l.room then { s.setPc k l (.received msg) with feed := rest } else s
      | .done =>
        match s.closing with
        | none => s
        | some (j, _) => if j = k then { s.setPc k l .returned with closing := none } else s
    | .received msg =>
      let r := MessageRepository.SaveMessage s.uc.db msg countFault insert
      { s.setPc k l (.saved msg) with
        uc := { s.uc with db := r.1 }, saves := s.saves ++ [(msg, r.2)] }
    | .saved msg =>
      match s.closing with
      | some _ => s
      | none => s.setPc k l (.ranging msg (s.uc.GetConnectedClients l.roomID) 0)
    | .ranging msg clients i =>
      match (clients.elems s.uc.heap)[i]? with
      | none => s.setPc k l .selecting
      | some none => s.setPc k l (.ranging msg clients (i + 1))
      | some (some a) =>
        { s.setPc k l (.ranging msg clients (i + 1)) with
          writes := s.writes ++ [⟨a, msg, writeErr⟩] }
    | .returned => s

/-- An iteration of a worker of the pool, on the database of the server. -/
def Sys.workerStep (s : Sys) (countFault : Option Err) (insert : Except Err Int) : Sys :=
  match s.wp.receive with
  | none => s
  | some (msg, wp1) =>
    let r := MessageRepository.SaveMessage s.uc.db msg countFault insert
    { s with wp := wp1, uc := { s.uc with db := r.1 }, saves := s.saves ++ [(msg, r.2)] }

/-- The body of the read loop of `WebSocketHandler` for a payload read at time `now`:
the message is built and passed to `SendMessageToRoom`. -/
def Sys.accept (s : Sys) (userID : Int) (roomID : String) (payload : String) (now : Nat) : Sys :=
  { s with wp := (ChatUsecase.SendMessageToRoom s.wp ⟨0, userID, roomID, payload, now⟩).1 }

/-- A call on the registry; it waits (nothing changes) while `CloseRoom` holds the lock.
A `CloseRoom` made this way is one whose value is received from `done` at once; one that
stays in its send is `Sys.closeRoom`. -/
def Sys.registry (growCap : Nat → Nat) (s : Sys) (op : Op) : Sys :=
  match s.closing with
  | some _ => s
  | none =>
    match s.uc.step growCap op with
    | .error _ => s
    | .ok uc1 => { s with uc := uc1 }

/-- `CloseRoom(roomID, done)` with the `done` of goroutine `k`, up to its send on
`done`, in which it stays, holding the lock, until that goroutine receives. -/
def Sys.closeRoom (s : Sys) (roomID : String) (k : Nat) : Sys :=
  match s.closing with
  | some _ => s
  | none =>
    match s.uc.CloseRoom roomID with
    | .error _ => s
    | .ok (uc1, v) => { s with uc := uc1, closing := some (k, v) }

/-- A move of one goroutine of the server. -/
inductive Action where
  | loop (k : Nat) (choice : SelectChoice) (countFault : Option Err) (insert : Except Err Int)
      (writeErr : Option Err)
  | work (countFault : Option Err) (insert : Except Err Int)
  | accept (userID : Int) (roomID : String) (payload : String) (now : Nat)
  | registry (op : Op)
  | spawn (roomID : String)
  | closeRoom (roomID : String) (k : Nat)

/-- The server after a move. -/
def Sys.step (growCap : Nat → Nat) (s : Sys) : Action → Sys
  | .loop k choice countFault insert writeErr => s.loopStep k choice countFault insert writeErr
  | .work countFault insert => s.workerStep countFault insert
  | .accept userID roomID payload now => s.accept userID roomID payload now
  | .registry op => s.registry growCap op
  | .spawn roomID => s.spawn roomID
  | .closeRoom roomID k => s.closeRoom roomID k

/-- The server after a sequence of moves, in the order a scheduler interleaves them. -/
def Sys.run (growCap : Nat → Nat) (s : Sys) (acts : List Action) : Sys :=
  acts.foldl (Sys.step growCap) s

/-- The server in which one broadcaster waits on the channel `room` of `roomID` and
the messages `msgs` are being sent on that channel, in order. -/
def Sys.oneLoop (uc : ChatUsecase) (wp : WorkerPool) (roomID : String) (room : Nat)
    (msgs : List Message) : Sys :=
  { uc := uc, wp := wp, loops := [⟨roomID, room, .selecting⟩],
    feed := msgs.map (fun m => (room, m)), closing := none, writes := [], saves := [] }

/-- The writes a broadcaster still owes for the message it holds, given the list its
slice reads. -/
def LoopPc.owed (conns : List Conn) : LoopPc → List (Nat × Message)
  | .selecting => []
  | .received msg => (nonNil conns).map (fun a => (a, msg))
  | .saved msg => (nonNil conns).map (fun a => (a, msg))
  | .ranging msg _ i => (nonNil (conns.drop i)).map (fun a => (a, msg))
  | .returned => []

/-- The moves a broadcaster needs to get back to `select` from where it stands, when
its slice has `n` entries. -/
def LoopPc.togo (n : Nat) : LoopPc → Nat
  | .selecting => 0
  | .received _ => n + 3
  | .saved _ => n + 2
  | .ranging _ _ i => n + 1 - i
  | .returned => 0

/-- An example state: a room created under id "1" and joined by connections 1 and 2,
each handler having started a broadcaster. -/
def exampleJoined : Sys :=
  Sys.run (fun c => 2 * c) (Sys.new ⟨[], []⟩)
    [.registry (.CreateRoom ⟨"", "general", 0⟩ none (.ok ("1", 10))),
      .registry (.AddClientToRoom "1" (some 1)), .spawn "1",
      .registry (.AddClientToRoom "1" (some 2)), .spawn "1"]

/-- The example state `exampleJoined` while "one" and "two" are being sent, in this
order, on the channel of the room. -/
def exampleTwoLoops : Sys :=
  { exampleJoined with
    feed := [(0, ⟨0, 7, "1", "one", 1⟩), (0, ⟨0, 7, "1", "two", 2⟩)] }

/-- An example schedule: broadcaster 0 takes "one", broadcaster 1 takes "two" and
writes it to both connections, then broadcaster 0 writes "one" to both. -/
def exampleOvertaking : List Action :=
  [.loop 0 .room none (.ok 1) none, .loop 1 .room none (.ok 2) none,
    .loop 1 .room none (.ok 2) none, .loop 1 .room none (.ok 2) none,
    .loop 1 .room none (.ok 2) none, .loop 1 .room none (.ok 2) none,
    .loop 0 .room none (.ok 1) none, .loop 0 .room none (.ok 1) none,
    .loop 0 .room none (.ok 1) none, .loop 0 .room none (.ok 1) none]

/-- An example schedule on `exampleJoined`: the handler of connection 1 ends
(`RemoveClientFromRoom`, then `CloseRoom` with the `done` of broadcaster 0),
broadcaster 0 takes `done`, and broadcaster 1 makes five moves. -/
def exampleAfterClose : List Action :=
  [.registry (.RemoveClientFromRoom "1" (some 1)), .closeRoom "1" 0,
    .loop 0 .done none (.ok 1) none,
    .loop 1 .room none (.ok 1) none, .loop 1 .room none (.ok 1) none,
    .loop 1 .room none (.ok 1) none, .loop 1 .room none (.ok 1) none,
    .loop 1 .room none (.ok 1) none]

/-- Whether a move is one of those that go on while the connections stay joined: a
move of a broadcaster or of a worker, or a payload accepted by a handler. -/
def Action.isTraffic : Action → Bool
  | .loop _ _ _ _ _ => true
  | .work _ _ => true
  | .accept _ _ _ _ => true
  | _ => false

/-- What holds while no send is pending on a room channel and no channel is closed:
every broadcaster waits in `select` on an open channel or has returned, and nothing
has been written. -/
structure Quiet (s : Sys) : Prop where
  feed : s.feed = []
  writes : s.writes = []
  loops : ∀ l ∈ s.loops,
    (l.pc = .selecting ∧ s.uc.chans[l.room]? ≠ some true) ∨ l.pc = .returned

/-- Whether a call on the registry leaves the client list and the channel of `roomID`
alone: it is not a join or leave of that room and does not close it. -/
def Op.spares (roomID : String) : Op → Bool
  | .CreateRoom _ _ _ => true
  | .CloseRoom r => decide (r ≠ roomID)
  | .AddClientToRoom r _ => decide (r ≠ roomID)
  | .RemoveClientFromRoom r _ => decide (r ≠ roomID)

/-- Whether a move leaves the broadcasting of room `roomID` undisturbed: it starts no
further broadcaster, and it is neither a join or leave of that room nor a close of it. -/
def Action.spares (roomID : String) : Action → Bool
  | .loop _ _ _ _ _ => true
  | .work _ _ => true
  | .accept _ _ _ _ => true
  | .registry op => op.spares roomID
  | .spawn _ => false
  | .closeRoom r _ => decide (r ≠ roomID)

/-- Whether a move is a `CloseRoom(roomID, done)` call, which holds the lock during its
send on `done`. -/
def Action.isCloseRoom : Action → Bool
  | .closeRoom _ _ => true
  | _ => false

/-- Whether a move is a move of broadcaster `k` that, in `select`, goes for the room
channel. -/
def Action.isRoomTick (k : Nat) : Action → Bool
  | .loop j .room _ _ _ => decide (j = k)
  | _ => false

/-- What the moves that spare `roomID` keep of the registry `uc` the broadcaster started
with: the client slices are well formed, the room lists the connections it listed, in the
slice it had, and its channel `room` is open and belongs to no other room. -/
structure RoomKept (uc : ChatUsecase) (roomID : String) (room : Nat) (uc1 : ChatUsecase) :
    Prop where
  wf : ClientsWF uc1
  list : uc1.clientList roomID = uc.clientList roomID
  stored : uc1.GetConnectedClients roomID = uc.GetConnectedClients roomID
  isOpen : uc1.chans[room]? = some false
  owner : ∀ r, uc1.rooms.get r = some room → r = roomID

/-- What holds of the server with one broadcaster of `roomID` while the moves made spare
that room: the room is as it was, the pending sends are on its channel, and the writes
made, the writes owed for the message held and the writes due for the messages still to
be sent make up the writes due for all messages. -/
structure AloneInv (uc : ChatUsecase) (roomID : String) (room : Nat) (msgs : List Message)
    (s : Sys) (pc : LoopPc) : Prop where
  loops : s.loops = [⟨roomID, room, pc⟩]
  kept : RoomKept uc roomID room s.uc
  feed : ∀ p ∈ s.feed, p.1 = room
  slice : ∀ msg cl i, pc = .ranging msg cl i →
    cl = uc.GetConnectedClients roomID ∧ i ≤ (uc.clientList roomID).length
  total : s.writes.map (fun w => (w.client, w.msg)) ++ pc.owed (uc.clientList roomID) ++
      expectedWrites (uc.clientList roomID) (s.feed.map (·.2)) =
    expectedWrites (uc.clientList roomID) msgs

/-! ## The WebSocket handler -/

/-- What `WebSocketHandler` does that the outside or the use case sees, in order: a
JSON response, a close frame (`ws.WriteMessage(websocket.CloseMessage, ...)`), the calls
`AddClientToRoom`, `go BroadcastMessages`, `SendMessageToRoom`, `RemoveClientFromRoom`
and `CloseRoom`, and the deferred `ws.Close()`. -/
inductive HEvent where
  | json (status : Nat) (body : List (String × String))
  | closeFrame (code : Nat) (reason : String)
  | added (roomID : String) (client : Conn)
  | spawned (roomID : String)
  | sent (msg : Message)
  | removed (roomID : String) (client : Conn)
  | closeRoomCalled (roomID : String)
  | wsClosed
  deriving DecidableEq, Repr

/-- The constant `websocket.CloseNormalClosure`. -/
def CloseNormalClosure : Nat := 1000

/-- `strings.TrimPrefix(token, "Bearer ")`. -/
def trimBearer (token : String) : String :=
  if "Bearer ".data.isPrefixOf token.data then String.mk (token.data.drop 7) else token

/-- The start of `WebSocketHandler` up to the user id: the `Authorization` header must
be there, `security.ValidateJWT` (here `validateJWT`, returning the subject) must accept
the token, and `strconv.Atoi` (here `atoi`) must read a non-zero id from the subject. -/
def WSHandler.authenticate (validateJWT : String → Except Err String)
    (atoi : String → Except Err Int) (authorization : String) : Option Int :=
  if authorization = "" then none
  else
    match validateJWT (trimBearer authorization) with
    | .error _ => none
    | .ok subject =>
      match atoi subject with
      | .error _ => none
      | .ok userID => if userID = 0 then none else some userID

/-- `ChatUsecase.GetRoomByID`. -/
def ChatUsecase.GetRoomByID (uc : ChatUsecase) (roomID : String) (fault : Option Err) :
    Except Err Room :=
  match RoomRepository.GetRoomByID uc.db roomID fault with
  | .error err => .error (.wrap "error fetching room by ID: %w" [] err)
  | .ok room => .ok room

/-- The read loop of `WebSocketHandler` over the results of `ws.ReadMessage()`, each
with the time `time.Now()` shows when it is read: every payload is passed to
`SendMessageToRoom`, the first error ends the loop; when `SendMessageToRoom` does not
return (the job queue is full) the handler waits in it and reads no further.  Returns
the state, the events and whether the loop has ended. -/
def WSHandler.readLoop (userID : Int) (roomID : String) :
    Sys → List (Except Err String × Nat) → Sys × List HEvent × Bool
  | s, [] => (s, [], false)
  | s, (.error _, _) :: _ => (s, [], true)
  | s, (.ok payload, now) :: rest =>
    if (ChatUsecase.SendMessageToRoom s.wp ⟨0, userID, roomID, payload, now⟩).2 then
      let r := WSHandler.readLoop userID roomID (s.accept userID roomID payload now) rest
      (r.1, .sent ⟨0, userID, roomID, payload, now⟩ :: r.2.1, r.2.2)
    else (s.accept userID roomID payload now, [.sent ⟨0, userID, roomID, payload, now⟩], false)

/-- `WSHandler.WebSocketHandler` for a request with the given `Authorization` header
and `roomID` parameter: `upgrade` is what `upgrader.Upgrade` returns, `roomFault` a
failure of the query of `GetRoomByID`, `reads` the results of the reads.  Returns the
state and the events up to the point the handler has reached: its return, a wait for
`roomsMutex`, a wait for the next payload, or the send on `done` inside `CloseRoom`. -/
def WSHandler.WebSocketHandler (growCap : Nat → Nat) (validateJWT : String → Except Err String)
    (atoi : String → Except Err Int) (s : Sys) (authorization roomID : String)
    (upgrade : Except Err Conn) (roomFault : Option Err)
    (reads : List (Except Err String × Nat)) : Sys × List HEvent :=
  match WSHandler.authenticate validateJWT atoi authorization with
  | none => (s, [.json 401 [("error", "Unauthorized")]])
  | some userID =>
    match upgrade with
    | .error _ => (s, [])
    | .ok ws =>
      match s.uc.GetRoomByID roomID roomFault with
      | .error _ => (s, [.closeFrame CloseNormalClosure "Room does not exist", .wsClosed])
      | .ok _ =>
        match s.closing with
        | some _ => (s, [])
        | none =>
          let s1 := (s.registry growCap (.AddClientToRoom roomID ws)).spawn roomID
          let r := WSHandler.readLoop userID roomID s1 reads
          if r.2.2 then
            ((r.1.registry growCap (.RemoveClientFromRoom roomID ws)).closeRoom roomID
                s.loops.length,
              [.added roomID ws, .spawned roomID] ++ r.2.1 ++
                [.removed roomID ws, .closeRoomCalled roomID])
          else (r.1, [.added roomID ws, .spawned roomID] ++ r.2.1)

/-- The messages the read loop builds from the payloads read before the first error. -/
def messagesRead (userID : Int) (roomID : String) : List (Except Err String × Nat) → List Message
  | [] => []
  | (.error _, _) :: _ => []
  | (.ok payload, now) :: rest =>
    ⟨0, userID, roomID, payload, now⟩ :: messagesRead userID roomID rest

/-- The messages of the `SendMessageToRoom` calls among the events. -/
def sentMessages : List HEvent → List Message
  | [] => []
  | .sent msg :: rest => msg :: sentMessages rest
  | _ :: rest => sentMessages rest

/-- Whether an event is a join or an accepted message. -/
def HEvent.admits : HEvent → Bool
  | .added _ _ => true
  | .sent _ => true
  | _ => false

/-- An example state: a room created under id "1" and closed again, so that the store
holds it and `rooms` does not. -/
def exampleClosed : Sys :=
  Sys.run (fun c => 2 * c) (Sys.new ⟨[], []⟩)
    [.registry (.CreateRoom ⟨"", "general", 0⟩ none (.ok ("1", 10))),
      .registry (.CloseRoom "1")]

/-- The end of `WebSocketHandler`, after its read loop:
`RemoveClientFromRoom(roomID, ws)`, then `CloseRoom(roomID, done)` with the `done` of
the broadcaster `k` the handler started, up to the send on `done`. -/
def WSHandler.leave (growCap : Nat → Nat) (s : Sys) (roomID : String) (ws : Conn) (k : Nat) :
    Sys :=
  (s.registry growCap (.RemoveClientFromRoom roomID ws)).closeRoom roomID k

/-- The states the server reaches from the one `main` builds. -/
def Sys.Reachable (growCap : Nat → Nat) (s : Sys) : Prop :=
  ∃ db acts, Sys.run growCap (Sys.new db) acts = s

/-- An example state: rooms "1" and "2" are open, connections 1 and 4 joined "1",
connections 2 and 3 joined "2", each handler having started a broadcaster (0 and 1 for
room "1", 2 and 3 for room "2"); then the handler of connection 1 ended
(`RemoveClientFromRoom`, then `CloseRoom` with the `done` of broadcaster 0), and
broadcaster 0, woken by the closed channel, took the zero message and passed it to
`SaveMessage`: it waits for the lock in `GetConnectedClients` while `CloseRoom` waits,
holding the lock, for it to receive from `done`. -/
def exampleLockHeld : Sys :=
  Sys.run (fun c => 2 * c) (Sys.new ⟨[], []⟩)
    [.registry (.CreateRoom ⟨"", "general", 0⟩ none (.ok ("1", 10))),
      .registry (.CreateRoom ⟨"", "lobby", 0⟩ none (.ok ("2", 11))),
      .registry (.AddClientToRoom "1" (some 1)), .spawn "1",
      .registry (.AddClientToRoom "1" (some 4)), .spawn "1",
      .registry (.AddClientToRoom "2" (some 2)), .spawn "2",
      .registry (.AddClientToRoom "2" (some 3)), .spawn "2",
      .registry (.RemoveClientFromRoom "1" (some 1)), .closeRoom "1" 0,
      .loop 0 .room none (.ok 1) none, .loop 0 .room none (.ok 1) none]

/-- An example schedule on `exampleJoined`: `CloseRoom("1", done)` with the `done` of
broadcaster 0, broadcaster 0 receives from `done` and returns, and `CloseRoom("1", done)`
is called again with the same `done`. -/
def exampleClosedTwice : Sys :=
  Sys.run (fun c => 2 * c) exampleJoined
    [.closeRoom "1" 0, .loop 0 .done none (.ok 1) none, .closeRoom "1" 0]

/-- What keeps a slice `sl` once returned for `roomID` reading the list `conns`: its cells
read `conns`, it lies in an allocated array, and a slice stored in `clients` over the same
array is the one of `roomID` and at least as long, so that an `append` on it writes behind
the cells of `sl`. -/
structure SnapshotKept (uc : ChatUsecase) (roomID : String) (sl : Slice) (conns : List Conn) :
    Prop where
  wf : ClientsWF uc
  lt : sl.arr < uc.heap.length
  base : sl.arr = 0 → sl.len = 0
  reads : sl.elems uc.heap = conns
  owner : ∀ r t, uc.clients.get r = some t → t.arr = sl.arr → r = roomID ∧ sl.len ≤ t.len

/-- An example registry: connections 1 and 2 joined "lobby", in an array with room for
four. -/
def exampleLobby : ChatUsecase :=
  ((NewChatUsecase ⟨[], []⟩).AddClientToRoom (fun c => 2 * c + 4) "lobby" (some 1)).AddClientToRoom
    (fun c => 2 * c + 4) "lobby" (some 2)

/-- Example calls: 3 joins "lobby" and leaves it, 9 joins "lobby", 4 joins "hall" and
leaves it, a room is created and closed; neither 1 nor 2 is removed from "lobby". -/
def exampleLaterCalls : List Op :=
  [.AddClientToRoom "lobby" (some 3), .RemoveClientFromRoom "lobby" (some 3),
    .AddClientToRoom "lobby" (some 9), .AddClientToRoom "hall" (some 4),
    .RemoveClientFromRoom "hall" (some 4),
    .CreateRoom ⟨"", "general", 0⟩ none (.ok ("1", 10)), .CloseRoom "1"]

/-- Whether a move is a move of broadcaster `k`. -/
def Action.isLoopOf (k : Nat) : Action → Bool
  | .loop j _ _ _ _ => decide (j = k)
  | _ => false

/-- The writes broadcaster `k` makes in a schedule, in order: for each of its moves,
what the move adds to the record of the writes. -/
def Sys.writesOf (growCap : Nat → Nat) (k : Nat) : Sys → List Action → List WriteAttempt
  | _, [] => []
  | s, a :: rest =>
    (if a.isLoopOf k then (s.step growCap a).writes.drop s.writes.length else []) ++
      Sys.writesOf growCap k (s.step growCap a) rest

/-- An example state: a room created under id "1" and joined by connections 1, 2 and 3,
with one broadcaster, while "one" is being sent on the channel of the room. -/
def exampleThree : Sys :=
  { Sys.run (fun c => 2 * c) (Sys.new ⟨[], []⟩)
      [.registry (.CreateRoom ⟨"", "general", 0⟩ none (.ok ("1", 10))),
        .registry (.AddClientToRoom "1" (some 1)), .spawn "1",
        .registry (.AddClientToRoom "1" (some 2)),
        .registry (.AddClientToRoom "1" (some 3))] with
    feed := [(0, ⟨0, 7, "1", "one", 1⟩)] }

/-- An example schedule on `exampleThree`: the broadcaster takes "one", saves it, reads
the slice of the room and writes to connection 1; connection 1 leaves the room; the
broadcaster visits the two remaining entries of its slice and ends the range. -/
def exampleLeaveDuringRange : List Action :=
  [.loop 0 .room none (.ok 1) none, .loop 0 .room none (.ok 1) none,
    .loop 0 .room none (.ok 1) none, .loop 0 .room none (.ok 1) none,
    .registry (.RemoveClientFromRoom "1" (some 1)),
    .loop 0 .room none (.ok 1) none, .loop 0 .room none (.ok 1) none,
    .loop 0 .room none (.ok 1) none]

/-- An example state: in `exampleThree` the broadcaster has taken "one" and passed it to
`SaveMessage`, which stored it. -/
def exampleSaved : Sys :=
  Sys.run (fun c => 2 * c) exampleThree
    [.loop 0 .room none (.ok 1) none, .loop 0 .room none (.ok 1) none]

/-- An example schedule on `exampleSaved`, after the broadcaster has read the slice of
the room: it writes to connection 1; connection 9 joins the room; its write to connection
2 fails; connection 9 leaves again; it writes to connection 3 and ends the range. -/
def exampleJoinDuringRange : List Action :=
  [.loop 0 .room none (.ok 1) none, .registry (.AddClientToRoom "1" (some 9)),
    .loop 0 .room none (.ok 1) (some (.driver "broken pipe")),
    .registry (.RemoveClientFromRoom "1" (some 9)),
    .loop 0 .room none (.ok 1) none, .loop 0 .room none (.ok 1) none]

/-- An example schedule for the only broadcaster of room "1": its moves on the room case,
fourteen in all, among a room "2" being created, joined and left, a worker iteration, an
accepted payload and a look at `done`. -/
def exampleBusy : List Action :=
  [.registry (.CreateRoom ⟨"", "lobby", 0⟩ none (.ok ("2", 11))),
    .loop 0 .room none (.ok 1) none, .loop 0 .room none (.ok 1) none,
    .registry (.AddClientToRoom "2" (some 8)),
    .loop 0 .room none (.ok 1) none, .loop 0 .room none (.ok 1) none,
    .accept 7 "1" "hi" 3, .work none (.ok 5),
    .loop 0 .room none (.ok 1) (some (.driver "broken pipe")),
    .loop 0 .room none (.ok 1) none, .loop 0 .room none (.ok 1) none,
    .registry (.RemoveClientFromRoom "2" (some 8)), .loop 0 .done none (.ok 1) none,
    .loop 0 .room none (.ok 1) none, .loop 0 .room none (.ok 1) none,
    .loop 0 .room none (.ok 1) none, .loop 0 .room none (.ok 1) none,
    .registry (.CloseRoom "2"),
    .loop 0 .room none (.ok 1) none, .loop 0 .room none (.ok 1) none,
    .loop 0 .room none (.ok 1) none]

/-! ## Lemmas on the runtime -/

@[simp] theorem GoMap.get_empty {V : Type} (k : String) : (GoMap.empty : GoMap V).get k = none := rfl

@[simp] theorem GoMap.get_set {V : Type} (m : GoMap V) (k j : String) (v : V) :
    (m.set k v).get j = if j = k then some v else m.get j := rfl

@[simp] theorem GoMap.get_delete {V : Type} (m : GoMap V) (k j : String) :
    (m.delete k).get j = if j = k then none else m.get j := rfl

theorem firstIndex_eq_none (c : Conn) (l : List Conn) : firstIndex c l = none ↔ c ∉ l := by
  induction l with
  | nil => simp [firstIndex]
  | cons x xs ih =>
    by_cases hx : x = c
    · simp [firstIndex, hx]
    · have hne : ¬ c = x := fun h => hx h.symm
      simp [firstIndex, hx, hne, ih]

theorem firstIndex_some (c : Conn) (l : List Conn) (i : Nat) (h : firstIndex c l = some i) :
    i < l.length ∧ l.take i ++ l.drop (i + 1) = l.erase c := by
  induction l generalizing i with
  | nil => simp [firstIndex] at h
  | cons x xs ih =>
    by_cases hx : x = c
    · simp [firstIndex, hx] at h
      subst h
      simp [hx]
    · simp only [firstIndex, hx, if_false, Option.map_eq_some'] at h
      obtain ⟨j, hj, rfl⟩ := h
      have := ih j hj
      have hbeq : (x == c) = false := by simpa using hx
      simp [List.erase_cons, hbeq, this.1, this.2]

theorem Heap.array_set (h : Heap) (a b : Nat) (v : List Conn) :
    Heap.array (h.set a v) b = if a = b ∧ a < h.length then v else Heap.array h b := by
  unfold Heap.array
  by_cases hab : a = b
  · subst hab
    by_cases hlt : a < h.length
    · simp [hlt]
    · have h1 : h[a]? = none := List.getElem?_eq_none (by omega)
      have h2 : (h.set a v)[a]? = none := List.getElem?_eq_none (by simp; omega)
      simp [hlt, h1, h2]
  · simp [hab, List.getElem?_set_ne hab]

theorem Heap.array_append (h : Heap) (v : List Conn) (b : Nat) :
    Heap.array (h ++ [v]) b = if b = h.length then v else Heap.array h b := by
  unfold Heap.array
  by_cases hb : b = h.length
  · subst hb; simp
  · rcases Nat.lt_or_gt_of_ne hb with hlt | hgt
    · simp [hb, List.getElem?_append_left hlt]
    · have h1 : (h ++ [v])[b]? = none := List.getElem?_eq_none (by simp; omega)
      have h2 : h[b]? = none := List.getElem?_eq_none (by omega)
      simp [hb, h1, h2]

theorem Heap.array_of_length_le (h : Heap) (b : Nat) (hb : h.length ≤ b) : Heap.array h b = [] := by
  unfold Heap.array
  rw [List.getElem?_eq_none hb]; rfl

theorem goAppend_len (g : Nat → Nat) (h : Heap) (s : Slice) (xs : List Conn) :
    (goAppend g h s xs).2.len = s.len + xs.length := by
  unfold goAppend
  by_cases hc : s.len + xs.length ≤ (h.array s.arr).length <;> simp [hc]

theorem goAppend_heap_length (g : Nat → Nat) (h : Heap) (s : Slice) (xs : List Conn) :
    h.length ≤ (goAppend g h s xs).1.length := by
  unfold goAppend
  by_cases hc : s.len + xs.length ≤ (h.array s.arr).length <;> simp [hc]

theorem goAppend_arr (g : Nat → Nat) (h : Heap) (s : Slice) (xs : List Conn) :
    (goAppend g h s xs).2.arr = s.arr ∨ (goAppend g h s xs).2.arr = h.length := by
  unfold goAppend
  by_cases hc : s.len + xs.length ≤ (h.array s.arr).length <;> simp [hc]

theorem goAppend_arr_lt (g : Nat → Nat) (h : Heap) (s : Slice) (xs : List Conn)
    (hs : s.arr < h.length) : (goAppend g h s xs).2.arr < (goAppend g h s xs).1.length := by
  unfold goAppend
  by_cases hc : s.len + xs.length ≤ (h.array s.arr).length <;> simp [hc, hs]

/-- The array the result of `append` lies in, after the call. -/
theorem goAppend_array_self (g : Nat → Nat) (h : Heap) (s : Slice) (xs : List Conn) :
    let a := h.array s.arr
    let n := s.len + xs.length
    (goAppend g h s xs).1.array (goAppend g h s xs).2.arr =
      if n ≤ a.length then a.take s.len ++ xs ++ a.drop n
      else a.take s.len ++ xs ++ List.replicate (max (g a.length) n - n) none := by
  intro a n
  unfold goAppend
  by_cases hc : s.len + xs.length ≤ (h.array s.arr).length
  · simp only [hc, if_true, n, a]
    rw [Heap.array_set]
    by_cases hlt : s.arr < h.length
    · simp [hlt]
    · have ha : h.array s.arr = [] := Heap.array_of_length_le h _ (by omega)
      rw [ha] at hc ⊢
      have hx : xs = [] := by
        cases xs with
        | nil => rfl
        | cons y ys => simp at hc
      simp [hlt, hx]
  · simp only [hc, if_false, n, a]
    rw [Heap.array_append]
    simp

theorem goAppend_elems (g : Nat → Nat) (h : Heap) (s : Slice) (xs : List Conn)
    (hlen : s.len ≤ s.cap h) :
    (goAppend g h s xs).2.elems (goAppend g h s xs).1 = s.elems h ++ xs := by
  unfold Slice.elems
  rw [goAppend_array_self, goAppend_len]
  unfold Slice.cap at hlen
  have hl : ((h.array s.arr).take s.len ++ xs).length = s.len + xs.length := by
    simp [List.length_take, Nat.min_eq_left hlen]
  by_cases hc : s.len + xs.length ≤ (h.array s.arr).length
  · simp only [hc, if_true]
    exact List.take_left' hl
  · simp only [hc, if_false]
    exact List.take_left' hl

theorem goAppend_cap (g : Nat → Nat) (h : Heap) (s : Slice) (xs : List Conn)
    (hlen : s.len ≤ s.cap h) :
    (goAppend g h s xs).2.len ≤ (goAppend g h s xs).2.cap (goAppend g h s xs).1 := by
  have := congrArg List.length (goAppend_elems g h s xs hlen)
  unfold Slice.elems at this
  unfold Slice.cap
  rw [List.length_take] at this
  have h2 := goAppend_len g h s xs
  simp [List.length_take] at this
  unfold Slice.cap at hlen
  omega

theorem goAppend_array_of_ne (g : Nat → Nat) (h : Heap) (s : Slice) (xs : List Conn) (b : Nat)
    (hb : b ≠ s.arr) (hlt : b < h.length) : (goAppend g h s xs).1.array b = h.array b := by
  unfold goAppend
  by_cases hc : s.len + xs.length ≤ (h.array s.arr).length
  · simp only [hc, if_true]
    rw [Heap.array_set]
    have hne : ¬ s.arr = b := fun hh => hb hh.symm
    simp [hne]
  · simp only [hc, if_false]
    rw [Heap.array_append]
    simp [Nat.ne_of_lt hlt]

/-- What `append` leaves alone in the array it writes into: the first `s.len` cells. -/
theorem goAppend_take_prefix (g : Nat → Nat) (h : Heap) (s : Slice) (xs : List Conn) (b k : Nat)
    (hlt : b < h.length) (hk : k ≤ s.len) (hlen : s.len ≤ s.cap h) :
    ((goAppend g h s xs).1.array b).take k = (h.array b).take k := by
  by_cases hb : b = s.arr
  · subst hb
    unfold goAppend
    unfold Slice.cap at hlen
    by_cases hc : s.len + xs.length ≤ (h.array s.arr).length
    · simp only [hc, if_true]
      rw [Heap.array_set]
      simp only [hlt, and_self, if_true, List.append_assoc]
      rw [List.take_append_of_le_length (by simp [List.length_take]; omega)]
      rw [List.take_take, Nat.min_eq_left hk]
    · simp only [hc, if_false]
      rw [Heap.array_append]
      simp [Nat.ne_of_lt hlt]
  · rw [goAppend_array_of_ne g h s xs b hb hlt]

theorem goAppend_arr_pos (g : Nat → Nat) (h : Heap) (s : Slice) (xs : List Conn)
    (hh : 0 < h.length) (hs : 0 < s.arr ∨ (h.array s.arr = [] ∧ xs ≠ [])) :
    0 < (goAppend g h s xs).2.arr := by
  unfold goAppend
  by_cases hc : s.len + xs.length ≤ (h.array s.arr).length
  · simp only [hc, if_true]
    rcases hs with hs | ⟨ha, hx⟩
    · exact hs
    · rw [ha] at hc
      cases xs with
      | nil => exact absurd rfl hx
      | cons y ys => simp at hc
  · simp only [hc, if_false]
    exact hh

theorem goAppend_base (g : Nat → Nat) (h : Heap) (s : Slice) (xs : List Conn)
    (hh : 0 < h.length) (hb : h.array 0 = [])
    (hs : 0 < s.arr ∨ (h.array s.arr = [] ∧ xs ≠ [])) :
    (goAppend g h s xs).1.array 0 = [] := by
  by_cases h0 : 0 = s.arr
  · rcases hs with hs | ⟨ha, hx⟩
    · omega
    · unfold goAppend
      have hc : ¬ s.len + xs.length ≤ (h.array s.arr).length := by
        rw [ha]
        cases xs with
        | nil => exact absurd rfl hx
        | cons y ys => simp
      simp only [hc, if_false]
      rw [Heap.array_append]
      simp [Nat.ne_of_lt hh, hb]
  · rw [goAppend_array_of_ne g h s xs 0 h0 hh, hb]

theorem clientList_of_some (uc : ChatUsecase) (r : String) (s : Slice)
    (h : uc.clients.get r = some s) : uc.clientList r = s.elems uc.heap := by
  simp [ChatUsecase.clientList, ChatUsecase.GetConnectedClients, h]

theorem clientList_of_none (uc : ChatUsecase) (r : String)
    (h : uc.clients.get r = none) : uc.clientList r = [] := by
  simp [ChatUsecase.clientList, ChatUsecase.GetConnectedClients, h, Slice.nil, Slice.elems]

/-- Storing the result of an `append` on room `r`'s own storage keeps the client
slices well formed and leaves the lists of the other rooms as they were. -/
theorem ClientsWF_update (g : Nat → Nat) (uc : ChatUsecase) (hwf : ClientsWF uc) (r : String)
    (cur : Slice) (xs : List Conn)
    (hlt : cur.arr < uc.heap.length) (hcap : cur.len ≤ cur.cap uc.heap)
    (hpos : 0 < cur.arr ∨ (uc.heap.array cur.arr = [] ∧ xs ≠ []))
    (hother : ∀ j s, j ≠ r → uc.clients.get j = some s → s.arr ≠ cur.arr) :
    let uc1 : ChatUsecase := { uc with heap := (goAppend g uc.heap cur xs).1,
                                       clients := uc.clients.set r (goAppend g uc.heap cur xs).2 }
    ClientsWF uc1 ∧ uc1.clientList r = cur.elems uc.heap ++ xs ∧
      ∀ j, j ≠ r → uc1.clientList j = uc.clientList j := by
  intro uc1
  have hkeep : ∀ j s, j ≠ r → uc.clients.get j = some s →
      (goAppend g uc.heap cur xs).1.array s.arr = uc.heap.array s.arr := by
    intro j s hj hs
    exact goAppend_array_of_ne g uc.heap cur xs s.arr (hother j s hj hs) (hwf.own j s hs).2.1
  have hnew : ∀ j s, j ≠ r → uc.clients.get j = some s →
      s.arr ≠ (goAppend g uc.heap cur xs).2.arr := by
    intro j s hj hs
    rcases goAppend_arr g uc.heap cur xs with h1 | h1
    · rw [h1]; exact hother j s hj hs
    · rw [h1]; exact Nat.ne_of_lt (hwf.own j s hs).2.1
  refine ⟨⟨?_, ?_, ?_, ?_⟩, ?_, ?_⟩
  · exact Nat.lt_of_lt_of_le hwf.heap_pos (goAppend_heap_length g uc.heap cur xs)
  · exact goAppend_base g uc.heap cur xs hwf.heap_pos hwf.base hpos
  · intro j s hs
    by_cases hj : j = r
    · subst hj
      have hs' : s = (goAppend g uc.heap cur xs).2 := by
        simpa [uc1] using hs.symm
      subst hs'
      exact ⟨goAppend_arr_pos g uc.heap cur xs hwf.heap_pos hpos,
        goAppend_arr_lt g uc.heap cur xs hlt, goAppend_cap g uc.heap cur xs hcap⟩
    · have hs' : uc.clients.get j = some s := by simpa [uc1, hj] using hs
      have := hwf.own j s hs'
      refine ⟨this.1, Nat.lt_of_lt_of_le this.2.1 (goAppend_heap_length g uc.heap cur xs), ?_⟩
      show s.len ≤ ((goAppend g uc.heap cur xs).1.array s.arr).length
      rw [hkeep j s hj hs']
      exact this.2.2
  · intro r1 r2 s1 s2 h1 h2 heq
    by_cases hr1 : r1 = r <;> by_cases hr2 : r2 = r
    · rw [hr1, hr2]
    · subst hr1
      have h1' : s1 = (goAppend g uc.heap cur xs).2 := by simpa [uc1] using h1.symm
      have h2' : uc.clients.get r2 = some s2 := by simpa [uc1, hr2] using h2
      exact absurd (heq ▸ h1' ▸ rfl : s2.arr = (goAppend g uc.heap cur xs).2.arr)
        (hnew r2 s2 hr2 h2')
    · subst hr2
      have h2' : s2 = (goAppend g uc.heap cur xs).2 := by simpa [uc1] using h2.symm
      have h1' : uc.clients.get r1 = some s1 := by simpa [uc1, hr1] using h1
      exact absurd (heq ▸ h2' ▸ rfl : s1.arr = (goAppend g uc.heap cur xs).2.arr)
        (hnew r1 s1 hr1 h1')
    · have h1' : uc.clients.get r1 = some s1 := by simpa [uc1, hr1] using h1
      have h2' : uc.clients.get r2 = some s2 := by simpa [uc1, hr2] using h2
      exact hwf.inj r1 r2 s1 s2 h1' h2' heq
  · have : uc1.clients.get r = some (goAppend g uc.heap cur xs).2 := by simp [uc1]
    rw [clientList_of_some uc1 r _ this]
    exact goAppend_elems g uc.heap cur xs hcap
  · intro j hj
    cases hs : uc.clients.get j with
    | none =>
      have : uc1.clients.get j = none := by simp [uc1, hj, hs]
      rw [clientList_of_none uc1 j this, clientList_of_none uc j hs]
    | some s =>
      have : uc1.clients.get j = some s := by simp [uc1, hj, hs]
      rw [clientList_of_some uc1 j s this, clientList_of_some uc j s hs]
      show ((goAppend g uc.heap cur xs).1.array s.arr).take s.len = (uc.heap.array s.arr).take s.len
      rw [hkeep j s hj hs]

theorem AddClientToRoom_eq (g : Nat → Nat) (uc : ChatUsecase) (r : String) (c : Conn) :
    uc.AddClientToRoom g r c =
      { uc with heap := (goAppend g uc.heap (uc.GetConnectedClients r) [c]).1,
                clients := uc.clients.set r (goAppend g uc.heap (uc.GetConnectedClients r) [c]).2 } := by
  unfold ChatUsecase.AddClientToRoom ChatUsecase.GetConnectedClients
  cases hs : uc.clients.get r with
  | none =>
    simp only [GoMap.get_set, if_true, Option.getD_some]
    congr 1
    simp only [GoMap.set, GoMap.mk.injEq]
    funext j
    by_cases hj : j = r <;> simp [hj]
  | some s => simp [hs]

/-- `AddClientToRoom` appends the connection to the list of its room and to no other. -/
theorem AddClientToRoom_spec (g : Nat → Nat) (uc : ChatUsecase) (hwf : ClientsWF uc)
    (r : String) (c : Conn) :
    ClientsWF (uc.AddClientToRoom g r c) ∧
      (uc.AddClientToRoom g r c).clientList r = uc.clientList r ++ [c] ∧
      ∀ j, j ≠ r → (uc.AddClientToRoom g r c).clientList j = uc.clientList j := by
  rw [AddClientToRoom_eq]
  cases hs : uc.clients.get r with
  | none =>
    have hcur : uc.GetConnectedClients r = Slice.nil := by
      simp [ChatUsecase.GetConnectedClients, hs]
    have hl := clientList_of_none uc r hs
    rw [hcur, hl]
    have := ClientsWF_update g uc hwf r Slice.nil [c] hwf.heap_pos
      (by simp [Slice.nil, Slice.cap])
      (Or.inr ⟨hwf.base, by simp⟩)
      (fun j s _ hjs => Nat.ne_of_gt (hwf.own j s hjs).1)
    simpa [Slice.nil, Slice.elems] using this
  | some s =>
    have hcur : uc.GetConnectedClients r = s := by
      simp [ChatUsecase.GetConnectedClients, hs]
    have hl := clientList_of_some uc r s hs
    rw [hcur, hl]
    have hown := hwf.own r s hs
    exact ClientsWF_update g uc hwf r s [c] hown.2.1 hown.2.2 (Or.inl hown.1)
      (fun j t hj hjt heq => hj (hwf.inj j r t s hjt hs heq))

/-- `RemoveClientFromRoom` erases the first occurrence of the connection from the
list of its room and touches no other list. -/
theorem RemoveClientFromRoom_spec (g : Nat → Nat) (uc : ChatUsecase) (hwf : ClientsWF uc)
    (r : String) (c : Conn) :
    ClientsWF (uc.RemoveClientFromRoom g r c) ∧
      (uc.RemoveClientFromRoom g r c).clientList r = (uc.clientList r).erase c ∧
      ∀ j, j ≠ r → (uc.RemoveClientFromRoom g r c).clientList j = uc.clientList j := by
  unfold ChatUsecase.RemoveClientFromRoom
  cases hs : uc.clients.get r with
  | none =>
    simp only
    rw [clientList_of_none uc r hs]
    exact ⟨hwf, rfl, by simp⟩
  | some s =>
    simp only
    have hl := clientList_of_some uc r s hs
    cases hi : firstIndex c (s.elems uc.heap) with
    | none =>
      simp only
      have hmem : c ∉ uc.clientList r := by
        rw [hl]; exact (firstIndex_eq_none c _).1 hi
      rw [List.erase_of_not_mem hmem]
      exact ⟨hwf, rfl, by simp⟩
    | some i =>
      simp only
      have hown := hwf.own r s hs
      have hfi := firstIndex_some c _ i hi
      have hilen : i < s.len := by
        have := hfi.1
        simp [Slice.elems, List.length_take] at this
        omega
      have hicap : i ≤ (⟨s.arr, i⟩ : Slice).cap uc.heap := by
        have := hown.2.2
        simp only [Slice.cap] at this ⊢
        omega
      have hupd := ClientsWF_update g uc hwf r ⟨s.arr, i⟩ ((s.elems uc.heap).drop (i + 1))
        hown.2.1 hicap (Or.inl hown.1)
        (fun j t hj hjt heq => hj (hwf.inj j r t s hjt hs heq))
      refine ⟨hupd.1, ?_, hupd.2.2⟩
      rw [hupd.2.1, hl, ← hfi.2]
      congr 1
      simp only [Slice.elems, List.take_take]
      rw [Nat.min_eq_left (Nat.le_of_lt hilen)]

theorem ClientsWF_new (db : DB) : ClientsWF (NewChatUsecase db) := by
  refine ⟨by simp [NewChatUsecase, Heap.init], by simp [NewChatUsecase, Heap.init, Heap.array], ?_, ?_⟩
  · intro r s h; simp [NewChatUsecase] at h
  · intro r1 r2 s1 s2 h; simp [NewChatUsecase] at h

theorem CreateRoom_clients (uc : ChatUsecase) (room : Room) (f : Option Err)
    (ins : Except Err (String × Nat)) :
    (uc.CreateRoom room f ins).1.clients = uc.clients ∧
      (uc.CreateRoom room f ins).1.heap = uc.heap := by
  unfold ChatUsecase.CreateRoom
  cases f with
  | some e => simp [RoomRepository.GetRoomByName]
  | none =>
    simp only [RoomRepository.GetRoomByName]
    cases hfind : uc.db.rooms.find? (fun r => r.RoomName = room.RoomName) with
    | some r => simp
    | none =>
      cases ins with
      | error e => simp [RoomRepository.CreateRoom]
      | ok v => simp [RoomRepository.CreateRoom]

theorem CloseRoom_clients (uc uc1 : ChatUsecase) (r : String) (b : Bool)
    (h : uc.CloseRoom r = .ok (uc1, b)) : uc1.clients = uc.clients ∧ uc1.heap = uc.heap := by
  unfold ChatUsecase.CloseRoom at h
  cases hr : uc.rooms.get r with
  | none =>
    simp only [hr] at h
    cases h; exact ⟨rfl, rfl⟩
  | some ch =>
    simp only [hr] at h
    cases hc : closeChan uc.chans ch with
    | error p => simp [hc] at h
    | ok chans1 =>
      simp only [hc] at h
      cases h; exact ⟨rfl, rfl⟩

theorem ClientsWF_of_eq (uc uc1 : ChatUsecase) (hwf : ClientsWF uc)
    (h : uc1.clients = uc.clients ∧ uc1.heap = uc.heap) : ClientsWF uc1 := by
  refine ⟨?_, ?_, ?_, ?_⟩
  · rw [h.2]; exact hwf.heap_pos
  · rw [h.2]; exact hwf.base
  · rw [h.1, h.2]; exact hwf.own
  · rw [h.1]; exact hwf.inj

theorem clientList_of_eq (uc uc1 : ChatUsecase)
    (h : uc1.clients = uc.clients ∧ uc1.heap = uc.heap) (r : String) :
    uc1.clientList r = uc.clientList r := by
  simp [ChatUsecase.clientList, ChatUsecase.GetConnectedClients, h.1, h.2]

/-! ## Invariants of the serialised calls -/

theorem run_invariant (g : Nat → Nat) (P : ChatUsecase → Prop)
    (hstep : ∀ uc op uc1, P uc → uc.step g op = .ok uc1 → P uc1) :
    ∀ ops uc uc1, P uc → uc.run g ops = .ok uc1 → P uc1 := by
  intro ops
  induction ops with
  | nil =>
    intro uc uc1 hP h
    simp only [ChatUsecase.run] at h
    cases h; exact hP
  | cons op ops ih =>
    intro uc uc1 hP h
    simp only [ChatUsecase.run] at h
    cases hs : uc.step g op with
    | error p => simp [hs] at h
    | ok uc2 =>
      simp only [hs] at h
      exact ih uc2 uc1 (hstep uc op uc2 hP hs) h

theorem step_CloseRoom_ok (g : Nat → Nat) (uc uc1 : ChatUsecase) (r : String)
    (h : uc.step g (.CloseRoom r) = .ok uc1) : ∃ b, uc.CloseRoom r = .ok (uc1, b) := by
  simp only [ChatUsecase.step] at h
  cases hc : uc.CloseRoom r with
  | error p => simp [hc] at h
  | ok res =>
    simp only [hc] at h
    cases h
    exact ⟨res.2, rfl⟩

theorem ClientsWF_step (g : Nat → Nat) (uc : ChatUsecase) (op : Op) (uc1 : ChatUsecase)
    (hwf : ClientsWF uc) (h : uc.step g op = .ok uc1) : ClientsWF uc1 := by
  cases op with
  | CreateRoom room f ins =>
    simp only [ChatUsecase.step] at h
    cases h
    exact ClientsWF_of_eq uc _ hwf (CreateRoom_clients uc room f ins)
  | CloseRoom r =>
    obtain ⟨b, hb⟩ := step_CloseRoom_ok g uc uc1 r h
    exact ClientsWF_of_eq uc _ hwf (CloseRoom_clients uc uc1 r b hb)
  | AddClientToRoom r c =>
    simp only [ChatUsecase.step] at h
    cases h
    exact (AddClientToRoom_spec g uc hwf r c).1
  | RemoveClientFromRoom r c =>
    simp only [ChatUsecase.step] at h
    cases h
    exact (RemoveClientFromRoom_spec g uc hwf r c).1

theorem Reachable_clientsWF (g : Nat → Nat) (uc : ChatUsecase) (h : Reachable g uc) :
    ClientsWF uc := by
  obtain ⟨db, ops, hrun⟩ := h
  exact run_invariant g ClientsWF (fun uc op uc1 => ClientsWF_step g uc op uc1) ops _ uc
    (ClientsWF_new db) hrun

/-- What `CreateRoom` returns and does to the state, case by case. -/
theorem CreateRoom_cases (uc : ChatUsecase) (room : Room) (f : Option Err)
    (ins : Except Err (String × Nat)) :
    ((uc.CreateRoom room f ins).1 = uc ∧ (uc.CreateRoom room f ins).2.2 ≠ none) ∨
    (∃ id t, ins = .ok (id, t) ∧ f = none ∧
      uc.db.rooms.find? (fun r => r.RoomName = room.RoomName) = none ∧
      (uc.CreateRoom room f ins).2.2 = none ∧
      (uc.CreateRoom room f ins).2.1 = { room with ID := id, CreatedAt := t } ∧
      (uc.CreateRoom room f ins).1 =
        { uc with db := { uc.db with rooms := uc.db.rooms ++ [⟨id, room.RoomName, t⟩] },
                  chans := uc.chans ++ [false],
                  rooms := uc.rooms.set id uc.chans.length }) := by
  unfold ChatUsecase.CreateRoom
  cases f with
  | some e => left; simp [RoomRepository.GetRoomByName]
  | none =>
    simp only [RoomRepository.GetRoomByName]
    cases hfind : uc.db.rooms.find? (fun r => r.RoomName = room.RoomName) with
    | some r => left; simp
    | none =>
      cases ins with
      | error e => left; simp [RoomRepository.CreateRoom]
      | ok v =>
        right
        refine ⟨v.1, v.2, ?_, ?_, ?_, ?_, ?_, ?_⟩ <;>
          first | rfl | trivial

/-- What a `CloseRoom` that does not panic returns and does to the state. -/
theorem CloseRoom_cases (uc uc1 : ChatUsecase) (r : String) (b : Bool)
    (h : uc.CloseRoom r = .ok (uc1, b)) :
    (uc.rooms.get r = none ∧ uc1 = uc ∧ b = false) ∨
    (∃ ch, uc.rooms.get r = some ch ∧ uc.chans[ch]? = some false ∧ b = true ∧
      uc1 = { uc with chans := uc.chans.set ch true, rooms := uc.rooms.delete r }) := by
  unfold ChatUsecase.CloseRoom at h
  cases hr : uc.rooms.get r with
  | none =>
    simp only [hr] at h
    cases h
    exact Or.inl ⟨by trivial, rfl, rfl⟩
  | some ch =>
    simp only [hr] at h
    right
    unfold closeChan at h
    cases hc : uc.chans[ch]? with
    | none => simp [hc] at h
    | some v =>
      cases v with
      | true => simp [hc] at h
      | false =>
        simp only [hc] at h
        cases h
        exact ⟨ch, rfl, hc, rfl, rfl⟩

theorem CloseRoom_of_open (uc : ChatUsecase) (r : String) (ch : Nat)
    (hr : uc.rooms.get r = some ch) (hc : uc.chans[ch]? = some false) :
    uc.CloseRoom r =
      .ok ({ uc with chans := uc.chans.set ch true, rooms := uc.rooms.delete r }, true) := by
  simp [ChatUsecase.CloseRoom, hr, closeChan, hc]

theorem CloseRoom_of_absent (uc : ChatUsecase) (r : String) (hr : uc.rooms.get r = none) :
    uc.CloseRoom r = .ok (uc, false) := by
  simp [ChatUsecase.CloseRoom, hr]

theorem RoomsWF_step (g : Nat → Nat) (uc : ChatUsecase) (op : Op) (uc1 : ChatUsecase)
    (hwf : RoomsWF uc) (h : uc.step g op = .ok uc1) : RoomsWF uc1 := by
  have hlt : ∀ r ch, uc.rooms.get r = some ch → ch < uc.chans.length := by
    intro r ch hr
    have := hwf.isOpen r ch hr
    by_contra hge
    rw [List.getElem?_eq_none (by omega)] at this
    cases this
  cases op with
  | CreateRoom room f ins =>
    simp only [ChatUsecase.step] at h
    cases h
    rcases CreateRoom_cases uc room f ins with ⟨heq, _⟩ | ⟨id, t, _, _, _, _, _, heq⟩
    · rw [heq]; exact hwf
    · rw [heq]
      refine ⟨?_, ?_⟩
      · intro r ch hr
        simp only [GoMap.get_set] at hr
        by_cases hrid : r = id
        · simp only [hrid, if_true, Option.some.injEq] at hr
          subst hr
          simp
        · simp only [hrid, if_false] at hr
          show (uc.chans ++ [false])[ch]? = some false
          rw [List.getElem?_append_left (hlt r ch hr)]
          exact hwf.isOpen r ch hr
      · intro r1 r2 ch h1 h2
        simp only [GoMap.get_set] at h1 h2
        by_cases hr1 : r1 = id <;> by_cases hr2 : r2 = id
        · rw [hr1, hr2]
        · simp only [hr1, if_true, Option.some.injEq] at h1
          simp only [hr2, if_false] at h2
          have := hlt r2 ch h2
          omega
        · simp only [hr2, if_true, Option.some.injEq] at h2
          simp only [hr1, if_false] at h1
          have := hlt r1 ch h1
          omega
        · simp only [hr1, hr2, if_false] at h1 h2
          exact hwf.inj r1 r2 ch h1 h2
  | CloseRoom r =>
    obtain ⟨b, hb⟩ := step_CloseRoom_ok g uc uc1 r h
    rcases CloseRoom_cases uc uc1 r b hb with ⟨_, heq, _⟩ | ⟨ch, hr, _, _, heq⟩
    · rw [heq]; exact hwf
    · rw [heq]
      refine ⟨?_, ?_⟩
      · intro j cj hj
        simp only [GoMap.get_delete] at hj
        by_cases hjr : j = r
        · simp [hjr] at hj
        · simp only [hjr, if_false] at hj
          have hne : ch ≠ cj := fun he => hjr (hwf.inj j r cj hj (he ▸ hr))
          show (uc.chans.set ch true)[cj]? = some false
          rw [List.getElem?_set_ne hne]
          exact hwf.isOpen j cj hj
      · intro r1 r2 c h1 h2
        simp only [GoMap.get_delete] at h1 h2
        by_cases hr1 : r1 = r
        · simp [hr1] at h1
        · by_cases hr2 : r2 = r
          · simp [hr2] at h2
          · simp only [hr1, hr2, if_false] at h1 h2
            exact hwf.inj r1 r2 c h1 h2
  | AddClientToRoom r c =>
    simp only [ChatUsecase.step] at h
    cases h
    rw [AddClientToRoom_eq]
    exact ⟨hwf.isOpen, hwf.inj⟩
  | RemoveClientFromRoom r c =>
    simp only [ChatUsecase.step] at h
    cases h
    unfold ChatUsecase.RemoveClientFromRoom
    cases hs : uc.clients.get r with
    | none => exact hwf
    | some s =>
      simp only
      cases hi : firstIndex c (s.elems uc.heap) with
      | none => exact hwf
      | some i => exact ⟨hwf.isOpen, hwf.inj⟩

theorem Reachable_roomsWF (g : Nat → Nat) (uc : ChatUsecase) (h : Reachable g uc) :
    RoomsWF uc := by
  obtain ⟨db, ops, hrun⟩ := h
  refine run_invariant g RoomsWF (fun uc op uc1 => RoomsWF_step g uc op uc1) ops _ uc ?_ hrun
  refine ⟨?_, ?_⟩
  · intro r ch hr; simp [NewChatUsecase] at hr
  · intro r1 r2 ch hr; simp [NewChatUsecase] at hr

/-! ## C1: `CreateRoom` on a name the store holds -/

/-- C1, as stated, fails: the store holds a room named "general", the lookup by
name fails with a driver error, and `CreateRoom` returns the error of the failed
check, not the already-exists error. -/
theorem C1_lookup_fault_counterexample :
    (∃ r ∈ (NewChatUsecase ⟨[⟨"1", "general", 5⟩], []⟩).db.rooms, r.RoomName = "general") ∧
    ((NewChatUsecase ⟨[⟨"1", "general", 5⟩], []⟩).CreateRoom ⟨"", "general", 0⟩
        (some (.driver "connection refused")) (.ok ("2", 7))).2.2 ≠ some errRoomAlreadyExists := by
  decide

/-- C1 (amended): for every state and every room whose `RoomName` names a row of the
store, `CreateRoom` leaves the whole state as it was (no row inserted, `rooms` and
`clients` unchanged) and returns an error: the already-exists error when the lookup
by name does not fail, the error of the failed check when it does. -/
theorem C1_CreateRoom_existing_name (uc : ChatUsecase) (room : Room) (lookupFault : Option Err)
    (insert : Except Err (String × Nat))
    (hex : ∃ r ∈ uc.db.rooms, r.RoomName = room.RoomName) :
    (uc.CreateRoom room lookupFault insert).1 = uc ∧
    (lookupFault = none →
      (uc.CreateRoom room lookupFault insert).2.2 = some errRoomAlreadyExists) ∧
    (∀ e, lookupFault = some e →
      (uc.CreateRoom room lookupFault insert).2.2 =
        some (.wrap "error checking room in database: %w" []
          (.wrap "error retrieving room by name %s: %w" [room.RoomName] e))) := by
  obtain ⟨r, hr, hname⟩ := hex
  have hfind : (uc.db.rooms.find? (fun r => r.RoomName = room.RoomName)).isSome := by
    rw [List.find?_isSome]
    exact ⟨r, hr, by simpa using hname⟩
  obtain ⟨r0, hr0⟩ := Option.isSome_iff_exists.1 hfind
  cases lookupFault with
  | some e =>
    simp [ChatUsecase.CreateRoom, RoomRepository.GetRoomByName]
  | none =>
    simp [ChatUsecase.CreateRoom, RoomRepository.GetRoomByName, hr0, errRoomAlreadyExists]

/-- C1 at a store holding "general": the call returns the already-exists error. -/
theorem C1_CreateRoom_existing_name_witness :
    (∃ r ∈ (NewChatUsecase ⟨[⟨"1", "general", 5⟩], []⟩).db.rooms, r.RoomName = "general") ∧
    ((NewChatUsecase ⟨[⟨"1", "general", 5⟩], []⟩).CreateRoom ⟨"", "general", 0⟩ none
        (.ok ("2", 7))).2.2 = some errRoomAlreadyExists :=
  ⟨by decide,
    (C1_CreateRoom_existing_name (NewChatUsecase ⟨[⟨"1", "general", 5⟩], []⟩)
      ⟨"", "general", 0⟩ none (.ok ("2", 7)) (by decide)).2.1 rfl⟩

/-! ## C2: serialised `CreateRoom` calls on one name -/

theorem rowsNamed_eq_zero_iff (db : DB) (name : String) :
    db.rowsNamed name = 0 ↔ db.rooms.find? (fun r => r.RoomName = name) = none := by
  unfold DB.rowsNamed
  rw [List.countP_eq_zero, List.find?_eq_none]

theorem CreateRoom_other_name (uc : ChatUsecase) (room : Room) (f : Option Err)
    (ins : Except Err (String × Nat)) (name : String) (hne : room.RoomName ≠ name) :
    (uc.CreateRoom room f ins).1.db.rowsNamed name = uc.db.rowsNamed name := by
  rcases CreateRoom_cases uc room f ins with ⟨heq, _⟩ | ⟨id, t, _, _, _, _, _, heq⟩
  · rw [heq]
  · rw [heq]
    simp [DB.rowsNamed, List.countP_append, List.countP_cons, hne]

theorem CreateRoom_held (uc : ChatUsecase) (room : Room) (ins : Except Err (String × Nat))
    (h : 0 < uc.db.rowsNamed room.RoomName) :
    uc.CreateRoom room none ins = (uc, room, some errRoomAlreadyExists) := by
  have hfind : uc.db.rooms.find? (fun r => r.RoomName = room.RoomName) ≠ none := by
    intro hn
    have := (rowsNamed_eq_zero_iff uc.db room.RoomName).2 hn
    omega
  obtain ⟨r0, hr0⟩ := Option.ne_none_iff_exists'.1 hfind
  simp [ChatUsecase.CreateRoom, RoomRepository.GetRoomByName, hr0, errRoomAlreadyExists]

theorem CreateRoom_fresh (uc : ChatUsecase) (room : Room) (id : String) (t : Nat)
    (h : uc.db.rowsNamed room.RoomName = 0) :
    (uc.CreateRoom room none (.ok (id, t))).2.2 = none ∧
      (uc.CreateRoom room none (.ok (id, t))).1.db.rowsNamed room.RoomName = 1 := by
  have hfind := (rowsNamed_eq_zero_iff uc.db room.RoomName).1 h
  unfold DB.rowsNamed at h
  simp [ChatUsecase.CreateRoom, RoomRepository.GetRoomByName, hfind, RoomRepository.CreateRoom,
    DB.rowsNamed, List.countP_append, h]

/-- Once the store holds the name, every later call carrying it is refused and no row of that
name is added. -/
theorem createAll_held (name : String) :
    ∀ (calls : List CreateCall) (uc : ChatUsecase),
      0 < uc.db.rowsNamed name → (∀ c ∈ calls, c.lookupFault = none) →
      resultsFor name calls (uc.createAll calls).2 =
        List.replicate (calls.countP (fun c => c.room.RoomName = name)) (some errRoomAlreadyExists) ∧
      (uc.createAll calls).1.db.rowsNamed name = uc.db.rowsNamed name := by
  intro calls
  induction calls with
  | nil => intro uc _ _; simp [resultsFor, ChatUsecase.createAll]
  | cons c cs ih =>
    intro uc hpos hf
    have hfc : c.lookupFault = none := hf c (List.mem_cons_self _ _)
    have hfs : ∀ d ∈ cs, d.lookupFault = none := fun d hd => hf d (List.mem_cons_of_mem _ hd)
    by_cases hn : c.room.RoomName = name
    · have hheld := CreateRoom_held uc c.room c.insert (by rw [hn]; exact hpos)
      have := ih uc hpos hfs
      simp only [ChatUsecase.createAll, hfc, hheld]
      simp only [resultsFor] at this ⊢
      simp [List.zip_cons_cons, List.filter_cons, hn, this.1, this.2, List.replicate_succ]
    · have hsame := CreateRoom_other_name uc c.room c.lookupFault c.insert name hn
      have := ih (uc.CreateRoom c.room c.lookupFault c.insert).1 (by rw [hsame]; exact hpos) hfs
      simp only [ChatUsecase.createAll]
      simp only [resultsFor] at this ⊢
      simp [List.zip_cons_cons, List.filter_cons, hn, this.1, this.2, hsame]

/-- C2, as stated, fails: the store holds no room named "general" and the lookup does
not fail, but the `INSERT` of the only call does; no call succeeds and no row exists. -/
theorem C2_insert_fault_counterexample :
    (NewChatUsecase ⟨[], []⟩).db.rowsNamed "general" = 0 ∧
    (∀ c ∈ [(⟨⟨"", "general", 0⟩, none, .error (.driver "deadlock detected")⟩ : CreateCall)],
      c.lookupFault = none) ∧
    (resultsFor "general" [⟨⟨"", "general", 0⟩, none, .error (.driver "deadlock detected")⟩]
      ((NewChatUsecase ⟨[], []⟩).createAll
        [⟨⟨"", "general", 0⟩, none, .error (.driver "deadlock detected")⟩]).2).count none = 0 ∧
    ((NewChatUsecase ⟨[], []⟩).createAll
        [⟨⟨"", "general", 0⟩, none, .error (.driver "deadlock detected")⟩]).1.db.rowsNamed
      "general" = 0 := by
  refine ⟨by decide, by simp, by decide, by decide⟩

/-- C2 (amended): calls made one at a time against a store that does not yet hold the
name, with no lookup and no insert failing, at least one of them carrying the name:
of the calls carrying the name the first succeeds, each later one returns the
already-exists error, and the store ends with exactly one row of that name. -/
theorem C2_CreateRoom_same_name_once (name : String) :
    ∀ (calls : List CreateCall) (uc : ChatUsecase),
      uc.db.rowsNamed name = 0 →
      (∀ c ∈ calls, c.lookupFault = none ∧ c.insertOk = true) →
      (∃ c ∈ calls, c.room.RoomName = name) →
      resultsFor name calls (uc.createAll calls).2 =
        none :: List.replicate (calls.countP (fun c => c.room.RoomName = name) - 1)
          (some errRoomAlreadyExists) ∧
      (uc.createAll calls).1.db.rowsNamed name = 1 := by
  intro calls
  induction calls with
  | nil => intro uc _ _ hex; simp at hex
  | cons c cs ih =>
    intro uc hzero hf hex
    have hfc := hf c (List.mem_cons_self _ _)
    have hfs : ∀ d ∈ cs, d.lookupFault = none ∧ d.insertOk = true :=
      fun d hd => hf d (List.mem_cons_of_mem _ hd)
    by_cases hn : c.room.RoomName = name
    · obtain ⟨v, hv⟩ : ∃ v, c.insert = .ok v := by
        have := hfc.2
        unfold CreateCall.insertOk at this
        cases hi : c.insert with
        | ok v => exact ⟨v, rfl⟩
        | error e => simp [hi] at this
      have hfresh := CreateRoom_fresh uc c.room v.1 v.2 (by rw [hn]; exact hzero)
      rw [hn] at hfresh
      have hheld := createAll_held name cs (uc.CreateRoom c.room none (.ok (v.1, v.2))).1
        (by rw [hfresh.2]; exact Nat.one_pos) (fun d hd => (hfs d hd).1)
      simp only [ChatUsecase.createAll, hfc.1, hv]
      simp only [resultsFor] at hheld ⊢
      simp [List.zip_cons_cons, List.filter_cons, hn, hheld.1, hheld.2, hfresh.1, hfresh.2]
    · have hsame := CreateRoom_other_name uc c.room c.lookupFault c.insert name hn
      have hex' : ∃ d ∈ cs, d.room.RoomName = name := by
        obtain ⟨d, hd, hdn⟩ := hex
        rcases List.mem_cons.1 hd with rfl | hd'
        · exact absurd hdn hn
        · exact ⟨d, hd', hdn⟩
      have := ih (uc.CreateRoom c.room c.lookupFault c.insert).1 (by rw [hsame]; exact hzero)
        hfs hex'
      simp only [ChatUsecase.createAll]
      simp only [resultsFor] at this ⊢
      simp [List.zip_cons_cons, List.filter_cons, hn, this.1, this.2]

/-- C2 at three calls, two of them named "general": the first succeeds, the second is
refused, one row results. -/
theorem C2_CreateRoom_same_name_once_witness :
    (NewChatUsecase ⟨[], []⟩).db.rowsNamed "general" = 0 ∧
    resultsFor "general"
      [⟨⟨"", "general", 0⟩, none, .ok ("1", 10)⟩, ⟨⟨"", "lobby", 0⟩, none, .ok ("2", 11)⟩,
        ⟨⟨"", "general", 0⟩, none, .ok ("3", 12)⟩]
      ((NewChatUsecase ⟨[], []⟩).createAll
        [⟨⟨"", "general", 0⟩, none, .ok ("1", 10)⟩, ⟨⟨"", "lobby", 0⟩, none, .ok ("2", 11)⟩,
          ⟨⟨"", "general", 0⟩, none, .ok ("3", 12)⟩]).2 =
      [none, some errRoomAlreadyExists] ∧
    ((NewChatUsecase ⟨[], []⟩).createAll
        [⟨⟨"", "general", 0⟩, none, .ok ("1", 10)⟩, ⟨⟨"", "lobby", 0⟩, none, .ok ("2", 11)⟩,
          ⟨⟨"", "general", 0⟩, none, .ok ("3", 12)⟩]).1.db.rowsNamed "general" = 1 :=
  ⟨by decide,
    C2_CreateRoom_same_name_once "general"
      [⟨⟨"", "general", 0⟩, none, .ok ("1", 10)⟩, ⟨⟨"", "lobby", 0⟩, none, .ok ("2", 11)⟩,
        ⟨⟨"", "general", 0⟩, none, .ok ("3", 12)⟩]
      (NewChatUsecase ⟨[], []⟩) (by decide) (by decide) (by decide)⟩

/-! ## C3: `AddClientToRoom` on a room without a channel -/

/-- C3, as stated, fails: in the new registry the room "nowhere" has no entry in
`rooms`, and `AddClientToRoom` lists the connection under it all the same. -/
theorem C3_join_unopened_counterexample :
    (NewChatUsecase ⟨[], []⟩).rooms.get "nowhere" = none ∧
    ((NewChatUsecase ⟨[], []⟩).AddClientToRoom (fun c => 2 * c) "nowhere" (some 1)).clientList
      "nowhere" = [some 1] := by
  decide

/-- C3 (amended): in every reachable state and for every room identifier, with or
without an entry in `rooms`, `AddClientToRoom` (which returns nothing, so reports no
error) appends the connection to the client list of that identifier, creating the list
when there is none; `rooms`, the database and the lists of the other identifiers stay
as they were. -/
theorem C3_AddClientToRoom_always_appends (growCap : Nat → Nat) (uc : ChatUsecase)
    (hr : Reachable growCap uc) (roomID : String) (client : Conn) :
    (uc.AddClientToRoom growCap roomID client).clientList roomID =
      uc.clientList roomID ++ [client] ∧
    (∀ j, j ≠ roomID → (uc.AddClientToRoom growCap roomID client).clientList j = uc.clientList j) ∧
    (uc.AddClientToRoom growCap roomID client).rooms = uc.rooms ∧
    (uc.AddClientToRoom growCap roomID client).db = uc.db := by
  have h := AddClientToRoom_spec growCap uc (Reachable_clientsWF growCap uc hr) roomID client
  refine ⟨h.2.1, h.2.2, ?_, ?_⟩ <;> rw [AddClientToRoom_eq]

/-- C3 in the new registry, where no room has a channel. -/
theorem C3_AddClientToRoom_always_appends_witness :
    Reachable (fun c => 2 * c) (NewChatUsecase ⟨[], []⟩) ∧
    ((NewChatUsecase ⟨[], []⟩).AddClientToRoom (fun c => 2 * c) "nowhere" (some 1)).clientList
      "nowhere" = (NewChatUsecase ⟨[], []⟩).clientList "nowhere" ++ [some 1] :=
  ⟨⟨⟨[], []⟩, [], rfl⟩,
    (C3_AddClientToRoom_always_appends (fun c => 2 * c) (NewChatUsecase ⟨[], []⟩)
      ⟨⟨[], []⟩, [], rfl⟩ "nowhere" (some 1)).1⟩

/-! ## C4: the client list after joins and leaves on one room -/

theorem lastCallIsAdd_snoc (earlier : List ClientCall) (x : ClientCall) (c : Conn) :
    lastCallIsAdd (earlier ++ [x]) c =
      if x.client = c then x.isAdd else lastCallIsAdd earlier c := by
  unfold lastCallIsAdd
  rw [List.reverse_append, List.reverse_singleton, List.singleton_append, List.find?_cons]
  by_cases hx : x.client = c <;> simp [hx]

theorem JoinedListed_applyCalls (g : Nat → Nat) (roomID : String) :
    ∀ (calls earlier : List ClientCall) (uc : ChatUsecase),
      JoinedListed uc roomID earlier →
      JoinedListed (uc.applyCalls g roomID calls) roomID (earlier ++ calls) := by
  intro calls
  induction calls with
  | nil => intro earlier uc h; simpa [ChatUsecase.applyCalls] using h
  | cons x rest ih =>
    intro earlier uc h
    have hassoc : earlier ++ x :: rest = (earlier ++ [x]) ++ rest := by simp
    rw [hassoc]
    cases x with
    | add a =>
      simp only [ChatUsecase.applyCalls]
      apply ih
      have hs := AddClientToRoom_spec g uc h.wf roomID a
      refine ⟨hs.1, ?_⟩
      intro c hc
      rw [hs.2.1]
      rw [lastCallIsAdd_snoc] at hc
      by_cases hac : a = c
      · simp [hac]
      · have : ¬ (ClientCall.add a).client = c := hac
        simp only [this, if_false] at hc
        exact List.mem_append_left _ (h.listed c hc)
    | remove a =>
      simp only [ChatUsecase.applyCalls]
      apply ih
      have hs := RemoveClientFromRoom_spec g uc h.wf roomID a
      refine ⟨hs.1, ?_⟩
      intro c hc
      rw [hs.2.1]
      rw [lastCallIsAdd_snoc] at hc
      by_cases hac : a = c
      · have : (ClientCall.remove a).client = c := hac
        simp [this, ClientCall.isAdd] at hc
      · have : ¬ (ClientCall.remove a).client = c := hac
        simp only [this, if_false] at hc
        exact (List.mem_erase_of_ne (fun hh => hac hh.symm)).2 (h.listed c hc)

theorem ListedIff_applyCalls (g : Nat → Nat) (roomID : String) :
    ∀ (calls earlier : List ClientCall) (uc : ChatUsecase),
      ListedIff uc roomID earlier → noRejoinAfter earlier calls = true →
      ListedIff (uc.applyCalls g roomID calls) roomID (earlier ++ calls) := by
  intro calls
  induction calls with
  | nil => intro earlier uc h _; simpa [ChatUsecase.applyCalls] using h
  | cons x rest ih =>
    intro earlier uc h hno
    have hassoc : earlier ++ x :: rest = (earlier ++ [x]) ++ rest := by simp
    rw [hassoc]
    cases x with
    | add a =>
      simp only [noRejoinAfter, Bool.and_eq_true, Bool.not_eq_true'] at hno
      simp only [ChatUsecase.applyCalls]
      apply ih _ _ _ hno.2
      have hs := AddClientToRoom_spec g uc h.wf roomID a
      have hnot : a ∉ uc.clientList roomID := by
        intro hm
        have := (h.iff a).1 hm
        rw [hno.1] at this
        cases this
      refine ⟨hs.1, ?_, ?_⟩
      · rw [hs.2.1]
        exact List.Nodup.append h.nodup (List.nodup_singleton a)
          (by
            intro x hx hx1
            rw [List.mem_singleton] at hx1
            exact hnot (hx1 ▸ hx))
      · intro c
        rw [hs.2.1, lastCallIsAdd_snoc]
        by_cases hac : a = c
        · subst hac
          simp [ClientCall.client, ClientCall.isAdd]
        · have : ¬ (ClientCall.add a).client = c := hac
          have hca : ¬ c = a := fun hh => hac hh.symm
          simp only [this, if_false, List.mem_append, List.mem_singleton, hca, or_false]
          exact h.iff c
    | remove a =>
      simp only [noRejoinAfter] at hno
      simp only [ChatUsecase.applyCalls]
      apply ih _ _ _ hno
      have hs := RemoveClientFromRoom_spec g uc h.wf roomID a
      refine ⟨hs.1, ?_, ?_⟩
      · rw [hs.2.1]
        exact h.nodup.erase a
      · intro c
        rw [hs.2.1, lastCallIsAdd_snoc, h.nodup.mem_erase_iff]
        by_cases hac : a = c
        · subst hac
          simp [ClientCall.client, ClientCall.isAdd]
        · have : ¬ (ClientCall.remove a).client = c := hac
          have hca : c ≠ a := fun hh => hac hh.symm
          simp only [this, if_false, ne_eq, hca, not_false_eq_true, true_and]
          exact h.iff c

theorem RemoveClientFromRoom_absent (g : Nat → Nat) (uc : ChatUsecase) (roomID : String)
    (c : Conn) (h : c ∉ uc.clientList roomID) : uc.RemoveClientFromRoom g roomID c = uc := by
  unfold ChatUsecase.RemoveClientFromRoom
  cases hs : uc.clients.get roomID with
  | none => rfl
  | some s =>
    rw [clientList_of_some uc roomID s hs] at h
    have := (firstIndex_eq_none c _).2 h
    simp [this]

/-- C4, as stated, fails: a connection added twice and removed once is still listed,
though the most recent call for it was `RemoveClientFromRoom`. -/
theorem C4_double_join_counterexample :
    some 1 ∈ ((NewChatUsecase ⟨[], []⟩).applyCalls (fun c => 2 * c) "lobby"
        [.add (some 1), .add (some 1), .remove (some 1)]).clientList "lobby" ∧
    lastCallIsAdd [.add (some 1), .add (some 1), .remove (some 1)] (some 1) = false := by
  decide

/-- C4 (amended): after any sequence of `AddClientToRoom` and `RemoveClientFromRoom`
calls on one room from the new registry, a connection whose most recent call was
`AddClientToRoom` is listed; when no connection is added while its most recent call
is `AddClientToRoom`, the connections listed are exactly those whose most recent call
was `AddClientToRoom`; and removing a connection that is not listed leaves the state
as it is. -/
theorem C4_client_list_after_calls (growCap : Nat → Nat) (db : DB) (roomID : String)
    (calls : List ClientCall) :
    (∀ c, lastCallIsAdd calls c = true →
      c ∈ ((NewChatUsecase db).applyCalls growCap roomID calls).clientList roomID) ∧
    (noRejoin calls = true → ∀ c,
      c ∈ ((NewChatUsecase db).applyCalls growCap roomID calls).clientList roomID ↔
        lastCallIsAdd calls c = true) ∧
    (∀ c, c ∉ ((NewChatUsecase db).applyCalls growCap roomID calls).clientList roomID →
      ((NewChatUsecase db).applyCalls growCap roomID calls).RemoveClientFromRoom growCap roomID c =
        (NewChatUsecase db).applyCalls growCap roomID calls) := by
  have hnil : (NewChatUsecase db).clientList roomID = [] :=
    clientList_of_none _ _ (by simp [NewChatUsecase])
  refine ⟨?_, ?_, ?_⟩
  · have := JoinedListed_applyCalls growCap roomID calls [] (NewChatUsecase db)
      ⟨ClientsWF_new db, by simp [lastCallIsAdd]⟩
    simpa using this.listed
  · intro hno
    have := ListedIff_applyCalls growCap roomID calls [] (NewChatUsecase db)
      ⟨ClientsWF_new db, by simp [hnil], by simp [hnil, lastCallIsAdd]⟩ hno
    simpa using this.iff
  · intro c hc
    exact RemoveClientFromRoom_absent growCap _ roomID c hc

/-- C4 at a join, a leave and two more joins: the handle that left is not listed, the
others are. -/
theorem C4_client_list_after_calls_witness :
    noRejoin [.add (some 1), .remove (some 1), .add (some 2), .add (some 1)] = true ∧
    (∀ c, c ∈ ((NewChatUsecase ⟨[], []⟩).applyCalls (fun c => 2 * c) "lobby"
        [.add (some 1), .remove (some 1), .add (some 2), .add (some 1)]).clientList "lobby" ↔
      lastCallIsAdd [.add (some 1), .remove (some 1), .add (some 2), .add (some 1)] c = true) :=
  ⟨by decide,
    (C4_client_list_after_calls (fun c => 2 * c) ⟨[], []⟩ "lobby"
      [.add (some 1), .remove (some 1), .add (some 2), .add (some 1)]).2.1 (by decide)⟩

/-! ## C6: closing a room -/

theorem Reachable_open_channel (g : Nat → Nat) (uc : ChatUsecase) (hr : Reachable g uc)
    (roomID : String) (h : uc.rooms.get roomID ≠ none) :
    ∃ ch, uc.rooms.get roomID = some ch ∧ uc.chans[ch]? = some false := by
  obtain ⟨ch, hch⟩ := Option.ne_none_iff_exists'.1 h
  exact ⟨ch, hch, (Reachable_roomsWF g uc hr).isOpen roomID ch hch⟩

/-- C6, as stated, fails: a room is created under id "1", a connection joins it, the
room is closed; `rooms` has no entry for "1" any more, but the client list of "1"
still holds the connection. -/
theorem C6_clients_kept_counterexample :
    ((((NewChatUsecase ⟨[], []⟩).CreateRoom ⟨"", "general", 0⟩ none (.ok ("1", 10))).1.AddClientToRoom
        (fun c => 2 * c) "1" (some 1)).CloseRoom "1").toOption.map
      (fun r => (r.2, r.1.rooms.get "1", r.1.clientList "1")) =
      some (true, none, [some 1]) := by
  decide

/-- C6 (amended): in every reachable state in which `roomID` has a channel, `CloseRoom`
returns without a panic, sends `true`, and leaves a state whose `rooms` has no entry
for `roomID` and the entries it had for every other room; `clients` and the heap are
untouched, so every room, `roomID` included, lists the connections it listed before. -/
theorem C6_CloseRoom_removes_channel_only (growCap : Nat → Nat) (uc : ChatUsecase)
    (roomID : String) (hr : Reachable growCap uc) (hopen : uc.rooms.get roomID ≠ none) :
    ∃ uc1, uc.CloseRoom roomID = .ok (uc1, true) ∧
      uc1.rooms.get roomID = none ∧
      (∀ j, j ≠ roomID → uc1.rooms.get j = uc.rooms.get j) ∧
      uc1.clients = uc.clients ∧ uc1.heap = uc.heap ∧
      (∀ j, uc1.GetConnectedClients j = uc.GetConnectedClients j) ∧
      (∀ j, uc1.clientList j = uc.clientList j) := by
  obtain ⟨ch, hch, hc⟩ := Reachable_open_channel growCap uc hr roomID hopen
  refine ⟨_, CloseRoom_of_open uc roomID ch hch hc, by simp, ?_, rfl, rfl, ?_, ?_⟩
  · intro j hj; simp [hj]
  · intro j; rfl
  · intro j; rfl

/-- C6 after one room was created under id "1" and joined by one connection. -/
theorem C6_CloseRoom_removes_channel_only_witness :
    Reachable (fun c => 2 * c)
      (((NewChatUsecase ⟨[], []⟩).CreateRoom ⟨"", "general", 0⟩ none (.ok ("1", 10))).1.AddClientToRoom
        (fun c => 2 * c) "1" (some 1)) ∧
    ∃ uc1,
      (((NewChatUsecase ⟨[], []⟩).CreateRoom ⟨"", "general", 0⟩ none
        (.ok ("1", 10))).1.AddClientToRoom (fun c => 2 * c) "1" (some 1)).CloseRoom "1"
        = .ok (uc1, true) ∧
      uc1.rooms.get "1" = none ∧ uc1.clientList "1" = [some 1] :=
  ⟨⟨⟨[], []⟩, [.CreateRoom ⟨"", "general", 0⟩ none (.ok ("1", 10)),
      .AddClientToRoom "1" (some 1)], rfl⟩,
    (C6_CloseRoom_removes_channel_only (fun c => 2 * c)
      (((NewChatUsecase ⟨[], []⟩).CreateRoom ⟨"", "general", 0⟩ none (.ok ("1", 10))).1.AddClientToRoom
        (fun c => 2 * c) "1" (some 1)) "1"
      ⟨⟨[], []⟩, [.CreateRoom ⟨"", "general", 0⟩ none (.ok ("1", 10)),
        .AddClientToRoom "1" (some 1)], rfl⟩ (by decide)).imp
      (fun _ h => ⟨h.1, h.2.1, (h.2.2.2.2.2.2 "1").trans (by decide)⟩)⟩

/-! ## C7: the slice `GetConnectedClients` returns -/

/-- The first `k` cells of array `b` survive an `append` on slice `s` when `b` is
another array or `k` does not exceed the length of `s`. -/
theorem goAppend_take_keep (g : Nat → Nat) (h : Heap) (s : Slice) (xs : List Conn) (b k : Nat)
    (hlt : b < h.length) (hk : b = s.arr → k ≤ s.len) (hlen : s.len ≤ s.cap h) :
    ((goAppend g h s xs).1.array b).take k = (h.array b).take k := by
  by_cases hb : b = s.arr
  · have hk1 := hk hb
    subst hb
    exact goAppend_take_prefix g h s xs s.arr k hlt hk1 hlen
  · rw [goAppend_array_of_ne g h s xs b hb hlt]

/-- C7, as stated, fails: the slice returned for "lobby" reads `[1, 2]`; after
`RemoveClientFromRoom("lobby", 1)` the same slice, still of length 2, reads `[2, 2]`,
because the removal shifts the elements within the array the slice points into. -/
theorem C7_shared_storage_counterexample :
    (((NewChatUsecase ⟨[], []⟩).AddClientToRoom (fun c => 2 * c) "lobby" (some 1)).AddClientToRoom
        (fun c => 2 * c) "lobby" (some 2)).clientList "lobby" = [some 1, some 2] ∧
    ((((NewChatUsecase ⟨[], []⟩).AddClientToRoom (fun c => 2 * c) "lobby" (some 1)).AddClientToRoom
        (fun c => 2 * c) "lobby" (some 2)).GetConnectedClients "lobby").elems
      ((((NewChatUsecase ⟨[], []⟩).AddClientToRoom (fun c => 2 * c) "lobby" (some 1)).AddClientToRoom
        (fun c => 2 * c) "lobby" (some 2)).RemoveClientFromRoom (fun c => 2 * c) "lobby"
          (some 1)).heap = [some 2, some 2] := by
  decide

theorem firstIndex_get (c : Conn) :
    ∀ (l : List Conn) (i : Nat), firstIndex c l = some i → l[i]? = some c := by
  intro l
  induction l with
  | nil => intro i h; simp [firstIndex] at h
  | cons x xs ih =>
    intro i h
    by_cases hx : x = c
    · simp [firstIndex, hx] at h
      subst h
      simp [hx]
    · simp only [firstIndex, hx, if_false, Option.map_eq_some'] at h
      obtain ⟨j, hj, rfl⟩ := h
      simpa using ih j hj

theorem SnapshotKept_init (uc : ChatUsecase) (hwf : ClientsWF uc) (roomID : String) :
    SnapshotKept uc roomID (uc.GetConnectedClients roomID) (uc.clientList roomID) := by
  cases hs : uc.clients.get roomID with
  | none =>
    have hnil : uc.GetConnectedClients roomID = Slice.nil := by
      simp [ChatUsecase.GetConnectedClients, hs]
    rw [hnil, clientList_of_none uc roomID hs]
    refine ⟨hwf, hwf.heap_pos, fun _ => rfl, by simp [Slice.elems, Slice.nil], ?_⟩
    intro r t ht harr
    have := (hwf.own r t ht).1
    simp [Slice.nil] at harr
    omega
  | some s =>
    have hget : uc.GetConnectedClients roomID = s := by
      simp [ChatUsecase.GetConnectedClients, hs]
    rw [hget, clientList_of_some uc roomID s hs]
    have hown := hwf.own roomID s hs
    refine ⟨hwf, hown.2.1, fun h0 => by omega, rfl, ?_⟩
    intro r t ht harr
    have hr : r = roomID := hwf.inj r roomID t s ht hs harr
    subst hr
    rw [hs] at ht
    cases ht
    exact ⟨rfl, Nat.le_refl _⟩

theorem SnapshotKept_of_eq (uc uc1 : ChatUsecase) (roomID : String) (sl : Slice)
    (conns : List Conn) (h : SnapshotKept uc roomID sl conns)
    (heq : uc1.clients = uc.clients ∧ uc1.heap = uc.heap) :
    SnapshotKept uc1 roomID sl conns := by
  refine ⟨ClientsWF_of_eq uc uc1 h.wf heq, ?_, h.base, ?_, ?_⟩
  · rw [heq.2]; exact h.lt
  · rw [heq.2]; exact h.reads
  · rw [heq.1]; exact h.owner

/-- Storing the result of an `append` on the storage of room `r` keeps a returned slice
reading what it read, when the append starts at or behind the end of that slice. -/
theorem SnapshotKept_update (g : Nat → Nat) (uc uc1 : ChatUsecase) (roomID : String) (sl : Slice)
    (conns : List Conn) (h : SnapshotKept uc roomID sl conns) (r : String) (cur : Slice)
    (xs : List Conn) (hwf1 : ClientsWF uc1)
    (hheap : uc1.heap = (goAppend g uc.heap cur xs).1)
    (hclients : uc1.clients = uc.clients.set r (goAppend g uc.heap cur xs).2)
    (hcap : cur.len ≤ cur.cap uc.heap)
    (hk : sl.arr = cur.arr → sl.len ≤ cur.len ∧ (0 < sl.arr → r = roomID)) :
    SnapshotKept uc1 roomID sl conns := by
  refine ⟨hwf1, ?_, h.base, ?_, ?_⟩
  · rw [hheap]
    exact Nat.lt_of_lt_of_le h.lt (goAppend_heap_length g uc.heap cur xs)
  · rw [← h.reads, hheap]
    exact goAppend_take_keep g uc.heap cur xs sl.arr sl.len h.lt (fun hb => (hk hb).1) hcap
  · intro r1 t ht harr
    rw [hclients] at ht
    by_cases hr1 : r1 = r
    · subst hr1
      have ht1 : t = (goAppend g uc.heap cur xs).2 := by simpa using ht.symm
      have hpos : 0 < sl.arr := by
        rw [← harr]
        exact (hwf1.own r1 t (by rw [hclients]; exact ht)).1
      rcases goAppend_arr g uc.heap cur xs with ha | ha
      · have hb : sl.arr = cur.arr := by rw [← harr, ht1, ha]
        refine ⟨(hk hb).2 hpos, ?_⟩
        rw [ht1, goAppend_len]
        have := (hk hb).1
        omega
      · have : sl.arr = uc.heap.length := by rw [← harr, ht1, ha]
        have := h.lt
        omega
    · have ht1 : uc.clients.get r1 = some t := by simpa [hr1] using ht
      exact h.owner r1 t ht1 harr

theorem RemoveClientFromRoom_eq (g : Nat → Nat) (uc : ChatUsecase) (r : String) (c : Conn)
    (t : Slice) (i : Nat) (ht : uc.clients.get r = some t)
    (hi : firstIndex c (t.elems uc.heap) = some i) :
    uc.RemoveClientFromRoom g r c =
      { uc with
        heap := (goAppend g uc.heap ⟨t.arr, i⟩ ((t.elems uc.heap).drop (i + 1))).1,
        clients := uc.clients.set r
          (goAppend g uc.heap ⟨t.arr, i⟩ ((t.elems uc.heap).drop (i + 1))).2 } := by
  simp only [ChatUsecase.RemoveClientFromRoom, ht, hi]

/-- A call on the registry keeps a returned slice reading what it read, unless it is a
`RemoveClientFromRoom` on the room of the slice for a connection the slice holds. -/
theorem SnapshotKept_step (g : Nat → Nat) (uc uc1 : ChatUsecase) (roomID : String) (sl : Slice)
    (conns : List Conn) (op : Op) (h : SnapshotKept uc roomID sl conns)
    (hstep : uc.step g op = .ok uc1)
    (hop : ∀ c, op = .RemoveClientFromRoom roomID c → c ∉ conns) :
    SnapshotKept uc1 roomID sl conns := by
  have hwf1 := ClientsWF_step g uc op uc1 h.wf hstep
  cases op with
  | CreateRoom room f ins =>
    simp only [ChatUsecase.step] at hstep
    cases hstep
    exact SnapshotKept_of_eq uc _ roomID sl conns h (CreateRoom_clients uc room f ins)
  | CloseRoom r =>
    obtain ⟨b, hb⟩ := step_CloseRoom_ok g uc uc1 r hstep
    exact SnapshotKept_of_eq uc _ roomID sl conns h (CloseRoom_clients uc uc1 r b hb)
  | AddClientToRoom r c =>
    simp only [ChatUsecase.step] at hstep
    cases hstep
    rw [AddClientToRoom_eq] at hwf1 ⊢
    cases ht : uc.clients.get r with
    | none =>
      have hcur : uc.GetConnectedClients r = Slice.nil := by
        simp [ChatUsecase.GetConnectedClients, ht]
      rw [hcur] at hwf1 ⊢
      refine SnapshotKept_update g uc _ roomID sl conns h r Slice.nil [c] hwf1 rfl rfl
        (by simp [Slice.nil, Slice.cap]) ?_
      intro hb
      have h0 : sl.arr = 0 := by simpa [Slice.nil] using hb
      exact ⟨by rw [h.base h0]; exact Nat.zero_le _, fun hp => by omega⟩
    | some t =>
      have hcur : uc.GetConnectedClients r = t := by
        simp [ChatUsecase.GetConnectedClients, ht]
      rw [hcur] at hwf1 ⊢
      refine SnapshotKept_update g uc _ roomID sl conns h r t [c] hwf1 rfl rfl
        (h.wf.own r t ht).2.2 ?_
      intro hb
      have := h.owner r t ht hb.symm
      exact ⟨this.2, fun _ => this.1⟩
  | RemoveClientFromRoom r c =>
    simp only [ChatUsecase.step] at hstep
    cases hstep
    cases ht : uc.clients.get r with
    | none =>
      have : uc.RemoveClientFromRoom g r c = uc := by
        simp only [ChatUsecase.RemoveClientFromRoom, ht]
      rw [this]; exact h
    | some t =>
      cases hi : firstIndex c (t.elems uc.heap) with
      | none =>
        have : uc.RemoveClientFromRoom g r c = uc := by
          simp only [ChatUsecase.RemoveClientFromRoom, ht, hi]
        rw [this]; exact h
      | some i =>
        have hreq := RemoveClientFromRoom_eq g uc r c t i ht hi
        rw [hreq] at hwf1 ⊢
        have hown := h.wf.own r t ht
        have hfi := firstIndex_some c _ i hi
        have hilen : i < t.len := by
          have := hfi.1
          simp [Slice.elems, List.length_take] at this
          omega
        have hicap : i ≤ (⟨t.arr, i⟩ : Slice).cap uc.heap := by
          have := hown.2.2
          simp only [Slice.cap] at this ⊢
          omega
        have hkey : sl.arr = t.arr → sl.len ≤ i ∧ r = roomID := by
          intro hb
          have ho := h.owner r t ht hb.symm
          refine ⟨?_, ho.1⟩
          by_contra hlt
          have hlt : i < sl.len := by omega
          have hget := firstIndex_get c _ i hi
          have hg : (sl.elems uc.heap)[i]? = some c := by
            simp only [Slice.elems] at hget ⊢
            rw [List.getElem?_take_of_lt hlt, hb]
            rw [List.getElem?_take_of_lt hilen] at hget
            exact hget
          have hmem : c ∈ conns := by
            rw [← h.reads]
            exact List.getElem?_mem hg
          have hr : r = roomID := ho.1
          exact hop c (by rw [hr]) hmem
        have hlen2 : (goAppend g uc.heap ⟨t.arr, i⟩ ((t.elems uc.heap).drop (i + 1))).2.len + 1 =
            t.len := by
          rw [goAppend_len]
          have hel : (t.elems uc.heap).length = t.len := by
            have := hown.2.2
            simp only [Slice.cap] at this
            simp [Slice.elems, List.length_take, Nat.min_eq_left this]
          simp only [List.length_drop, hel]
          omega
        refine ⟨hwf1, ?_, h.base, ?_, ?_⟩
        · exact Nat.lt_of_lt_of_le h.lt (goAppend_heap_length g uc.heap _ _)
        · rw [← h.reads]
          exact goAppend_take_keep g uc.heap ⟨t.arr, i⟩ _ sl.arr sl.len h.lt
            (fun hb => (hkey hb).1) hicap
        · intro r1 t1 ht1 harr
          by_cases hr1 : r1 = r
          · subst hr1
            have ht2 : t1 = (goAppend g uc.heap ⟨t.arr, i⟩ ((t.elems uc.heap).drop (i + 1))).2 := by
              simpa using ht1.symm
            rcases goAppend_arr g uc.heap ⟨t.arr, i⟩ ((t.elems uc.heap).drop (i + 1)) with ha | ha
            · have hb : sl.arr = t.arr := by rw [← harr, ht2, ha]
              have hk := hkey hb
              refine ⟨hk.2, ?_⟩
              rw [ht2]
              omega
            · have : sl.arr = uc.heap.length := by rw [← harr, ht2, ha]
              have := h.lt
              omega
          · have ht2 : uc.clients.get r1 = some t1 := by simpa [hr1] using ht1
            exact h.owner r1 t1 ht2 harr

theorem step_ok (g : Nat → Nat) (uc : ChatUsecase) (op : Op) (hwf : RoomsWF uc) :
    ∃ uc1, uc.step g op = .ok uc1 := by
  cases op with
  | CreateRoom room f ins => exact ⟨_, rfl⟩
  | AddClientToRoom r c => exact ⟨_, rfl⟩
  | RemoveClientFromRoom r c => exact ⟨_, rfl⟩
  | CloseRoom r =>
    cases hr : uc.rooms.get r with
    | none => exact ⟨uc, by simp [ChatUsecase.step, CloseRoom_of_absent uc r hr]⟩
    | some ch =>
      refine ⟨{ uc with chans := uc.chans.set ch true, rooms := uc.rooms.delete r }, ?_⟩
      simp [ChatUsecase.step, CloseRoom_of_open uc r ch hr (hwf.isOpen r ch hr)]

/-- From a well-formed registry every sequence of calls runs through without a panic,
and a returned slice keeps reading what it read as long as no call removes one of its
connections from its room. -/
theorem SnapshotKept_run (g : Nat → Nat) (roomID : String) (sl : Slice) (conns : List Conn) :
    ∀ (ops : List Op) (uc : ChatUsecase), SnapshotKept uc roomID sl conns → RoomsWF uc →
      (∀ c ∈ conns, Op.RemoveClientFromRoom roomID c ∉ ops) →
      ∃ uc1, uc.run g ops = .ok uc1 ∧ SnapshotKept uc1 roomID sl conns := by
  intro ops
  induction ops with
  | nil => intro uc h _ _; exact ⟨uc, rfl, h⟩
  | cons op rest ih =>
    intro uc h hr hkeep
    obtain ⟨uc2, hstep⟩ := step_ok g uc op hr
    have h2 : SnapshotKept uc2 roomID sl conns := by
      apply SnapshotKept_step g uc uc2 roomID sl conns op h hstep
      intro c hop hc
      exact hkeep c hc (by rw [hop]; exact List.mem_cons_self _ _)
    obtain ⟨uc1, hrun, h1⟩ := ih uc2 h2 (RoomsWF_step g uc op uc2 hr hstep)
      (fun c hc hmem => hkeep c hc (List.mem_cons_of_mem _ hmem))
    exact ⟨uc1, by simp only [ChatUsecase.run, hstep]; exact hrun, h1⟩

/-- C7 (amended): `GetConnectedClients(roomID)` returns the slice stored in the registry,
not a copy.  In every reachable state, the slice it returns reads the same elements, in
the same number, after every later sequence of registry calls (`CreateRoom`, `CloseRoom`,
`AddClientToRoom`, `RemoveClientFromRoom`, on any room, none of which panics) in which no
`RemoveClientFromRoom(roomID, c)` is made for a connection `c` of the returned list. -/
theorem C7_snapshot_kept (growCap : Nat → Nat) (uc : ChatUsecase) (roomID : String)
    (ops : List Op) (hr : Reachable growCap uc)
    (hkeep : ∀ c ∈ uc.clientList roomID, Op.RemoveClientFromRoom roomID c ∉ ops) :
    ∃ uc1, uc.run growCap ops = .ok uc1 ∧
      (uc.GetConnectedClients roomID).elems uc1.heap =
        (uc.GetConnectedClients roomID).elems uc.heap := by
  have h0 := SnapshotKept_init uc (Reachable_clientsWF growCap uc hr) roomID
  obtain ⟨uc1, hrun, h1⟩ := SnapshotKept_run growCap roomID _ _ ops uc h0
    (Reachable_roomsWF growCap uc hr) hkeep
  exact ⟨uc1, hrun, h1.reads⟩

/-- C7 on the example: the slice returned for "lobby" reads `[1, 2]` and still does after
joins and leaves of other connections within the same array and in another room. -/
theorem C7_snapshot_kept_witness :
    Reachable (fun c => 2 * c + 4) exampleLobby ∧
    exampleLobby.clientList "lobby" = [some 1, some 2] ∧
    ∃ uc1, exampleLobby.run (fun c => 2 * c + 4) exampleLaterCalls = .ok uc1 ∧
      (exampleLobby.GetConnectedClients "lobby").elems uc1.heap = [some 1, some 2] :=
  ⟨⟨⟨[], []⟩, [.AddClientToRoom "lobby" (some 1), .AddClientToRoom "lobby" (some 2)], rfl⟩,
    by decide,
    (C7_snapshot_kept (fun c => 2 * c + 4) exampleLobby "lobby" exampleLaterCalls
      ⟨⟨[], []⟩, [.AddClientToRoom "lobby" (some 1), .AddClientToRoom "lobby" (some 2)], rfl⟩
      (by
        intro c hc
        have hl : exampleLobby.clientList "lobby" = [some 1, some 2] := by decide
        rw [hl] at hc
        simp only [List.mem_cons, List.mem_singleton, List.not_mem_nil, or_false] at hc
        rcases hc with rfl | rfl <;> simp [exampleLaterCalls])).imp
      (fun _ h => ⟨h.1, h.2.trans (by decide)⟩)⟩

/-! ## C8: one room per connection -/

theorem step_clientList (g : Nat → Nat) (uc uc1 : ChatUsecase) (op : Op) (hwf : ClientsWF uc)
    (h : uc.step g op = .ok uc1) :
    ∀ j, uc1.clientList j =
      match op with
      | .AddClientToRoom r c => if j = r then uc.clientList j ++ [c] else uc.clientList j
      | .RemoveClientFromRoom r c => if j = r then (uc.clientList j).erase c else uc.clientList j
      | _ => uc.clientList j := by
  intro j
  cases op with
  | CreateRoom room f ins =>
    simp only [ChatUsecase.step] at h
    cases h
    exact clientList_of_eq uc _ (CreateRoom_clients uc room f ins) j
  | CloseRoom r =>
    obtain ⟨b, hb⟩ := step_CloseRoom_ok g uc uc1 r h
    exact clientList_of_eq uc _ (CloseRoom_clients uc uc1 r b hb) j
  | AddClientToRoom r c =>
    simp only [ChatUsecase.step] at h
    cases h
    have hs := AddClientToRoom_spec g uc hwf r c
    by_cases hj : j = r
    · subst hj; simp [hs.2.1]
    · simp [hj, hs.2.2 j hj]
  | RemoveClientFromRoom r c =>
    simp only [ChatUsecase.step] at h
    cases h
    have hs := RemoveClientFromRoom_spec g uc hwf r c
    by_cases hj : j = r
    · subst hj; simp [hs.2.1]
    · simp [hj, hs.2.2 j hj]

theorem oneRoomPerConn_run (g : Nat → Nat) :
    ∀ (ops : List Op) (uc uc1 : ChatUsecase), ClientsWF uc → uc.oneRoomPerConn →
      uc.joinsUnlisted g ops → uc.run g ops = .ok uc1 → uc1.oneRoomPerConn := by
  intro ops
  induction ops with
  | nil =>
    intro uc uc1 _ hone _ hrun
    simp only [ChatUsecase.run] at hrun
    cases hrun; exact hone
  | cons op ops ih =>
    intro uc uc1 hwf hone hjoin hrun
    simp only [ChatUsecase.run] at hrun
    simp only [ChatUsecase.joinsUnlisted] at hjoin
    cases hs : uc.step g op with
    | error p => simp [hs] at hrun
    | ok uc2 =>
      simp only [hs] at hrun hjoin
      refine ih uc2 uc1 (ClientsWF_step g uc op uc2 hwf hs) ?_ hjoin.2 hrun
      have hl := step_clientList g uc uc2 op hwf hs
      intro c r1 r2 h1 h2
      rw [hl r1] at h1
      rw [hl r2] at h2
      cases op with
      | CreateRoom room f ins => exact hone c r1 r2 h1 h2
      | CloseRoom r => exact hone c r1 r2 h1 h2
      | AddClientToRoom r a =>
        have hguard := hjoin.1
        simp only at hguard h1 h2
        by_cases hr1 : r1 = r <;> by_cases hr2 : r2 = r
        · rw [hr1, hr2]
        · simp only [hr1, if_true, hr2, if_false, List.mem_append, List.mem_singleton] at h1 h2
          rcases h1 with h1 | h1
          · exact hr1 ▸ hone c r r2 h1 h2
          · exact absurd (h1 ▸ h2) (hguard r2 hr2)
        · simp only [hr1, if_false, hr2, if_true, List.mem_append, List.mem_singleton] at h1 h2
          rcases h2 with h2 | h2
          · exact hr2 ▸ hone c r1 r h1 h2
          · exact absurd (h2 ▸ h1) (hguard r1 hr1)
        · simp only [hr1, hr2, if_false] at h1 h2
          exact hone c r1 r2 h1 h2
      | RemoveClientFromRoom r a =>
        simp only at h1 h2
        have m1 : c ∈ uc.clientList r1 := by
          by_cases hr1 : r1 = r
          · simp only [hr1, if_true] at h1; rw [hr1]; exact List.mem_of_mem_erase h1
          · simpa [hr1] using h1
        have m2 : c ∈ uc.clientList r2 := by
          by_cases hr2 : r2 = r
          · simp only [hr2, if_true] at h2; rw [hr2]; exact List.mem_of_mem_erase h2
          · simpa [hr2] using h2
        exact hone c r1 r2 m1 m2

theorem clientList_new (db : DB) (j : String) : (NewChatUsecase db).clientList j = [] :=
  clientList_of_none _ _ (by simp [NewChatUsecase])

/-- C8, as stated, fails: `AddClientToRoom` called for one connection on two rooms
lists it in both. -/
theorem C8_two_rooms_counterexample :
    ∃ uc, (NewChatUsecase ⟨[], []⟩).run (fun c => 2 * c)
        [.AddClientToRoom "lobby" (some 1), .AddClientToRoom "hall" (some 1)] = .ok uc ∧
      some 1 ∈ uc.clientList "lobby" ∧ some 1 ∈ uc.clientList "hall" ∧ ¬ uc.oneRoomPerConn := by
  refine ⟨_, rfl, by decide, by decide, ?_⟩
  intro h
  exact absurd (h (some 1) "lobby" "hall" (by decide) (by decide)) (by decide)

/-- C8 (amended): in every state reached from the new registry through `CreateRoom`,
`AddClientToRoom`, `RemoveClientFromRoom` and `CloseRoom` calls in which
`AddClientToRoom` is never called for a connection that another room lists at that
moment, each connection handle is in the client list of at most one room. -/
theorem C8_one_room_per_connection (growCap : Nat → Nat) (db : DB) (ops : List Op)
    (uc : ChatUsecase) (hrun : (NewChatUsecase db).run growCap ops = .ok uc)
    (hjoin : (NewChatUsecase db).joinsUnlisted growCap ops) : uc.oneRoomPerConn :=
  oneRoomPerConn_run growCap ops (NewChatUsecase db) uc (ClientsWF_new db)
    (fun c r1 r2 h1 _ => by rw [clientList_new] at h1; cases h1) hjoin hrun

theorem joinsUnlisted_example :
    (NewChatUsecase ⟨[], []⟩).joinsUnlisted (fun c => 2 * c)
      [.AddClientToRoom "lobby" (some 1), .RemoveClientFromRoom "lobby" (some 1),
        .AddClientToRoom "hall" (some 1), .AddClientToRoom "hall" (some 2)] := by
  refine ⟨fun j _ => by rw [clientList_new]; simp, trivial, ?_, ?_, trivial⟩
  · intro j _
    by_cases h : j = "lobby"
    · subst h; decide
    · simp [ChatUsecase.clientList, ChatUsecase.GetConnectedClients,
        ChatUsecase.RemoveClientFromRoom, ChatUsecase.AddClientToRoom, NewChatUsecase, h,
        Slice.nil, Slice.elems, firstIndex, goAppend, Heap.array, Heap.init]
  · intro j hj
    by_cases h : j = "lobby"
    · subst h; decide
    · simp [ChatUsecase.clientList, ChatUsecase.GetConnectedClients,
        ChatUsecase.RemoveClientFromRoom, ChatUsecase.AddClientToRoom, NewChatUsecase, h, hj,
        Slice.nil, Slice.elems, firstIndex, goAppend, Heap.array, Heap.init]

/-- C8 at a connection that leaves "lobby" before it joins "hall". -/
theorem C8_one_room_per_connection_witness :
    (NewChatUsecase ⟨[], []⟩).joinsUnlisted (fun c => 2 * c)
      [.AddClientToRoom "lobby" (some 1), .RemoveClientFromRoom "lobby" (some 1),
        .AddClientToRoom "hall" (some 1), .AddClientToRoom "hall" (some 2)] ∧
    ∃ uc, (NewChatUsecase ⟨[], []⟩).run (fun c => 2 * c)
        [.AddClientToRoom "lobby" (some 1), .RemoveClientFromRoom "lobby" (some 1),
          .AddClientToRoom "hall" (some 1), .AddClientToRoom "hall" (some 2)] = .ok uc ∧
      uc.clientList "hall" = [some 1, some 2] ∧ uc.oneRoomPerConn :=
  ⟨joinsUnlisted_example,
    _, rfl, by decide,
    C8_one_room_per_connection (fun c => 2 * c) ⟨[], []⟩
      [.AddClientToRoom "lobby" (some 1), .RemoveClientFromRoom "lobby" (some 1),
        .AddClientToRoom "hall" (some 1), .AddClientToRoom "hall" (some 2)] _ rfl
      joinsUnlisted_example⟩

/-! ## C9: open rooms are rooms of the store -/

theorem rooms_in_store_step (g : Nat → Nat) (uc : ChatUsecase) (op : Op) (uc1 : ChatUsecase)
    (hP : ∀ r, uc.rooms.get r ≠ none → ∃ row ∈ uc.db.rooms, row.ID = r)
    (h : uc.step g op = .ok uc1) :
    ∀ r, uc1.rooms.get r ≠ none → ∃ row ∈ uc1.db.rooms, row.ID = r := by
  cases op with
  | CreateRoom room f ins =>
    simp only [ChatUsecase.step] at h
    cases h
    rcases CreateRoom_cases uc room f ins with ⟨heq, _⟩ | ⟨id, t, _, _, _, _, _, heq⟩
    · rw [heq]; exact hP
    · rw [heq]
      intro r hr
      simp only [GoMap.get_set] at hr
      by_cases hrid : r = id
      · exact ⟨⟨id, room.RoomName, t⟩, by simp, hrid.symm⟩
      · simp only [hrid, if_false] at hr
        obtain ⟨row, hrow, hid⟩ := hP r hr
        exact ⟨row, List.mem_append_left _ hrow, hid⟩
  | CloseRoom r0 =>
    obtain ⟨b, hb⟩ := step_CloseRoom_ok g uc uc1 r0 h
    rcases CloseRoom_cases uc uc1 r0 b hb with ⟨_, heq, _⟩ | ⟨ch, _, _, _, heq⟩
    · rw [heq]; exact hP
    · rw [heq]
      intro r hr
      simp only [GoMap.get_delete] at hr
      by_cases hrr : r = r0
      · simp [hrr] at hr
      · simp only [hrr, if_false] at hr
        exact hP r hr
  | AddClientToRoom r0 c =>
    simp only [ChatUsecase.step] at h
    cases h
    rw [AddClientToRoom_eq]
    exact hP
  | RemoveClientFromRoom r0 c =>
    simp only [ChatUsecase.step] at h
    cases h
    unfold ChatUsecase.RemoveClientFromRoom
    cases hs : uc.clients.get r0 with
    | none => exact hP
    | some s =>
      simp only
      cases hi : firstIndex c (s.elems uc.heap) with
      | none => exact hP
      | some i => exact hP

/-- C9: in every state reached from the new registry through `CreateRoom` and
`CloseRoom` (and `AddClientToRoom`, `RemoveClientFromRoom`), every identifier that
keys `rooms` is the id of a row of the store's table of rooms: the row `CreateRoom`
inserted under the id the store generated. -/
theorem C9_open_rooms_in_store (growCap : Nat → Nat) (uc : ChatUsecase)
    (hr : Reachable growCap uc) (roomID : String) (hkey : uc.rooms.get roomID ≠ none) :
    ∃ row ∈ uc.db.rooms, row.ID = roomID := by
  obtain ⟨db, ops, hrun⟩ := hr
  exact run_invariant growCap
    (fun uc => ∀ r, uc.rooms.get r ≠ none → ∃ row ∈ uc.db.rooms, row.ID = r)
    (fun uc op uc1 => rooms_in_store_step growCap uc op uc1) ops _ uc
    (by intro r hne; simp [NewChatUsecase] at hne) hrun roomID hkey

/-- C9 after two rooms were created and the first one closed. -/
theorem C9_open_rooms_in_store_witness :
    ∃ uc, (NewChatUsecase ⟨[], []⟩).run (fun c => 2 * c)
        [.CreateRoom ⟨"", "general", 0⟩ none (.ok ("1", 10)),
          .CreateRoom ⟨"", "lobby", 0⟩ none (.ok ("2", 11)), .CloseRoom "1"] = .ok uc ∧
      uc.rooms.get "2" ≠ none ∧ ∃ row ∈ uc.db.rooms, row.ID = "2" :=
  ⟨_, rfl, by decide,
    C9_open_rooms_in_store (fun c => 2 * c) _
      ⟨⟨[], []⟩, [.CreateRoom ⟨"", "general", 0⟩ none (.ok ("1", 10)),
        .CreateRoom ⟨"", "lobby", 0⟩ none (.ok ("2", 11)), .CloseRoom "1"], rfl⟩ "2" (by decide)⟩

/-! ## C17, C18, C19: the user handlers -/

/-- C17: for every well-formed registration request with an empty username, email or
password, `UserHandler.Register` responds 400 with the error "Username, email, and
password are required" and does not call the use case; when the three fields are
non-empty and the call to the use case returns no error, it responds 200 with the
message "User registered successfully". -/
theorem C17_Register_required_fields (register : User → Option Err)
    (hashPassword : String → Except Err String) (req : RegisterRequest) :
    ((req.Username = "" ∨ req.Email = "" ∨ req.Password = "") →
      UserHandler.Register register hashPassword (.ok req) =
        (⟨400, [("error", "Username, email, and password are required")]⟩, [])) ∧
    ((req.Username ≠ "" ∧ req.Email ≠ "" ∧ req.Password ≠ "") →
      (∃ u, (u, none) ∈ (UserHandler.Register register hashPassword (.ok req)).2) →
      (UserHandler.Register register hashPassword (.ok req)).1 =
        ⟨200, [("message", "User registered successfully")]⟩) := by
  refine ⟨?_, ?_⟩
  · intro h
    simp [UserHandler.Register, h]
  · intro hne ⟨u, hu⟩
    have hcond : ¬ (req.Username = "" ∨ req.Email = "" ∨ req.Password = "") := by
      rintro (h | h | h)
      · exact hne.1 h
      · exact hne.2.1 h
      · exact hne.2.2 h
    unfold UserHandler.Register at hu ⊢
    simp only [hcond, if_false] at hu ⊢
    cases hh : hashPassword req.Password with
    | error e => simp [hh] at hu
    | ok hp =>
      simp only [hh] at hu ⊢
      cases hr : register ⟨0, req.Username, req.Email, hp⟩ with
      | none => rfl
      | some err =>
        simp only [hr] at hu
        cases hpq : err.asPqError with
        | none => simp [hpq] at hu
        | some cm =>
          simp only [hpq] at hu
          split at hu <;> simp at hu

/-- C17 at a request without a password, and at a complete one the use case accepts. -/
theorem C17_Register_required_fields_witness :
    UserHandler.Register (fun _ => none) (fun p => .ok ("hash:" ++ p))
        (.ok ⟨"ann", "ann@example.com", ""⟩) =
      (⟨400, [("error", "Username, email, and password are required")]⟩, []) ∧
    (UserHandler.Register (fun _ => none) (fun p => .ok ("hash:" ++ p))
        (.ok ⟨"ann", "ann@example.com", "pw"⟩)).1 =
      ⟨200, [("message", "User registered successfully")]⟩ :=
  ⟨(C17_Register_required_fields (fun _ => none) (fun p => .ok ("hash:" ++ p))
      ⟨"ann", "ann@example.com", ""⟩).1 (by decide),
    (C17_Register_required_fields (fun _ => none) (fun p => .ok ("hash:" ++ p))
      ⟨"ann", "ann@example.com", "pw"⟩).2 (by decide)
      ⟨⟨0, "ann", "ann@example.com", "hash:pw"⟩, by decide⟩⟩

/-- C18, as stated, fails: a user has the email and the password matches the stored
hash, but the query for the user fails; `UserUsecase.Login` returns an error. -/
theorem C18_lookup_fault_counterexample :
    (∃ u ∈ [(⟨1, "ann", "ann@example.com", "h"⟩ : User)], u.Email = "ann@example.com" ∧
      (fun (_ _ : String) => (none : Option Err)) "pw" u.Password = none) ∧
    UserUsecase.Login (fun _ _ => none) [⟨1, "ann", "ann@example.com", "h"⟩]
        "ann@example.com" "pw" (some (.driver "connection refused")) =
      .error (.new "user not found") :=
  ⟨⟨_, List.mem_singleton.2 rfl, rfl, rfl⟩, rfl⟩

/-- C18 (amended): `UserUsecase.Login` returns an error exactly when the query for the
user fails, no user has the email, or the password does not match the hash stored for
the user found; and for every login request the use case rejects, `UserHandler.Login`
responds 401 with the error "Invalid credentials" and does not call `GenerateJWT`. -/
theorem C18_Login_rejected (checkPasswordHash : String → String → Option Err)
    (users : List User) (fault : Option Err) (generateJWT : String → Except Err String)
    (req : LoginRequest) :
    ((∃ e, UserUsecase.Login checkPasswordHash users req.Email req.Password fault = .error e) ↔
      (fault ≠ none ∨ (∀ u ∈ users, u.Email ≠ req.Email) ∨
        ∃ u, users.find? (fun u => u.Email = req.Email) = some u ∧
          checkPasswordHash req.Password u.Password ≠ none)) ∧
    (∀ login : String → String → Except Err User,
      (∃ e, login req.Email req.Password = .error e) →
      UserHandler.Login login generateJWT (.ok req) =
        (⟨401, [("error", "Invalid credentials")]⟩, [])) := by
  refine ⟨?_, ?_⟩
  · unfold UserUsecase.Login UserRepository.GetUserByEmail
    cases fault with
    | some f => simp
    | none =>
      cases hf : users.find? (fun u => u.Email = req.Email) with
      | none =>
        have : ∀ u ∈ users, u.Email ≠ req.Email := by
          intro u hu
          have := List.find?_eq_none.1 hf u hu
          simpa using this
        simpa using this
      | some u =>
        have hnot : ¬ ∀ v ∈ users, v.Email ≠ req.Email := by
          intro hall
          have hmem := List.mem_of_find?_eq_some hf
          have hp := List.find?_some hf
          exact hall u hmem (by simpa using hp)
        cases hc : checkPasswordHash req.Password u.Password with
        | none => simp [hnot, hc]
        | some e => simp [hc]
  · intro login ⟨e, he⟩
    simp [UserHandler.Login, he]

/-- C18 at a wrong password. -/
theorem C18_Login_rejected_witness :
    (∃ e, UserUsecase.Login (fun p h => if h = "hash:" ++ p then none else some (.new "mismatch"))
        [⟨1, "ann", "ann@example.com", "hash:pw"⟩] "ann@example.com" "oops" none = .error e) ∧
    UserHandler.Login
        (fun email password =>
          UserUsecase.Login (fun p h => if h = "hash:" ++ p then none else some (.new "mismatch"))
            [⟨1, "ann", "ann@example.com", "hash:pw"⟩] email password none)
        (fun s => .ok ("token-" ++ s)) (.ok ⟨"ann@example.com", "oops"⟩) =
      (⟨401, [("error", "Invalid credentials")]⟩, []) :=
  ⟨⟨_, rfl⟩,
    (C18_Login_rejected (fun p h => if h = "hash:" ++ p then none else some (.new "mismatch"))
      [⟨1, "ann", "ann@example.com", "hash:pw"⟩] none (fun s => .ok ("token-" ++ s))
      ⟨"ann@example.com", "oops"⟩).2 _ ⟨_, rfl⟩⟩

/-- C19 fails on the code: wired through `UserUsecase.Register` and
`UserRepository.CreateUser`, `UserHandler.Register` never responds 409, whatever the
insert returns, because `CreateUser` wraps the error of the driver and the handler
asserts the type of the outer error; a unique violation 23505 on `users_email_key`
gets 500 "Error creating user". -/
theorem C19_wired_Register_never_conflict (users : List User)
    (hashPassword : String → Except Err String) (bind : Except Err RegisterRequest)
    (outcome : Except Err Int) :
    (UserHandler.Register (fun u => (UserUsecase.Register users u outcome).2.2) hashPassword
        bind).1.status ≠ 409 ∧
    (UserHandler.Register
        (fun u => (UserUsecase.Register [⟨1, "ann", "ann@example.com", "h"⟩] u
          (.error (.pq "23505"
            "duplicate key value violates unique constraint \"users_email_key\""))).2.2)
        (fun p => .ok ("hash:" ++ p)) (.ok ⟨"bob", "ann@example.com", "pw"⟩)).1 =
      ⟨500, [("error", "Error creating user")]⟩ := by
  refine ⟨?_, by decide⟩
  unfold UserHandler.Register
  cases bind with
  | error e => simp
  | ok req =>
    simp only
    split
    · simp
    · cases hh : hashPassword req.Password with
      | error e => simp
      | ok hp =>
        cases outcome with
        | error e =>
          simp [UserUsecase.Register, UserRepository.CreateUser, Err.asPqError]
        | ok id =>
          simp [UserUsecase.Register, UserRepository.CreateUser]

/-! ## C12, C13: the persistence queue and its workers -/

/-- The invariant of the queue: the buffer holds at most 100 messages and senders are
blocked only on a full buffer. -/
theorem PoolState.step_bound (s : PoolState) (op : PoolOp)
    (h : s.wp.jobQueue.length ≤ jobQueueCap ∧
      (s.wp.blocked ≠ [] → s.wp.jobQueue.length = jobQueueCap)) :
    (s.step op).wp.jobQueue.length ≤ jobQueueCap ∧
      ((s.step op).wp.blocked ≠ [] → (s.step op).wp.jobQueue.length = jobQueueCap) := by
  obtain ⟨hle, hb⟩ := h
  cases op with
  | AddJob msg =>
    simp only [PoolState.step, WorkerPool.AddJob]
    by_cases hlt : s.wp.jobQueue.length < jobQueueCap
    · simp only [hlt, if_true, List.length_append, List.length_singleton]
      refine ⟨hlt, ?_⟩
      intro hne
      have := hb hne
      omega
    · simp only [hlt, if_false]
      exact ⟨hle, fun _ => by omega⟩
  | work cf ins =>
    simp only [PoolState.step, PoolState.workerStep, WorkerPool.receive]
    cases hq : s.wp.jobQueue with
    | nil =>
      simp only
      exact ⟨hle, hb⟩
    | cons m rest =>
      rw [hq] at hle hb
      cases hbl : s.wp.blocked with
      | nil => simp at hle ⊢; omega
      | cons b bs =>
        have := hb (by simp [hbl])
        simp at this ⊢
        omega

theorem PoolState.step_conserves (s : PoolState) (op : PoolOp)
    (hb : s.wp.blocked ≠ [] → s.wp.jobQueue.length = jobQueueCap) :
    (s.step op).handed.map (·.1) ++ (s.step op).wp.jobQueue ++ (s.step op).wp.blocked =
      s.handed.map (·.1) ++ s.wp.jobQueue ++ s.wp.blocked ++ submitted [op] := by
  cases op with
  | AddJob msg =>
    simp only [PoolState.step, WorkerPool.AddJob, submitted]
    by_cases hlt : s.wp.jobQueue.length < jobQueueCap
    · simp only [hlt, if_true]
      cases hbl : s.wp.blocked with
      | nil => simp
      | cons b bs =>
        have := hb (by simp [hbl])
        omega
    · simp [hlt]
  | work cf ins =>
    simp only [PoolState.step, PoolState.workerStep, WorkerPool.receive, submitted]
    cases hq : s.wp.jobQueue with
    | nil => simp [hq]
    | cons m rest =>
      cases hbl : s.wp.blocked with
      | nil => simp
      | cons b bs => simp

theorem submitted_append (ops1 ops2 : List PoolOp) :
    submitted (ops1 ++ ops2) = submitted ops1 ++ submitted ops2 := by
  induction ops1 with
  | nil => rfl
  | cons op rest ih =>
    cases op with
    | AddJob msg => simp [submitted, ih]
    | work cf ins => simp [submitted, ih]

theorem PoolState.run_bounded_conserving :
    ∀ (ops : List PoolOp) (s : PoolState),
      (s.wp.jobQueue.length ≤ jobQueueCap ∧
        (s.wp.blocked ≠ [] → s.wp.jobQueue.length = jobQueueCap)) →
      ((s.run ops).wp.jobQueue.length ≤ jobQueueCap ∧
        ((s.run ops).wp.blocked ≠ [] → (s.run ops).wp.jobQueue.length = jobQueueCap)) ∧
      (s.run ops).handed.map (·.1) ++ (s.run ops).wp.jobQueue ++ (s.run ops).wp.blocked =
        s.handed.map (·.1) ++ s.wp.jobQueue ++ s.wp.blocked ++ submitted ops := by
  intro ops
  induction ops with
  | nil => intro s h; exact ⟨h, by simp [PoolState.run, submitted]⟩
  | cons op rest ih =>
    intro s h
    have h1 := PoolState.step_bound s op h
    have h2 := PoolState.step_conserves s op h.2
    have := ih (s.step op) h1
    have hrun : s.run (op :: rest) = (s.step op).run rest := rfl
    rw [hrun]
    refine ⟨this.1, ?_⟩
    rw [this.2, h2]
    have : submitted (op :: rest) = submitted [op] ++ submitted rest :=
      submitted_append [op] rest
    rw [this]
    simp

theorem blocked_stays (msg : Message) :
    ∀ (more : List Message) (s : PoolState), msg ∈ s.wp.blocked →
      msg ∈ (s.run (more.map PoolOp.AddJob)).wp.blocked := by
  intro more
  induction more with
  | nil => intro s h; exact h
  | cons m rest ih =>
    intro s h
    apply ih
    simp only [PoolState.step, WorkerPool.AddJob]
    by_cases hlt : s.wp.jobQueue.length < jobQueueCap
    · simpa [hlt] using h
    · simp only [hlt, if_false]
      exact List.mem_append_left _ h

theorem PoolState.step_AddJob_pending (s : PoolState) (msg : Message)
    (hb : s.wp.blocked ≠ [] → s.wp.jobQueue.length = jobQueueCap) :
    (s.step (.AddJob msg)).wp.jobQueue ++ (s.step (.AddJob msg)).wp.blocked =
      s.wp.jobQueue ++ s.wp.blocked ++ [msg] ∧
    (s.step (.AddJob msg)).db = s.db ∧ (s.step (.AddJob msg)).handed = s.handed := by
  simp only [PoolState.step, WorkerPool.AddJob]
  by_cases hlt : s.wp.jobQueue.length < jobQueueCap
  · simp only [hlt, if_true]
    cases hbl : s.wp.blocked with
    | nil => simp
    | cons b bs =>
      have := hb (by simp [hbl])
      omega
  · simp [hlt]

theorem PoolState.step_work_empty (s : PoolState) (cf : Option Err) (ins : Except Err Int)
    (hp : s.wp.jobQueue ++ s.wp.blocked = []) : s.step (.work cf ins) = s := by
  have hq : s.wp.jobQueue = [] := (List.append_eq_nil.1 hp).1
  simp [PoolState.step, PoolState.workerStep, WorkerPool.receive, hq]

theorem PoolState.step_work_pending (s : PoolState) (cf : Option Err) (ins : Except Err Int)
    (hb : s.wp.blocked ≠ [] → s.wp.jobQueue.length = jobQueueCap)
    (m : Message) (rest : List Message) (hp : s.wp.jobQueue ++ s.wp.blocked = m :: rest) :
    (s.step (.work cf ins)).wp.jobQueue ++ (s.step (.work cf ins)).wp.blocked = rest ∧
    (s.step (.work cf ins)).db = (MessageRepository.SaveMessage s.db m cf ins).1 ∧
    (s.step (.work cf ins)).handed =
      s.handed ++ [(m, (MessageRepository.SaveMessage s.db m cf ins).2)] := by
  cases hq : s.wp.jobQueue with
  | nil =>
    cases hbl : s.wp.blocked with
    | nil => rw [hq, hbl] at hp; cases hp
    | cons b bs =>
      have := hb (by simp [hbl])
      rw [hq] at this
      simp [jobQueueCap] at this
  | cons m1 q =>
    rw [hq] at hp
    simp only [List.cons_append, List.cons.injEq] at hp
    obtain ⟨hm, hrest⟩ := hp
    subst hm
    simp only [PoolState.step, PoolState.workerStep, WorkerPool.receive, hq]
    cases hbl : s.wp.blocked with
    | nil =>
      rw [hbl] at hrest
      exact ⟨by simpa using hrest, rfl, rfl⟩
    | cons b bs =>
      rw [hbl] at hrest
      exact ⟨by simpa using hrest, rfl, rfl⟩

/-- Every message a worker iteration takes is passed to `SaveMessage` on the database
as it then is: the record of the calls and the database after a schedule are those of
saving, in submission order, as many pending and submitted messages as iterations found
one. -/
theorem PoolState.run_saves :
    ∀ (ops : List PoolOp) (s : PoolState) (pending : List Message),
      (s.wp.jobQueue.length ≤ jobQueueCap ∧
        (s.wp.blocked ≠ [] → s.wp.jobQueue.length = jobQueueCap)) →
      s.wp.jobQueue ++ s.wp.blocked = pending →
      (s.run ops).handed =
        s.handed ++ (saveAll s.db ((pending ++ submitted ops).zip (served pending.length ops))).2 ∧
      (s.run ops).db =
        (saveAll s.db ((pending ++ submitted ops).zip (served pending.length ops))).1 := by
  intro ops
  induction ops with
  | nil =>
    intro s pending _ _
    cases pending <;> simp [PoolState.run, served, saveAll]
  | cons op rest ih =>
    intro s pending h hp
    have h1 := PoolState.step_bound s op h
    have hrun : s.run (op :: rest) = (s.step op).run rest := rfl
    rw [hrun]
    cases op with
    | AddJob msg =>
      have hs := PoolState.step_AddJob_pending s msg h.2
      have := ih (s.step (.AddJob msg)) (pending ++ [msg]) h1 (by rw [hs.1, hp])
      rw [hs.2.1, hs.2.2] at this
      simpa [submitted, served] using this
    | work cf ins =>
      cases pending with
      | nil =>
        have hs := PoolState.step_work_empty s cf ins hp
        have := ih s [] h hp
        rw [hs]
        simpa [submitted, served] using this
      | cons m q =>
        have hs := PoolState.step_work_pending s cf ins h.2 m q hp
        have := ih (s.step (.work cf ins)) q h1 hs.1
        rw [hs.2.1, hs.2.2] at this
        simp only [submitted, served, List.length_cons, List.cons_append, List.zip_cons_cons,
          saveAll]
        rw [this.1, this.2]
        refine ⟨?_, rfl⟩
        rw [List.append_assoc]
        rfl

theorem worker_saves :
    ∀ (outcomes : List (Option Err × Except Err Int)) (queue : List Message) (db : DB)
      (handed : List (Message × Option Err)),
      ((PoolState.mk ⟨queue, []⟩ db handed).worker outcomes).handed =
        handed ++ (saveAll db (queue.zip outcomes)).2 ∧
      ((PoolState.mk ⟨queue, []⟩ db handed).worker outcomes).db =
        (saveAll db (queue.zip outcomes)).1 := by
  intro outcomes
  induction outcomes with
  | nil => intro queue db handed; simp [PoolState.worker, saveAll]
  | cons o rest ih =>
    intro queue db handed
    cases queue with
    | nil =>
      have := ih [] db handed
      simpa [PoolState.worker, PoolState.workerStep, WorkerPool.receive, saveAll] using this
    | cons m q =>
      have := ih q (MessageRepository.SaveMessage db m o.1 o.2).1
        (handed ++ [(m, (MessageRepository.SaveMessage db m o.1 o.2).2)])
      simp only [PoolState.worker, PoolState.workerStep, WorkerPool.receive, List.zip_cons_cons,
        saveAll]
      rw [this.1, this.2]
      refine ⟨?_, rfl⟩
      rw [List.append_assoc]
      rfl

/-- C12: in every state the pool reaches from `NewWorkerPool` through `AddJob` calls
and worker iterations, the queue holds at most 100 messages; `AddJob` on fewer than 100
puts the message at the tail and returns; `AddJob` on exactly 100 leaves the queue as
it is and does not return: its message waits, through any further `AddJob` calls, until
a worker iteration takes the head of the queue and moves the longest waiting message
to the tail; the messages passed to `AddJob` so far are, in call order, those the
workers took, then those in the queue, then those waiting in `AddJob`; and every message
a worker took was passed to `SaveMessage`: the calls recorded, with the errors returned,
and the database are those of calling `SaveMessage` on the submitted messages in order,
once for each worker iteration that found a message, with the outcomes of that
iteration. -/
theorem C12_queue_bounded_no_loss (db : DB) (ops : List PoolOp) :
    ((PoolState.new db).run ops).wp.jobQueue.length ≤ 100 ∧
    (∀ msg, ((PoolState.new db).run ops).wp.jobQueue.length < 100 →
      ((PoolState.new db).run ops).wp.AddJob msg =
        ({ ((PoolState.new db).run ops).wp with
            jobQueue := ((PoolState.new db).run ops).wp.jobQueue ++ [msg] }, true)) ∧
    (∀ msg, ((PoolState.new db).run ops).wp.jobQueue.length = 100 →
      (((PoolState.new db).run ops).wp.AddJob msg).2 = false ∧
      (((PoolState.new db).run ops).wp.AddJob msg).1.jobQueue =
        ((PoolState.new db).run ops).wp.jobQueue ∧
      (∀ more : List Message, msg ∈
        ((((PoolState.new db).run ops).step (.AddJob msg)).run
          (more.map PoolOp.AddJob)).wp.blocked) ∧
      (((PoolState.new db).run ops).wp.blocked = [] →
        ∀ countFault insert,
          ((((PoolState.new db).run ops).step (.AddJob msg)).step
              (.work countFault insert)).wp =
            ⟨((PoolState.new db).run ops).wp.jobQueue.tail ++ [msg], []⟩)) ∧
    ((PoolState.new db).run ops).handed.map (·.1) ++ ((PoolState.new db).run ops).wp.jobQueue ++
        ((PoolState.new db).run ops).wp.blocked = submitted ops ∧
    ((PoolState.new db).run ops).handed =
      (saveAll db ((submitted ops).zip (served 0 ops))).2 ∧
    ((PoolState.new db).run ops).db =
      (saveAll db ((submitted ops).zip (served 0 ops))).1 := by
  have hsave := PoolState.run_saves ops (PoolState.new db) []
    (by simp [PoolState.new, NewWorkerPool, jobQueueCap]) rfl
  have hinv := PoolState.run_bounded_conserving ops (PoolState.new db)
    (by simp [PoolState.new, NewWorkerPool, jobQueueCap])
  have hs1 : ((PoolState.new db).run ops).handed =
      (saveAll db ((submitted ops).zip (served 0 ops))).2 := by
    simpa [PoolState.new] using hsave.1
  have hs2 : ((PoolState.new db).run ops).db =
      (saveAll db ((submitted ops).zip (served 0 ops))).1 := by
    simpa [PoolState.new] using hsave.2
  refine ⟨?_, ?_, ?_, ?_, hs1, hs2⟩
  · exact hinv.1.1
  · intro msg hlt
    simp [WorkerPool.AddJob, jobQueueCap, hlt]
  · generalize (PoolState.new db).run ops = s at hinv ⊢
    intro msg heq
    have hnlt : ¬ s.wp.jobQueue.length < jobQueueCap := by simp [jobQueueCap, heq]
    refine ⟨by simp [WorkerPool.AddJob, hnlt], by simp [WorkerPool.AddJob, hnlt], ?_, ?_⟩
    · intro more
      apply blocked_stays
      simp [PoolState.step, WorkerPool.AddJob, hnlt]
    · intro hbl cf ins
      cases hq : s.wp.jobQueue with
      | nil => rw [hq] at heq; simp at heq
      | cons m rest =>
        have hnlt1 : ¬ rest.length + 1 < jobQueueCap := by simpa [hq] using hnlt
        simp [PoolState.step, PoolState.workerStep, WorkerPool.receive, WorkerPool.AddJob, hnlt1,
          hq, hbl]
  · simpa [PoolState.new, NewWorkerPool] using hinv.2

theorem worker_on_queue :
    ∀ (outcomes : List (Option Err × Except Err Int)) (queue : List Message) (db : DB)
      (handed : List (Message × Option Err)),
      ((PoolState.mk ⟨queue, []⟩ db handed).worker outcomes).handed.map (·.1) =
        handed.map (·.1) ++ queue.take outcomes.length ∧
      ((PoolState.mk ⟨queue, []⟩ db handed).worker outcomes).wp =
        ⟨queue.drop outcomes.length, []⟩ := by
  intro outcomes
  induction outcomes with
  | nil => intro queue db handed; simp [PoolState.worker]
  | cons o rest ih =>
    intro queue db handed
    cases queue with
    | nil =>
      have := ih [] db handed
      simpa [PoolState.worker, PoolState.workerStep, WorkerPool.receive] using this
    | cons m q =>
      have := ih q (MessageRepository.SaveMessage db m o.1 o.2).1
        (handed ++ [(m, (MessageRepository.SaveMessage db m o.1 o.2).2)])
      simp only [PoolState.worker, PoolState.workerStep, WorkerPool.receive]
      simpa using this

/-- C13: for every queue content and every pattern of `SaveMessage` outcomes, the
iterations of a worker call `SaveMessage` exactly once for each message they dequeue, in
queue order, each on the database the call before left and with the outcomes of its own
iteration, whether the saves fail or not: the calls recorded, with the errors returned,
and the database after the last iteration are those of these calls; the messages passed
are the first of the queue, as many as there were iterations, and what is left in the
queue is the rest of it, so no message is put back and the next iteration takes the next
message. -/
theorem C13_worker_saves_each_once (queue : List Message) (db : DB)
    (outcomes : List (Option Err × Except Err Int)) :
    ((PoolState.mk ⟨queue, []⟩ db []).worker outcomes).handed =
      (saveAll db (queue.zip outcomes)).2 ∧
    ((PoolState.mk ⟨queue, []⟩ db []).worker outcomes).db =
      (saveAll db (queue.zip outcomes)).1 ∧
    ((PoolState.mk ⟨queue, []⟩ db []).worker outcomes).handed.map (·.1) =
      queue.take outcomes.length ∧
    ((PoolState.mk ⟨queue, []⟩ db []).worker outcomes).wp.jobQueue =
      queue.drop outcomes.length ∧
    ((PoolState.mk ⟨queue, []⟩ db []).worker outcomes).handed.length =
      min outcomes.length queue.length := by
  have h := worker_on_queue outcomes queue db []
  have hs := worker_saves outcomes queue db []
  refine ⟨by simpa using hs.1, hs.2, by simpa using h.1, by rw [h.2], ?_⟩
  have := congrArg List.length h.1
  simpa using this

/-! ## C11: the order of the writes -/

/-- C11, as stated, fails: two connections joined room "1", so two broadcasters receive
from its channel; "one" is sent before "two", broadcaster 0 takes "one", broadcaster 1
takes "two" and writes it first: each connection is written "two" before "one". -/
theorem C11_two_broadcasters_counterexample :
    exampleTwoLoops.uc.clientList "1" = [some 1, some 2] ∧
    exampleTwoLoops.feed.map (·.2) = [⟨0, 7, "1", "one", 1⟩, ⟨0, 7, "1", "two", 2⟩] ∧
    (((Sys.run (fun c => 2 * c) exampleTwoLoops exampleOvertaking).writes.filter
        (fun w => w.client = 1)).map (·.msg) =
      [⟨0, 7, "1", "two", 2⟩, ⟨0, 7, "1", "one", 1⟩]) ∧
    (((Sys.run (fun c => 2 * c) exampleTwoLoops exampleOvertaking).writes.filter
        (fun w => w.client = 2)).map (·.msg) =
      [⟨0, 7, "1", "two", 2⟩, ⟨0, 7, "1", "one", 1⟩]) := by
  decide

theorem expectedWrites_cons (conns : List Conn) (m : Message) (ms : List Message) :
    expectedWrites conns (m :: ms) =
      (nonNil conns).map (fun a => (a, m)) ++ expectedWrites conns ms := rfl

theorem GetConnectedClients_of_clients (uc uc1 : ChatUsecase) (h : uc1.clients = uc.clients)
    (roomID : String) : uc1.GetConnectedClients roomID = uc.GetConnectedClients roomID := by
  simp [ChatUsecase.GetConnectedClients, h]

theorem Sys.run_cons (g : Nat → Nat) (s : Sys) (a : Action) (acts : List Action) :
    Sys.run g s (a :: acts) = Sys.run g (s.step g a) acts := rfl

theorem expectedWrites_for_conn (conns : List Conn) (a : Nat)
    (h : (nonNil conns).count a = 1) :
    ∀ msgs : List Message,
      ((expectedWrites conns msgs).filter (fun p => p.1 = a)).map (·.2) = msgs := by
  intro msgs
  induction msgs with
  | nil => simp [expectedWrites]
  | cons m ms ih =>
    rw [expectedWrites_cons, List.filter_append, List.map_append, ih]
    have : (((nonNil conns).map (fun b => (b, m))).filter (fun p => p.1 = a)).map (·.2) = [m] := by
      rw [List.filter_map, List.map_map]
      have hf : List.filter ((fun p : Nat × Message => decide (p.1 = a)) ∘ fun b => (b, m))
          (nonNil conns) = List.replicate ((nonNil conns).count a) a := by
        rw [← List.filter_eq (nonNil conns) a]
        congr 1
      rw [hf, h]
      rfl
    rw [this]
    rfl

/-! ## C20, C14: what the broadcasters receive -/

/-- C20 fails on the code: after `CloseRoom` closed the channel of room "1" and
deleted its entry, broadcaster 1, still waiting in `select`, receives the zero message
from the closed channel, passes it to `SaveMessage`, writes it to connection 2 and goes
back to `select`; only broadcaster 0, which got `done`, has returned. -/
theorem C20_closed_channel_zero_message :
    (Sys.run (fun c => 2 * c) exampleJoined (exampleAfterClose.take 3)).uc.chans[0]? = some true ∧
    (Sys.run (fun c => 2 * c) exampleJoined (exampleAfterClose.take 3)).uc.rooms.get "1" = none ∧
    (Sys.run (fun c => 2 * c) exampleJoined (exampleAfterClose.take 3)).saves = [] ∧
    (Sys.run (fun c => 2 * c) exampleJoined (exampleAfterClose.take 3)).writes = [] ∧
    (Sys.run (fun c => 2 * c) exampleJoined exampleAfterClose).saves.map (·.1) = [zeroMessage] ∧
    (Sys.run (fun c => 2 * c) exampleJoined exampleAfterClose).writes = [⟨2, zeroMessage, none⟩] ∧
    (Sys.run (fun c => 2 * c) exampleJoined exampleAfterClose).loops.map (·.pc) =
      [.returned, .selecting] := by
  decide

theorem Quiet_step (g : Nat → Nat) (s : Sys) (a : Action) (h : Quiet s)
    (ha : a.isTraffic = true) : Quiet (s.step g a) := by
  cases a with
  | registry op => simp [Action.isTraffic] at ha
  | spawn r => simp [Action.isTraffic] at ha
  | closeRoom r k => simp [Action.isTraffic] at ha
  | accept u r p n => exact ⟨h.feed, h.writes, h.loops⟩
  | work cf ins =>
    simp only [Sys.step, Sys.workerStep]
    cases hr : s.wp.receive with
    | none => exact h
    | some p => exact ⟨h.feed, h.writes, h.loops⟩
  | loop k choice cf ins we =>
    simp only [Sys.step, Sys.loopStep]
    cases hl : s.loops[k]? with
    | none => exact h
    | some l =>
      have hmem : l ∈ s.loops := List.getElem?_mem hl
      rcases h.loops l hmem with ⟨hpc, hch⟩ | hpc
      · simp only [hpc]
        cases choice with
        | room =>
          have hch1 : ¬ s.uc.chans[l.room]? = some true := hch
          simp only [hch1, if_false, h.feed]
          exact h
        | done =>
          cases hc : s.closing with
          | none => exact h
          | some jv =>
            obtain ⟨j, v⟩ := jv
            simp only
            by_cases hj : j = k
            · simp only [hj, if_true, Sys.setPc]
              refine ⟨h.feed, h.writes, ?_⟩
              intro l1 hl1
              rcases List.mem_or_eq_of_mem_set hl1 with hin | heq
              · exact h.loops l1 hin
              · right; rw [heq]
            · simp only [hj, if_false]
              exact h
      · simp only [hpc]
        exact h

theorem Quiet_run (g : Nat → Nat) :
    ∀ (acts : List Action) (s : Sys), Quiet s →
      Quiet (Sys.run g s (acts.filter Action.isTraffic)) := by
  intro acts
  induction acts with
  | nil => intro s h; exact h
  | cons a rest ih =>
    intro s h
    by_cases ha : a.isTraffic = true
    · rw [List.filter_cons_of_pos ha, Sys.run_cons]
      exact ih _ (Quiet_step g s a h ha)
    · rw [List.filter_cons_of_neg ha]
      exact ih s h

/-- C14 fails on the code: connections 1 and 2 have joined room "1" and the handler
of connection 1 (user 7) accepts "hi".  The message goes to the job queue only; a
worker iteration stores one row for it, with room "1" and user 7; but however the
broadcasters, the workers and further accepted payloads are scheduled, nothing is
written to any connection, because no statement sends on the channel of the room. -/
theorem C14_accepted_payload_never_broadcast (acts : List Action) :
    exampleJoined.uc.clientList "1" = [some 1, some 2] ∧
    (exampleJoined.accept 7 "1" "hi" 20).wp.jobQueue = [⟨0, 7, "1", "hi", 20⟩] ∧
    (exampleJoined.accept 7 "1" "hi" 20).feed = [] ∧
    ((exampleJoined.accept 7 "1" "hi" 20).workerStep none (.ok 1)).uc.db.messages =
      [⟨1, 7, "1", "hi", 20⟩] ∧
    (Sys.run (fun c => 2 * c) (exampleJoined.accept 7 "1" "hi" 20)
      (acts.filter Action.isTraffic)).writes = [] := by
  refine ⟨by decide, by decide, by decide, by decide, ?_⟩
  exact (Quiet_run (fun c => 2 * c) acts _ ⟨by decide, by decide, by decide⟩).writes

/-! ## C15, C16: which connections the handler admits -/

theorem GetRoomByID_error_of_absent (uc : ChatUsecase) (roomID : String) (fault : Option Err)
    (h : fault ≠ none ∨ ∀ row ∈ uc.db.rooms, row.ID ≠ roomID) :
    ∃ e, uc.GetRoomByID roomID fault = .error e := by
  unfold ChatUsecase.GetRoomByID RoomRepository.GetRoomByID
  cases fault with
  | some f => exact ⟨_, rfl⟩
  | none =>
    have hall : ∀ row ∈ uc.db.rooms, row.ID ≠ roomID := by
      rcases h with h | h
      · exact absurd rfl h
      · exact h
    have hfind : uc.db.rooms.find? (fun r => r.ID = roomID) = none := by
      rw [List.find?_eq_none]
      intro row hrow
      simpa using hall row hrow
    simp only [hfind]
    exact ⟨_, rfl⟩

theorem GetRoomByID_ok_of_present (uc : ChatUsecase) (roomID : String)
    (h : ∃ row ∈ uc.db.rooms, row.ID = roomID) :
    ∃ room, uc.GetRoomByID roomID none = .ok room := by
  unfold ChatUsecase.GetRoomByID RoomRepository.GetRoomByID
  obtain ⟨row, hrow, hid⟩ := h
  have hsome : (uc.db.rooms.find? (fun r => r.ID = roomID)).isSome := by
    rw [List.find?_isSome]
    exact ⟨row, hrow, by simpa using hid⟩
  obtain ⟨r0, hr0⟩ := Option.isSome_iff_exists.1 hsome
  simp only [hr0]
  exact ⟨_, rfl⟩

theorem WebSocketHandler_rejects (growCap : Nat → Nat) (validateJWT : String → Except Err String)
    (atoi : String → Except Err Int) (s : Sys) (authorization roomID : String)
    (upgrade : Except Err Conn) (roomFault : Option Err)
    (reads : List (Except Err String × Nat))
    (h : roomFault ≠ none ∨ ∀ row ∈ s.uc.db.rooms, row.ID ≠ roomID) :
    (WSHandler.WebSocketHandler growCap validateJWT atoi s authorization roomID upgrade
        roomFault reads).1 = s ∧
    (∀ e ∈ (WSHandler.WebSocketHandler growCap validateJWT atoi s authorization roomID upgrade
        roomFault reads).2, e.admits = false) ∧
    (∀ userID ws, WSHandler.authenticate validateJWT atoi authorization = some userID →
      upgrade = .ok ws →
      (WSHandler.WebSocketHandler growCap validateJWT atoi s authorization roomID upgrade
        roomFault reads).2 =
        [.closeFrame CloseNormalClosure "Room does not exist", .wsClosed]) := by
  obtain ⟨e, he⟩ := GetRoomByID_error_of_absent s.uc roomID roomFault h
  unfold WSHandler.WebSocketHandler
  cases hauth : WSHandler.authenticate validateJWT atoi authorization with
  | none =>
    refine ⟨rfl, ?_, ?_⟩
    · intro ev hev
      simp only [List.mem_singleton] at hev
      rw [hev]; rfl
    · intro userID ws hcontra; cases hcontra
  | some uid =>
    cases upgrade with
    | error e1 =>
      refine ⟨rfl, ?_, ?_⟩
      · intro ev hev; simp at hev
      · intro userID ws _ hcontra; cases hcontra
    | ok ws =>
      simp only [he]
      refine ⟨trivial, ?_, ?_⟩
      · intro ev hev
        simp only [List.mem_cons, List.mem_singleton, List.not_mem_nil, or_false] at hev
        rcases hev with hev | hev <;> rw [hev] <;> rfl
      · intro userID ws1 _ _; trivial

/-- C15: for every room identifier of which the store holds no room, and whatever the
state of the registry, the reads and the outcome of the lookup, `WebSocketHandler`
leaves the state as it is and neither calls `AddClientToRoom` nor passes a payload to
`SendMessageToRoom`; when the request is authenticated and upgraded to a connection,
it writes the close frame with code 1000 (normal closure) and the reason "Room does not
exist", then closes the connection. -/
theorem C15_unknown_room_rejected (growCap : Nat → Nat)
    (validateJWT : String → Except Err String) (atoi : String → Except Err Int) (s : Sys)
    (authorization roomID : String) (upgrade : Except Err Conn) (roomFault : Option Err)
    (reads : List (Except Err String × Nat))
    (hnone : ∀ row ∈ s.uc.db.rooms, row.ID ≠ roomID) :
    (WSHandler.WebSocketHandler growCap validateJWT atoi s authorization roomID upgrade
        roomFault reads).1 = s ∧
    (∀ e ∈ (WSHandler.WebSocketHandler growCap validateJWT atoi s authorization roomID upgrade
        roomFault reads).2, e.admits = false) ∧
    (∀ userID ws, WSHandler.authenticate validateJWT atoi authorization = some userID →
      upgrade = .ok ws →
      (WSHandler.WebSocketHandler growCap validateJWT atoi s authorization roomID upgrade
        roomFault reads).2 = [.closeFrame 1000 "Room does not exist", .wsClosed]) :=
  WebSocketHandler_rejects growCap validateJWT atoi s authorization roomID upgrade roomFault
    reads (Or.inr hnone)

/-- C15 on the example room, asked for room "9" which was never created. -/
theorem C15_unknown_room_rejected_witness :
    (∀ row ∈ exampleJoined.uc.db.rooms, row.ID ≠ "9") ∧
    (WSHandler.WebSocketHandler (fun c => 2 * c) (fun t => .ok t) (fun _ => .ok 7)
        exampleJoined "Bearer 7" "9" (.ok (some 5)) none
        [(.ok "hi", 20), (.error (.driver "EOF"), 21)]).2 =
      [.closeFrame 1000 "Room does not exist", .wsClosed] :=
  ⟨by decide,
    (C15_unknown_room_rejected (fun c => 2 * c) (fun t => .ok t) (fun _ => .ok 7)
      exampleJoined "Bearer 7" "9" (.ok (some 5)) none
      [(.ok "hi", 20), (.error (.driver "EOF"), 21)] (by decide)).2.2 7 (some 5) rfl rfl⟩

theorem sentMessages_append (xs ys : List HEvent) :
    sentMessages (xs ++ ys) = sentMessages xs ++ sentMessages ys := by
  induction xs with
  | nil => rfl
  | cons x rest ih =>
    cases x <;> simp [sentMessages, ih]

theorem readLoop_sent (userID : Int) (roomID : String) :
    ∀ (reads : List (Except Err String × Nat)) (s : Sys),
      sentMessages (WSHandler.readLoop userID roomID s reads).2.1 <+:
        messagesRead userID roomID reads := by
  intro reads
  induction reads with
  | nil => intro s; exact List.prefix_refl _
  | cons r rest ih =>
    intro s
    obtain ⟨res, now⟩ := r
    cases res with
    | error e => exact List.prefix_refl _
    | ok payload =>
      simp only [WSHandler.readLoop, messagesRead]
      split
      · simp only [sentMessages]
        exact (List.prefix_cons_inj _).2 (ih _)
      · simp only [sentMessages]
        exact (List.prefix_cons_inj _).2 (List.nil_prefix)

theorem readLoop_sent_all (userID : Int) (roomID : String) :
    ∀ (reads : List (Except Err String × Nat)) (s : Sys),
      s.wp.jobQueue.length + reads.length ≤ jobQueueCap →
      sentMessages (WSHandler.readLoop userID roomID s reads).2.1 =
        messagesRead userID roomID reads := by
  intro reads
  induction reads with
  | nil => intro s _; rfl
  | cons r rest ih =>
    intro s hle
    obtain ⟨res, now⟩ := r
    cases res with
    | error e => rfl
    | ok payload =>
      have hlt : s.wp.jobQueue.length < jobQueueCap := by
        simp only [List.length_cons] at hle
        omega
      have hret : (ChatUsecase.SendMessageToRoom s.wp ⟨0, userID, roomID, payload, now⟩).2
          = true := by
        simp [ChatUsecase.SendMessageToRoom, WorkerPool.AddJob, hlt]
      simp only [WSHandler.readLoop, messagesRead, hret, if_true, sentMessages]
      congr 1
      apply ih
      have hacc : (s.accept userID roomID payload now).wp.jobQueue.length =
          s.wp.jobQueue.length + 1 := by
        simp [Sys.accept, ChatUsecase.SendMessageToRoom, WorkerPool.AddJob, hlt]
      rw [hacc]
      simp only [List.length_cons] at hle
      omega

theorem readLoop_first (userID : Int) (roomID : String) (s : Sys) (payload : String)
    (now : Nat) (rest : List (Except Err String × Nat)) :
    (WSHandler.readLoop userID roomID s ((.ok payload, now) :: rest)).2.1.head? =
      some (.sent ⟨0, userID, roomID, payload, now⟩) := by
  simp only [WSHandler.readLoop]
  split <;> rfl

/-- C16, as stated, fails: room "1" is in the store but was closed, so `rooms` has no
entry for it; a connection asking for it is joined and its payload "hi" is passed to
`SendMessageToRoom` and queued. -/
theorem C16_closed_room_admitted_counterexample :
    exampleClosed.uc.rooms.get "1" = none ∧
    (∃ row ∈ exampleClosed.uc.db.rooms, row.ID = "1") ∧
    (WSHandler.WebSocketHandler (fun c => 2 * c) (fun t => .ok t) (fun _ => .ok 7)
        exampleClosed "Bearer 7" "1" (.ok (some 5)) none
        [(.ok "hi", 20), (.error (.driver "EOF"), 21)]).2 =
      [.added "1" (some 5), .spawned "1", .sent ⟨0, 7, "1", "hi", 20⟩,
        .removed "1" (some 5), .closeRoomCalled "1"] ∧
    (WSHandler.WebSocketHandler (fun c => 2 * c) (fun t => .ok t) (fun _ => .ok 7)
        exampleClosed "Bearer 7" "1" (.ok (some 5)) none
        [(.ok "hi", 20), (.error (.driver "EOF"), 21)]).1.wp.jobQueue =
      [⟨0, 7, "1", "hi", 20⟩] := by
  decide

/-- What the handler does with an authenticated, upgraded connection: the rejection
when the store has no such room, and the join and the accepted messages when it has
one and the lock is free. -/
theorem WebSocketHandler_admits (growCap : Nat → Nat)
    (validateJWT : String → Except Err String) (atoi : String → Except Err Int) (s : Sys)
    (authorization roomID : String) (upgrade : Except Err Conn) (roomFault : Option Err)
    (reads : List (Except Err String × Nat)) (userID : Int) (ws : Conn)
    (hauth : WSHandler.authenticate validateJWT atoi authorization = some userID)
    (hup : upgrade = .ok ws) :
    ((roomFault ≠ none ∨ ∀ row ∈ s.uc.db.rooms, row.ID ≠ roomID) →
      WSHandler.WebSocketHandler growCap validateJWT atoi s authorization roomID upgrade
        roomFault reads =
        (s, [.closeFrame 1000 "Room does not exist", .wsClosed])) ∧
    (s.closing = none → roomFault = none → (∃ row ∈ s.uc.db.rooms, row.ID = roomID) →
      (WSHandler.WebSocketHandler growCap validateJWT atoi s authorization roomID upgrade
        roomFault reads).2.take 2 = [.added roomID ws, .spawned roomID] ∧
      sentMessages (WSHandler.WebSocketHandler growCap validateJWT atoi s authorization roomID
        upgrade roomFault reads).2 <+: messagesRead userID roomID reads ∧
      (∀ payload now rest, reads = (.ok payload, now) :: rest →
        (sentMessages (WSHandler.WebSocketHandler growCap validateJWT atoi s authorization
          roomID upgrade roomFault reads).2).head? = some ⟨0, userID, roomID, payload, now⟩) ∧
      (s.wp.jobQueue.length + reads.length ≤ 100 →
        sentMessages (WSHandler.WebSocketHandler growCap validateJWT atoi s authorization
          roomID upgrade roomFault reads).2 = messagesRead userID roomID reads)) := by
  refine ⟨?_, ?_⟩
  · intro h
    have hr := WebSocketHandler_rejects growCap validateJWT atoi s authorization roomID upgrade
      roomFault reads h
    exact Prod.ext hr.1 (hr.2.2 userID ws hauth hup)
  · intro hlock hf hex
    subst hf
    subst hup
    obtain ⟨room, hroom⟩ := GetRoomByID_ok_of_present s.uc roomID hex
    have hsent : ∀ tail : List HEvent, sentMessages tail = [] →
        sentMessages ([.added roomID ws, .spawned roomID] ++
          (WSHandler.readLoop userID roomID
            ((s.registry growCap (.AddClientToRoom roomID ws)).spawn roomID) reads).2.1 ++ tail)
        = sentMessages (WSHandler.readLoop userID roomID
            ((s.registry growCap (.AddClientToRoom roomID ws)).spawn roomID) reads).2.1 := by
      intro tail ht
      simp [sentMessages_append, sentMessages, ht]
    have hkey : sentMessages (WSHandler.WebSocketHandler growCap validateJWT atoi s authorization
        roomID (.ok ws) none reads).2 =
        sentMessages (WSHandler.readLoop userID roomID
            ((s.registry growCap (.AddClientToRoom roomID ws)).spawn roomID) reads).2.1 := by
      unfold WSHandler.WebSocketHandler
      simp only [hauth, hroom, hlock]
      split
      · exact hsent _ rfl
      · have := hsent [] rfl
        simpa using this
    have htake : (WSHandler.WebSocketHandler growCap validateJWT atoi s authorization
        roomID (.ok ws) none reads).2.take 2 = [.added roomID ws, .spawned roomID] := by
      unfold WSHandler.WebSocketHandler
      simp only [hauth, hroom, hlock]
      split <;> rfl
    refine ⟨htake, ?_, ?_, ?_⟩
    · rw [hkey]; exact readLoop_sent userID roomID reads _
    · intro payload now rest hreads
      rw [hkey, hreads]
      have h1 := readLoop_first userID roomID
        ((s.registry growCap (.AddClientToRoom roomID ws)).spawn roomID) payload now rest
      cases hev : (WSHandler.readLoop userID roomID
          ((s.registry growCap (.AddClientToRoom roomID ws)).spawn roomID)
          ((.ok payload, now) :: rest)).2.1 with
      | nil => rw [hev] at h1; cases h1
      | cons e es =>
        rw [hev] at h1
        simp only [List.head?_cons, Option.some.injEq] at h1
        rw [h1]
        rfl
    · intro hcap
      rw [hkey]
      apply readLoop_sent_all
      have hq : ((s.registry growCap (.AddClientToRoom roomID ws)).spawn roomID).wp = s.wp := by
        unfold Sys.registry Sys.spawn
        rw [hlock]
        simp only [ChatUsecase.step]
        split <;> rfl
      rw [hq]
      simpa [jobQueueCap] using hcap

/-- While a `CloseRoom` holds the lock in its send on `done`, the handler of a
connection the store admits waits in `AddClientToRoom`: no event, no change. -/
theorem WebSocketHandler_waits (growCap : Nat → Nat)
    (validateJWT : String → Except Err String) (atoi : String → Except Err Int) (s : Sys)
    (authorization roomID : String) (roomFault : Option Err)
    (reads : List (Except Err String × Nat)) (userID : Int) (ws : Conn) (room : Room)
    (hauth : WSHandler.authenticate validateJWT atoi authorization = some userID)
    (hroom : s.uc.GetRoomByID roomID roomFault = .ok room) (hlock : s.closing ≠ none) :
    WSHandler.WebSocketHandler growCap validateJWT atoi s authorization roomID (.ok ws)
        roomFault reads = (s, []) := by
  obtain ⟨c, hc⟩ := Option.ne_none_iff_exists'.1 hlock
  unfold WSHandler.WebSocketHandler
  simp only [hauth, hroom, hc]

/-- C16 (amended): `WebSocketHandler` admits an authenticated, upgraded connection
by what `GetRoomByID` finds in the durable store, whatever `rooms` holds: when the store
has no room of that id, or the lookup fails, it writes the close frame with code 1000 and
the reason "Room does not exist", joins nothing and accepts no message; when the store
has the room and the lookup does not fail, then, if `roomsMutex` is free, it calls
`AddClientToRoom`, starts a broadcaster and passes the payloads it reads, in order, to
`SendMessageToRoom` (the first one always, and all those read before the first read
error when the job queue has room for them), and if a `CloseRoom` holds `roomsMutex` in
its send on `done`, it waits in `AddClientToRoom`: nothing is joined or accepted. -/
theorem C16_admission_by_store (growCap : Nat → Nat)
    (validateJWT : String → Except Err String) (atoi : String → Except Err Int) (s : Sys)
    (authorization roomID : String) (upgrade : Except Err Conn) (roomFault : Option Err)
    (reads : List (Except Err String × Nat)) (userID : Int) (ws : Conn)
    (hauth : WSHandler.authenticate validateJWT atoi authorization = some userID)
    (hup : upgrade = .ok ws) :
    ((roomFault ≠ none ∨ ∀ row ∈ s.uc.db.rooms, row.ID ≠ roomID) →
      WSHandler.WebSocketHandler growCap validateJWT atoi s authorization roomID upgrade
        roomFault reads =
        (s, [.closeFrame 1000 "Room does not exist", .wsClosed])) ∧
    (roomFault = none → (∃ row ∈ s.uc.db.rooms, row.ID = roomID) →
      (s.closing = none →
        (WSHandler.WebSocketHandler growCap validateJWT atoi s authorization roomID upgrade
          roomFault reads).2.take 2 = [.added roomID ws, .spawned roomID] ∧
        sentMessages (WSHandler.WebSocketHandler growCap validateJWT atoi s authorization roomID
          upgrade roomFault reads).2 <+: messagesRead userID roomID reads ∧
        (∀ payload now rest, reads = (.ok payload, now) :: rest →
          (sentMessages (WSHandler.WebSocketHandler growCap validateJWT atoi s authorization
            roomID upgrade roomFault reads).2).head? = some ⟨0, userID, roomID, payload, now⟩) ∧
        (s.wp.jobQueue.length + reads.length ≤ 100 →
          sentMessages (WSHandler.WebSocketHandler growCap validateJWT atoi s authorization
            roomID upgrade roomFault reads).2 = messagesRead userID roomID reads)) ∧
      (s.closing ≠ none →
        WSHandler.WebSocketHandler growCap validateJWT atoi s authorization roomID upgrade
          roomFault reads = (s, []))) := by
  refine ⟨(WebSocketHandler_admits growCap validateJWT atoi s authorization roomID upgrade
    roomFault reads userID ws hauth hup).1, ?_⟩
  intro hf hex
  refine ⟨fun hlock => (WebSocketHandler_admits growCap validateJWT atoi s authorization roomID
    upgrade roomFault reads userID ws hauth hup).2 hlock hf hex, fun hlock => ?_⟩
  subst hf
  subst hup
  obtain ⟨room, hroom⟩ := GetRoomByID_ok_of_present s.uc roomID hex
  exact WebSocketHandler_waits growCap validateJWT atoi s authorization roomID none reads
    userID ws room hauth hroom hlock

/-- C16 on the example of the closed room: the store has room "1", the lock is free, the
connection is joined and "hi" is accepted. -/
theorem C16_admission_by_store_witness :
    exampleClosed.closing = none ∧ (∃ row ∈ exampleClosed.uc.db.rooms, row.ID = "1") ∧
    sentMessages (WSHandler.WebSocketHandler (fun c => 2 * c) (fun t => .ok t) (fun _ => .ok 7)
        exampleClosed "Bearer 7" "1" (.ok (some 5)) none
        [(.ok "hi", 20), (.error (.driver "EOF"), 21)]).2 =
      messagesRead 7 "1" [(.ok "hi", 20), (.error (.driver "EOF"), 21)] :=
  ⟨by decide, by decide,
    (((C16_admission_by_store (fun c => 2 * c) (fun t => .ok t) (fun _ => .ok 7)
      exampleClosed "Bearer 7" "1" (.ok (some 5)) none
      [(.ok "hi", 20), (.error (.driver "EOF"), 21)] 7 (some 5) rfl rfl).2 rfl
      (by decide)).1 (by decide)).2.2.2 (by decide)⟩

/-! ## C21: the end of a connection closes the room -/

theorem RoomsWF_of_eq (uc uc1 : ChatUsecase) (hwf : RoomsWF uc)
    (h : uc1.rooms = uc.rooms ∧ uc1.chans = uc.chans) : RoomsWF uc1 := by
  refine ⟨?_, ?_⟩
  · rw [h.1, h.2]; exact hwf.isOpen
  · rw [h.1]; exact hwf.inj

theorem loopStep_registry (s : Sys) (k : Nat) (choice : SelectChoice) (cf : Option Err)
    (ins : Except Err Int) (we : Option Err) :
    (s.loopStep k choice cf ins we).uc.clients = s.uc.clients ∧
    (s.loopStep k choice cf ins we).uc.heap = s.uc.heap ∧
    (s.loopStep k choice cf ins we).uc.rooms = s.uc.rooms ∧
    (s.loopStep k choice cf ins we).uc.chans = s.uc.chans := by
  unfold Sys.loopStep
  repeat' split
  all_goals exact ⟨rfl, rfl, rfl, rfl⟩

theorem RemoveClientFromRoom_rooms (g : Nat → Nat) (uc : ChatUsecase) (r : String) (c : Conn) :
    (uc.RemoveClientFromRoom g r c).rooms = uc.rooms ∧
    (uc.RemoveClientFromRoom g r c).chans = uc.chans := by
  unfold ChatUsecase.RemoveClientFromRoom
  repeat' split
  all_goals exact ⟨rfl, rfl⟩

/-- Every move of the server keeps the client slices and the room channels well formed. -/
theorem Sys_step_wf (g : Nat → Nat) (s : Sys) (a : Action)
    (h : ClientsWF s.uc ∧ RoomsWF s.uc) :
    ClientsWF (s.step g a).uc ∧ RoomsWF (s.step g a).uc := by
  cases a with
  | loop k choice cf ins we =>
    have hr := loopStep_registry s k choice cf ins we
    exact ⟨ClientsWF_of_eq s.uc _ h.1 ⟨hr.1, hr.2.1⟩, RoomsWF_of_eq s.uc _ h.2 ⟨hr.2.2.1, hr.2.2.2⟩⟩
  | work cf ins =>
    simp only [Sys.step, Sys.workerStep]
    split
    · exact h
    · exact ⟨ClientsWF_of_eq s.uc _ h.1 ⟨rfl, rfl⟩, RoomsWF_of_eq s.uc _ h.2 ⟨rfl, rfl⟩⟩
  | accept u r p n => exact h
  | registry op =>
    simp only [Sys.step, Sys.registry]
    split
    · exact h
    · split
      · exact h
      · rename_i uc1 hstep
        exact ⟨ClientsWF_step g s.uc op uc1 h.1 hstep, RoomsWF_step g s.uc op uc1 h.2 hstep⟩
  | spawn r =>
    simp only [Sys.step, Sys.spawn]
    split <;> exact h
  | closeRoom r k =>
    simp only [Sys.step, Sys.closeRoom]
    split
    · exact h
    · split
      · exact h
      · rename_i uc1 v hclose
        have hstep : s.uc.step g (.CloseRoom r) = .ok uc1 := by
          simp [ChatUsecase.step, hclose]
        exact ⟨ClientsWF_step g s.uc _ uc1 h.1 hstep, RoomsWF_step g s.uc _ uc1 h.2 hstep⟩

theorem Sys_run_wf (g : Nat → Nat) :
    ∀ (acts : List Action) (s : Sys), ClientsWF s.uc ∧ RoomsWF s.uc →
      ClientsWF (Sys.run g s acts).uc ∧ RoomsWF (Sys.run g s acts).uc := by
  intro acts
  induction acts with
  | nil => intro s h; exact h
  | cons a rest ih =>
    intro s h
    rw [Sys.run_cons]
    exact ih _ (Sys_step_wf g s a h)

theorem Sys_Reachable_wf (g : Nat → Nat) (s : Sys) (h : Sys.Reachable g s) :
    ClientsWF s.uc ∧ RoomsWF s.uc := by
  obtain ⟨db, acts, rfl⟩ := h
  refine Sys_run_wf g acts (Sys.new db) ⟨ClientsWF_new db, ?_, ?_⟩
  · intro r ch hr; simp [Sys.new, NewChatUsecase] at hr
  · intro r1 r2 ch hr; simp [Sys.new, NewChatUsecase] at hr

theorem loopStep_loops_ne (s : Sys) (j k : Nat) (choice : SelectChoice) (cf : Option Err)
    (ins : Except Err Int) (we : Option Err) (h : j ≠ k) :
    (s.loopStep j choice cf ins we).loops[k]? = s.loops[k]? := by
  unfold Sys.loopStep
  repeat' split
  all_goals first
    | rfl
    | (simp only [Sys.setPc]; exact List.getElem?_set_ne h)

theorem loopStep_closing_ne (s : Sys) (j k : Nat) (v : Bool) (choice : SelectChoice)
    (cf : Option Err) (ins : Except Err Int) (we : Option Err) (h : j ≠ k)
    (hc : s.closing = some (k, v)) :
    (s.loopStep j choice cf ins we).closing = some (k, v) := by
  unfold Sys.loopStep
  repeat' split
  all_goals first
    | exact hc
    | simp_all

/-- While `CloseRoom` is blocked in its send on the `done` of goroutine `k` and that
goroutine waits for the lock or has returned, no move releases the lock, changes the
registry or lets that goroutine move. -/
theorem lock_stays_step (g : Nat → Nat) (k : Nat) (v : Bool) (s : Sys) (a : Action)
    (hc : s.closing = some (k, v))
    (hk : ∃ l, s.loops[k]? = some l ∧ (l.pc = .returned ∨ ∃ m, l.pc = .saved m)) :
    (s.step g a).closing = some (k, v) ∧
    (∃ l, (s.step g a).loops[k]? = some l ∧ (l.pc = .returned ∨ ∃ m, l.pc = .saved m)) ∧
    (s.step g a).uc.clients = s.uc.clients ∧ (s.step g a).uc.heap = s.uc.heap ∧
    (s.step g a).uc.rooms = s.uc.rooms ∧ (s.step g a).uc.chans = s.uc.chans := by
  obtain ⟨l, hl, hpc⟩ := hk
  cases a with
  | loop j choice cf ins we =>
    have hreg := loopStep_registry s j choice cf ins we
    by_cases hj : j = k
    · subst hj
      have hsame : s.step g (.loop j choice cf ins we) = s := by
        show s.loopStep j choice cf ins we = s
        unfold Sys.loopStep
        rcases hpc with hp | ⟨m, hp⟩
        · simp only [hl, hp]
        · simp only [hl, hp, hc]
      rw [hsame]
      exact ⟨hc, ⟨l, hl, hpc⟩, rfl, rfl, rfl, rfl⟩
    · refine ⟨loopStep_closing_ne s j k v choice cf ins we hj hc, ⟨l, ?_, hpc⟩, hreg.1, hreg.2.1,
        hreg.2.2.1, hreg.2.2.2⟩
      simp only [Sys.step]
      rw [loopStep_loops_ne s j k choice cf ins we hj]
      exact hl
  | work cf ins =>
    have hstep : s.step g (.work cf ins) = s.workerStep cf ins := rfl
    rw [hstep]
    unfold Sys.workerStep
    split
    · exact ⟨hc, ⟨l, hl, hpc⟩, rfl, rfl, rfl, rfl⟩
    · exact ⟨hc, ⟨l, hl, hpc⟩, rfl, rfl, rfl, rfl⟩
  | accept u r p n => exact ⟨hc, ⟨l, hl, hpc⟩, rfl, rfl, rfl, rfl⟩
  | registry op =>
    have hsame : s.step g (.registry op) = s := by simp only [Sys.step, Sys.registry, hc]
    rw [hsame]
    exact ⟨hc, ⟨l, hl, hpc⟩, rfl, rfl, rfl, rfl⟩
  | spawn r =>
    have hlt : k < s.loops.length := by
      by_contra hge
      rw [List.getElem?_eq_none (by omega)] at hl
      cases hl
    have hstep : s.step g (.spawn r) = s.spawn r := rfl
    rw [hstep]
    unfold Sys.spawn
    split
    · exact ⟨hc, ⟨l, by simp only [List.getElem?_append_left hlt]; exact hl, hpc⟩,
        rfl, rfl, rfl, rfl⟩
    · exact ⟨hc, ⟨l, by simp only [List.getElem?_append_left hlt]; exact hl, hpc⟩,
        rfl, rfl, rfl, rfl⟩
  | closeRoom r j =>
    have hsame : s.step g (.closeRoom r j) = s := by simp only [Sys.step, Sys.closeRoom, hc]
    rw [hsame]
    exact ⟨hc, ⟨l, hl, hpc⟩, rfl, rfl, rfl, rfl⟩

theorem lock_stays (g : Nat → Nat) (k : Nat) (v : Bool) :
    ∀ (acts : List Action) (s : Sys), s.closing = some (k, v) →
      (∃ l, s.loops[k]? = some l ∧ (l.pc = .returned ∨ ∃ m, l.pc = .saved m)) →
      (Sys.run g s acts).closing = some (k, v) ∧
      (Sys.run g s acts).uc.clients = s.uc.clients ∧ (Sys.run g s acts).uc.heap = s.uc.heap ∧
      (Sys.run g s acts).uc.rooms = s.uc.rooms ∧ (Sys.run g s acts).uc.chans = s.uc.chans := by
  intro acts
  induction acts with
  | nil => intro s hc _; exact ⟨hc, rfl, rfl, rfl, rfl⟩
  | cons a rest ih =>
    intro s hc hk
    rw [Sys.run_cons]
    have h1 := lock_stays_step g k v s a hc hk
    have h2 := ih (s.step g a) h1.1 h1.2.1
    exact ⟨h2.1, h2.2.1.trans h1.2.2.1, h2.2.2.1.trans h1.2.2.2.1,
      h2.2.2.2.1.trans h1.2.2.2.2.1, h2.2.2.2.2.trans h1.2.2.2.2.2⟩

/-- A registry call and a `CloseRoom` made while the lock is held wait: the end of the
handler changes nothing. -/
theorem leave_waits (g : Nat → Nat) (s : Sys) (roomID : String) (ws : Conn) (k : Nat)
    (h : s.closing ≠ none) : WSHandler.leave g s roomID ws k = s := by
  obtain ⟨c, hc⟩ := Option.ne_none_iff_exists'.1 h
  simp [WSHandler.leave, Sys.registry, Sys.closeRoom, hc]

/-- What `WSHandler.leave` does in a well-formed state with the lock free and the room
open: the first occurrence of the connection goes from the room's list, and the room's
channel is closed and its entry deleted, with `true` about to be sent on `done`. -/
theorem leave_spec (g : Nat → Nat) (s : Sys) (roomID : String) (ws : Conn) (k : Nat)
    (hwf : ClientsWF s.uc ∧ RoomsWF s.uc) (hlock : s.closing = none)
    (hopen : s.uc.rooms.get roomID ≠ none) :
    (∀ j, (WSHandler.leave g s roomID ws k).uc.clientList j =
      if j = roomID then (s.uc.clientList roomID).erase ws else s.uc.clientList j) ∧
    (∀ j, (WSHandler.leave g s roomID ws k).uc.rooms.get j =
      if j = roomID then none else s.uc.rooms.get j) ∧
    (WSHandler.leave g s roomID ws k).closing = some (k, true) ∧
    (WSHandler.leave g s roomID ws k).uc.db = s.uc.db := by
  obtain ⟨ch, hch⟩ := Option.ne_none_iff_exists'.1 hopen
  have hc := hwf.2.isOpen roomID ch hch
  have hrem := RemoveClientFromRoom_spec g s.uc hwf.1 roomID ws
  have hrr := RemoveClientFromRoom_rooms g s.uc roomID ws
  have hreg : s.registry g (.RemoveClientFromRoom roomID ws) =
      { s with uc := s.uc.RemoveClientFromRoom g roomID ws } := by
    simp [Sys.registry, hlock, ChatUsecase.step]
  have hclose := CloseRoom_of_open (s.uc.RemoveClientFromRoom g roomID ws) roomID ch
    (by rw [hrr.1]; exact hch) (by rw [hrr.2]; exact hc)
  have hleave : WSHandler.leave g s roomID ws k =
      { s with
        uc := { s.uc.RemoveClientFromRoom g roomID ws with
          chans := (s.uc.RemoveClientFromRoom g roomID ws).chans.set ch true,
          rooms := (s.uc.RemoveClientFromRoom g roomID ws).rooms.delete roomID },
        closing := some (k, true) } := by
    simp [WSHandler.leave, hreg, Sys.closeRoom, hlock, hclose]
  rw [hleave]
  refine ⟨?_, ?_, rfl, ?_⟩
  · intro j
    have hsame : ChatUsecase.clientList
        { s.uc.RemoveClientFromRoom g roomID ws with
          chans := (s.uc.RemoveClientFromRoom g roomID ws).chans.set ch true,
          rooms := (s.uc.RemoveClientFromRoom g roomID ws).rooms.delete roomID } j =
        (s.uc.RemoveClientFromRoom g roomID ws).clientList j := rfl
    show ChatUsecase.clientList _ j = _
    rw [hsame]
    by_cases hj : j = roomID
    · subst hj; simp [hrem.2.1]
    · simp [hj, hrem.2.2 j hj]
  · intro j
    show (((s.uc.RemoveClientFromRoom g roomID ws).rooms.delete roomID).get j) = _
    rw [hrr.1]
    simp
  · show (s.uc.RemoveClientFromRoom g roomID ws).db = s.uc.db
    unfold ChatUsecase.RemoveClientFromRoom
    repeat' split
    all_goals rfl

theorem readLoop_registry (userID : Int) (roomID : String) :
    ∀ (reads : List (Except Err String × Nat)) (s : Sys),
      (WSHandler.readLoop userID roomID s reads).1.uc = s.uc ∧
      (WSHandler.readLoop userID roomID s reads).1.closing = s.closing ∧
      (WSHandler.readLoop userID roomID s reads).1.loops = s.loops := by
  intro reads
  induction reads with
  | nil => intro s; exact ⟨rfl, rfl, rfl⟩
  | cons r rest ih =>
    intro s
    obtain ⟨res, now⟩ := r
    cases res with
    | error e => exact ⟨rfl, rfl, rfl⟩
    | ok payload =>
      simp only [WSHandler.readLoop]
      split
      · exact ih (s.accept userID roomID payload now)
      · exact ⟨rfl, rfl, rfl⟩

/-- The handler of an admitted connection whose read loop ends finishes with
`WSHandler.leave` on the state the read loop left, for the broadcaster it started. -/
theorem WebSocketHandler_ends_with_leave (growCap : Nat → Nat)
    (validateJWT : String → Except Err String) (atoi : String → Except Err Int) (s : Sys)
    (authorization roomID : String) (roomFault : Option Err)
    (reads : List (Except Err String × Nat)) (userID : Int) (ws : Conn) (room : Room)
    (hauth : WSHandler.authenticate validateJWT atoi authorization = some userID)
    (hroom : s.uc.GetRoomByID roomID roomFault = .ok room) (hlock : s.closing = none)
    (hend : (WSHandler.readLoop userID roomID
      ((s.registry growCap (.AddClientToRoom roomID ws)).spawn roomID) reads).2.2 = true) :
    (WSHandler.WebSocketHandler growCap validateJWT atoi s authorization roomID (.ok ws)
        roomFault reads).1 =
      WSHandler.leave growCap
        (WSHandler.readLoop userID roomID
          ((s.registry growCap (.AddClientToRoom roomID ws)).spawn roomID) reads).1
        roomID ws s.loops.length ∧
    (WSHandler.WebSocketHandler growCap validateJWT atoi s authorization roomID (.ok ws)
        roomFault reads).2 =
      [.added roomID ws, .spawned roomID] ++
        (WSHandler.readLoop userID roomID
          ((s.registry growCap (.AddClientToRoom roomID ws)).spawn roomID) reads).2.1 ++
        [.removed roomID ws, .closeRoomCalled roomID] := by
  unfold WSHandler.WebSocketHandler
  simp only [hauth, hroom, hlock, hend, if_true]
  constructor <;> first | rfl | trivial

theorem erase_keeps_others (l : List Conn) (ws : Conn) :
    (∀ c, c ≠ ws → c ∈ l → c ∈ l.erase ws) ∧
    (ws ∈ l → (l.erase ws).length + 1 = l.length) := by
  refine ⟨fun c hc hm => (List.mem_erase_of_ne hc).2 hm, fun hm => ?_⟩
  rw [List.length_erase_of_mem hm]
  have : 0 < l.length := List.length_pos_of_mem hm
  omega

/-- The end of the handler of `ws` in a reachable state with the lock free: only `ws`
leaves the list of `roomID`, whose entry in `rooms` is deleted. -/
theorem leave_closes_room (growCap : Nat → Nat) (s : Sys) (roomID : String)
    (ws : Conn) (k : Nat) (hreach : Sys.Reachable growCap s) (hlock : s.closing = none)
    (hopen : s.uc.rooms.get roomID ≠ none) (hjoined : ws ∈ s.uc.clientList roomID)
    (htwo : 2 ≤ (s.uc.clientList roomID).length) :
    (WSHandler.leave growCap s roomID ws k).uc.clientList roomID =
      (s.uc.clientList roomID).erase ws ∧
    ((WSHandler.leave growCap s roomID ws k).uc.clientList roomID).length + 1 =
      (s.uc.clientList roomID).length ∧
    (∀ c, c ≠ ws → c ∈ s.uc.clientList roomID →
      c ∈ (WSHandler.leave growCap s roomID ws k).uc.clientList roomID) ∧
    (WSHandler.leave growCap s roomID ws k).uc.clientList roomID ≠ [] ∧
    (∀ j, j ≠ roomID →
      (WSHandler.leave growCap s roomID ws k).uc.clientList j = s.uc.clientList j) ∧
    (WSHandler.leave growCap s roomID ws k).uc.rooms.get roomID = none ∧
    (∀ j, j ≠ roomID →
      (WSHandler.leave growCap s roomID ws k).uc.rooms.get j = s.uc.rooms.get j) ∧
    (WSHandler.leave growCap s roomID ws k).closing = some (k, true) := by
  have hwf := Sys_Reachable_wf growCap s hreach
  have hl := leave_spec growCap s roomID ws k hwf hlock hopen
  have he := erase_keeps_others (s.uc.clientList roomID) ws
  have hlist : (WSHandler.leave growCap s roomID ws k).uc.clientList roomID =
      (s.uc.clientList roomID).erase ws := by
    rw [hl.1 roomID]; simp
  refine ⟨hlist, ?_, ?_, ?_, ?_, ?_, ?_, hl.2.2.1⟩
  · rw [hlist]; exact he.2 hjoined
  · intro c hc hm
    rw [hlist]; exact he.1 c hc hm
  · intro hnil
    have := he.2 hjoined
    rw [← hlist, hnil] at this
    simp at this
    omega
  · intro j hj
    rw [hl.1 j]; simp [hj]
  · rw [hl.2.1 roomID]; simp
  · intro j hj
    rw [hl.2.1 j]; simp [hj]

/-- C21, as stated, fails: room "2" is open and lists connections 2 and 3, but the
`CloseRoom` of room "1" is blocked in its send on `done`, holding the lock, and the
broadcaster it waits for is itself waiting for the lock.  Whatever moves the server makes
from there, the end of the handler of connection 2 changes nothing: 2 stays listed and
room "2" keeps its entry. -/
theorem C21_lock_held_counterexample :
    Sys.Reachable (fun c => 2 * c) exampleLockHeld ∧
    exampleLockHeld.uc.rooms.get "2" = some 1 ∧
    exampleLockHeld.uc.clientList "2" = [some 2, some 3] ∧
    exampleLockHeld.closing = some (0, true) ∧
    ∀ acts : List Action,
      (WSHandler.leave (fun c => 2 * c) (Sys.run (fun c => 2 * c) exampleLockHeld acts) "2"
        (some 2) 2).uc.clientList "2" = [some 2, some 3] ∧
      (WSHandler.leave (fun c => 2 * c) (Sys.run (fun c => 2 * c) exampleLockHeld acts) "2"
        (some 2) 2).uc.rooms.get "2" = some 1 := by
  refine ⟨⟨_, _, rfl⟩, by decide, by decide, by decide, ?_⟩
  intro acts
  have h := lock_stays (fun c => 2 * c) 0 true acts exampleLockHeld (by decide)
    ⟨⟨"1", 0, .saved zeroMessage⟩, by decide, Or.inr ⟨_, rfl⟩⟩
  rw [leave_waits _ _ _ _ _ (by rw [h.1]; simp)]
  refine ⟨?_, ?_⟩
  · rw [clientList_of_eq exampleLockHeld.uc _ ⟨h.2.1, h.2.2.1⟩]
    decide
  · rw [h.2.2.2.1]
    decide

/-- C21 (amended): in every state the server reaches in which `roomID` has a channel and
two or more connections are listed for it, one of them `ws`, when the read loop of the
handler of `ws` ends.  If `roomsMutex` is free and the two calls of the handler run back
to back: `RemoveClientFromRoom` takes `ws`, and only `ws`, out of the room's list (one
entry less, every other connection still listed, the lists of other rooms untouched), and
`CloseRoom` then deletes the entry of `roomID` from `rooms` (no other entry) and goes
into its send of `true` on `done`, while the remaining connections, at least one, are
still listed for `roomID`.  If a `CloseRoom` holds `roomsMutex` in its send on `done`,
the handler waits in `RemoveClientFromRoom` and nothing changes. -/
theorem C21_handler_end_closes_room (growCap : Nat → Nat) (s : Sys) (roomID : String)
    (ws : Conn) (k : Nat) (hreach : Sys.Reachable growCap s)
    (hopen : s.uc.rooms.get roomID ≠ none) (hjoined : ws ∈ s.uc.clientList roomID)
    (htwo : 2 ≤ (s.uc.clientList roomID).length) :
    (s.closing = none →
      (WSHandler.leave growCap s roomID ws k).uc.clientList roomID =
        (s.uc.clientList roomID).erase ws ∧
      ((WSHandler.leave growCap s roomID ws k).uc.clientList roomID).length + 1 =
        (s.uc.clientList roomID).length ∧
      (∀ c, c ≠ ws → c ∈ s.uc.clientList roomID →
        c ∈ (WSHandler.leave growCap s roomID ws k).uc.clientList roomID) ∧
      (WSHandler.leave growCap s roomID ws k).uc.clientList roomID ≠ [] ∧
      (∀ j, j ≠ roomID →
        (WSHandler.leave growCap s roomID ws k).uc.clientList j = s.uc.clientList j) ∧
      (WSHandler.leave growCap s roomID ws k).uc.rooms.get roomID = none ∧
      (∀ j, j ≠ roomID →
        (WSHandler.leave growCap s roomID ws k).uc.rooms.get j = s.uc.rooms.get j) ∧
      (WSHandler.leave growCap s roomID ws k).closing = some (k, true)) ∧
    (s.closing ≠ none → WSHandler.leave growCap s roomID ws k = s) :=
  ⟨fun hlock => leave_closes_room growCap s roomID ws k hreach hlock hopen hjoined htwo,
    leave_waits growCap s roomID ws k⟩

/-- C21 on the example room with connections 1 and 2 joined, when the read loop of
connection 1 ends; and the whole handler of a third connection, which joins, has "hi"
accepted and fails to read: the entry of room "1" is gone, 1 and 2 are still listed. -/
theorem C21_handler_end_closes_room_witness :
    Sys.Reachable (fun c => 2 * c) exampleJoined ∧ exampleJoined.closing = none ∧
    exampleJoined.uc.rooms.get "1" ≠ none ∧
    exampleJoined.uc.clientList "1" = [some 1, some 2] ∧
    (WSHandler.leave (fun c => 2 * c) exampleJoined "1" (some 1) 0).uc.clientList "1" =
      [some 2] ∧
    (WSHandler.leave (fun c => 2 * c) exampleJoined "1" (some 1) 0).uc.rooms.get "1" = none ∧
    (WSHandler.WebSocketHandler (fun c => 2 * c) (fun t => .ok t) (fun _ => .ok 7)
        exampleJoined "Bearer 7" "1" (.ok (some 3)) none
        [(.ok "hi", 20), (.error (.driver "EOF"), 21)]).1.uc.rooms.get "1" = none ∧
    (WSHandler.WebSocketHandler (fun c => 2 * c) (fun t => .ok t) (fun _ => .ok 7)
        exampleJoined "Bearer 7" "1" (.ok (some 3)) none
        [(.ok "hi", 20), (.error (.driver "EOF"), 21)]).1.uc.clientList "1" =
      [some 1, some 2] :=
  ⟨⟨_, _, rfl⟩, by decide, by decide, by decide,
    ((C21_handler_end_closes_room (fun c => 2 * c) exampleJoined "1" (some 1) 0 ⟨_, _, rfl⟩
      (by decide) (by decide) (by decide)).1 (by decide)).1.trans (by decide),
    ((C21_handler_end_closes_room (fun c => 2 * c) exampleJoined "1" (some 1) 0 ⟨_, _, rfl⟩
      (by decide) (by decide) (by decide)).1 (by decide)).2.2.2.2.2.1,
    by decide, by decide⟩

/-! ## C5: two successive `CloseRoom` calls -/

/-- C5, as stated, fails: on the room of `exampleJoined` the first `CloseRoom("1", done)`
goes into its send of `true` and broadcaster 0, the receiver of `done`, takes it and
returns; the second `CloseRoom("1", done)` finds no entry and goes into its send of
`false` on `done`, which nobody receives any more: whatever the server does from there,
the call stays in that send, holding the lock, and reports nothing. -/
theorem C5_second_send_counterexample :
    exampleJoined.uc.rooms.get "1" = some 0 ∧ exampleJoined.closing = none ∧
    (Sys.run (fun c => 2 * c) exampleJoined [.closeRoom "1" 0]).closing = some (0, true) ∧
    (Sys.run (fun c => 2 * c) exampleJoined
      [.closeRoom "1" 0, .loop 0 .done none (.ok 1) none]).closing = none ∧
    exampleClosedTwice.closing = some (0, false) ∧
    exampleClosedTwice.loops[0]? = some ⟨"1", 0, .returned⟩ ∧
    ∀ acts : List Action,
      (Sys.run (fun c => 2 * c) exampleClosedTwice acts).closing = some (0, false) := by
  refine ⟨by decide, by decide, by decide, by decide, by decide, by decide, ?_⟩
  intro acts
  exact (lock_stays (fun c => 2 * c) 0 false acts exampleClosedTwice (by decide)
    ⟨⟨"1", 0, .returned⟩, by decide, Or.inl rfl⟩).1

/-- C5 (amended): in every state the server reaches in which the lock is free and
`roomID` has a channel, with a broadcaster waiting in `select` on the `done` passed:
the first `CloseRoom(roomID, done)` does not panic, closes the channel, deletes the entry
and goes into its send of `true` on `done`, holding the lock, so that a second `CloseRoom`
call waits; once the broadcaster has received from `done`, the lock is free again and a
second `CloseRoom(roomID, done2)` does not panic, finds no entry, leaves the registry as
it is and goes into its send of `false` on `done2`. -/
theorem C5_CloseRoom_twice (growCap : Nat → Nat) (s : Sys) (roomID : String) (k k2 : Nat)
    (l : Loop) (cf : Option Err) (ins : Except Err Int) (we : Option Err)
    (hreach : Sys.Reachable growCap s) (hlock : s.closing = none)
    (hopen : s.uc.rooms.get roomID ≠ none)
    (hl : s.loops[k]? = some l) (hsel : l.pc = .selecting) :
    ∃ uc1, s.uc.CloseRoom roomID = .ok (uc1, true) ∧ uc1.CloseRoom roomID = .ok (uc1, false) ∧
      uc1.rooms.get roomID = none ∧
      s.closeRoom roomID k = { s with uc := uc1, closing := some (k, true) } ∧
      (s.closeRoom roomID k).closeRoom roomID k2 = s.closeRoom roomID k ∧
      (s.closeRoom roomID k).loopStep k .done cf ins we =
        { s with uc := uc1, closing := none, loops := s.loops.set k { l with pc := .returned } } ∧
      ((s.closeRoom roomID k).loopStep k .done cf ins we).closeRoom roomID k2 =
        { s with
          uc := uc1, closing := some (k2, false),
          loops := s.loops.set k { l with pc := .returned } } := by
  obtain ⟨ch, hch⟩ := Option.ne_none_iff_exists'.1 hopen
  have hc := (Sys_Reachable_wf growCap s hreach).2.isOpen roomID ch hch
  have h1 := CloseRoom_of_open s.uc roomID ch hch hc
  have habs : (({ s.uc with
      chans := s.uc.chans.set ch true,
      rooms := s.uc.rooms.delete roomID } : ChatUsecase)).rooms.get roomID = none := by simp
  have h2 := CloseRoom_of_absent _ roomID habs
  have hs1 : s.closeRoom roomID k =
      { s with
        uc := { s.uc with
          chans := s.uc.chans.set ch true,
          rooms := s.uc.rooms.delete roomID },
        closing := some (k, true) } := by
    simp only [Sys.closeRoom, hlock, h1]
  refine ⟨_, h1, h2, habs, hs1, ?_, ?_, ?_⟩
  · rw [hs1]
    simp only [Sys.closeRoom]
  · rw [hs1]
    simp only [Sys.loopStep, hl, hsel, Sys.setPc, if_true]
  · rw [hs1]
    simp only [Sys.loopStep, hl, hsel, Sys.setPc, if_true, Sys.closeRoom, h2]

/-- C5 on the example room, with the `done` of broadcaster 0 for the first call and that
of broadcaster 1 for the second. -/
theorem C5_CloseRoom_twice_witness :
    Sys.Reachable (fun c => 2 * c) exampleJoined ∧ exampleJoined.closing = none ∧
    exampleJoined.uc.rooms.get "1" ≠ none ∧
    exampleJoined.loops[0]? = some ⟨"1", 0, .selecting⟩ ∧
    ∃ uc1, exampleJoined.uc.CloseRoom "1" = .ok (uc1, true) ∧
      uc1.CloseRoom "1" = .ok (uc1, false) ∧
      ((exampleJoined.closeRoom "1" 0).loopStep 0 .done none (.ok 1) none).closeRoom "1" 1 =
        { exampleJoined with
          uc := uc1, closing := some (1, false),
          loops := exampleJoined.loops.set 0 ⟨"1", 0, .returned⟩ } :=
  ⟨⟨_, _, rfl⟩, by decide, by decide, by decide,
    (C5_CloseRoom_twice (fun c => 2 * c) exampleJoined "1" 0 1 ⟨"1", 0, .selecting⟩ none (.ok 1)
      none ⟨_, _, rfl⟩ (by decide) (by decide) (by decide) rfl).imp
      (fun _ h => ⟨h.1, h.2.1, h.2.2.2.2.2.2⟩)⟩

/-! ## C10: the writes of the broadcaster -/

theorem step_loops_ne (g : Nat → Nat) (s : Sys) (a : Action) (k : Nat) (l : Loop)
    (ha : a.isLoopOf k = false) (hl : s.loops[k]? = some l) :
    (s.step g a).loops[k]? = some l := by
  have hlt : k < s.loops.length := by
    by_contra hge
    rw [List.getElem?_eq_none (by omega)] at hl
    cases hl
  cases a with
  | loop j choice cf ins we =>
    have hj : j ≠ k := by simpa [Action.isLoopOf] using ha
    show (s.loopStep j choice cf ins we).loops[k]? = some l
    rw [loopStep_loops_ne s j k choice cf ins we hj]
    exact hl
  | work cf ins =>
    show (s.workerStep cf ins).loops[k]? = some l
    unfold Sys.workerStep
    split <;> exact hl
  | accept u r p n => exact hl
  | registry op =>
    show (s.registry g op).loops[k]? = some l
    unfold Sys.registry
    repeat' split
    all_goals exact hl
  | spawn r =>
    show (s.spawn r).loops[k]? = some l
    unfold Sys.spawn
    split
    · simp only [List.getElem?_append_left hlt]; exact hl
    · simp only [List.getElem?_append_left hlt]; exact hl
  | closeRoom r j =>
    show (s.closeRoom r j).loops[k]? = some l
    unfold Sys.closeRoom
    repeat' split
    all_goals exact hl

/-- Every move of the server keeps a returned slice reading what it read, unless it is a
`RemoveClientFromRoom` on the room of the slice for a connection the slice holds. -/
theorem SnapshotKept_sys_step (g : Nat → Nat) (s : Sys) (a : Action) (roomID : String)
    (sl : Slice) (conns : List Conn) (h : SnapshotKept s.uc roomID sl conns)
    (ha : ∀ c ∈ conns, a ≠ .registry (.RemoveClientFromRoom roomID c)) :
    SnapshotKept (s.step g a).uc roomID sl conns := by
  cases a with
  | loop k choice cf ins we =>
    have hr := loopStep_registry s k choice cf ins we
    exact SnapshotKept_of_eq s.uc _ roomID sl conns h ⟨hr.1, hr.2.1⟩
  | work cf ins =>
    show SnapshotKept (s.workerStep cf ins).uc roomID sl conns
    unfold Sys.workerStep
    split
    · exact h
    · exact SnapshotKept_of_eq s.uc _ roomID sl conns h ⟨rfl, rfl⟩
  | accept u r p n => exact h
  | registry op =>
    show SnapshotKept (s.registry g op).uc roomID sl conns
    unfold Sys.registry
    split
    · exact h
    · split
      · exact h
      · rename_i uc1 hstep
        apply SnapshotKept_step g s.uc uc1 roomID sl conns op h hstep
        intro c hop hc
        exact ha c hc (by rw [hop])
  | spawn r =>
    show SnapshotKept (s.spawn r).uc roomID sl conns
    unfold Sys.spawn
    split <;> exact h
  | closeRoom r k =>
    show SnapshotKept (s.closeRoom r k).uc roomID sl conns
    unfold Sys.closeRoom
    split
    · exact h
    · split
      · exact h
      · rename_i uc1 v hclose
        exact SnapshotKept_of_eq s.uc _ roomID sl conns h (CloseRoom_clients s.uc uc1 r v hclose)

/-- While broadcaster `k` makes no move it writes nothing and stays where it stands. -/
theorem writesOf_idle (g : Nat → Nat) (k : Nat) (l : Loop) :
    ∀ (acts : List Action) (s : Sys), (acts.filter (Action.isLoopOf k)).length = 0 →
      s.loops[k]? = some l →
      Sys.writesOf g k s acts = [] ∧ (Sys.run g s acts).loops[k]? = some l := by
  intro acts
  induction acts with
  | nil => intro s _ hl; exact ⟨rfl, hl⟩
  | cons a rest ih =>
    intro s hcount hl
    have ha : a.isLoopOf k = false := by
      cases hk : a.isLoopOf k with
      | false => rfl
      | true => simp [List.filter, hk] at hcount
    have hrest : (rest.filter (Action.isLoopOf k)).length = 0 := by
      simpa [List.filter, ha] using hcount
    have := ih (s.step g a) hrest (step_loops_ne g s a k l ha hl)
    rw [Sys.run_cons]
    simp only [Sys.writesOf, ha, Bool.false_eq_true, if_false, List.nil_append]
    exact this

/-- The range of broadcaster `k` over a slice that keeps reading `conns`: after `m` of
its moves, interleaved with any moves of the others, it has written the message to the
non-nil ones among the next `m` entries, in order, and stands `m` entries further, or
back in `select` when the entries are used up. -/
theorem ranging_writes (g : Nat → Nat) (k : Nat) (roomID : String) (room : Nat) (msg : Message)
    (sl : Slice) (conns : List Conn) :
    ∀ (acts : List Action) (s : Sys) (i : Nat),
      SnapshotKept s.uc roomID sl conns →
      s.loops[k]? = some ⟨roomID, room, .ranging msg sl i⟩ → i ≤ conns.length →
      (∀ c ∈ conns, Action.registry (.RemoveClientFromRoom roomID c) ∉ acts) →
      i + (acts.filter (Action.isLoopOf k)).length ≤ conns.length + 1 →
      (Sys.writesOf g k s acts).map (fun w => (w.client, w.msg)) =
        (nonNil ((conns.drop i).take (acts.filter (Action.isLoopOf k)).length)).map
          (fun a => (a, msg)) ∧
      (Sys.run g s acts).loops[k]? = some ⟨roomID, room,
        if i + (acts.filter (Action.isLoopOf k)).length ≤ conns.length then
          .ranging msg sl (i + (acts.filter (Action.isLoopOf k)).length)
        else .selecting⟩ := by
  intro acts
  induction acts with
  | nil =>
    intro s i _ hl hi _ hle
    simp only [List.filter_nil, List.length_nil, Nat.add_zero] at hle ⊢
    refine ⟨by simp [Sys.writesOf, nonNil], ?_⟩
    simp only [hi, if_true]
    exact hl
  | cons a rest ih =>
    intro s i hk hl hi hkeep hle
    have hkeep1 : ∀ c ∈ conns, Action.registry (.RemoveClientFromRoom roomID c) ∉ rest :=
      fun c hc hmem => hkeep c hc (List.mem_cons_of_mem _ hmem)
    rw [Sys.run_cons]
    cases ha : a.isLoopOf k with
    | false =>
      have hf : (a :: rest).filter (Action.isLoopOf k) = rest.filter (Action.isLoopOf k) := by
        simp [List.filter, ha]
      rw [hf] at hle ⊢
      have hk1 : SnapshotKept (s.step g a).uc roomID sl conns := by
        apply SnapshotKept_sys_step g s a roomID sl conns hk
        intro c hc heq
        exact hkeep c hc (by rw [heq]; exact List.mem_cons_self _ _)
      have := ih (s.step g a) i hk1 (step_loops_ne g s a k _ ha hl) hi hkeep1 hle
      simp only [Sys.writesOf, ha, Bool.false_eq_true, if_false, List.nil_append]
      exact this
    | true =>
      have hf : (a :: rest).filter (Action.isLoopOf k) = a :: rest.filter (Action.isLoopOf k) := by
        simp [List.filter, ha]
      rw [hf] at hle ⊢
      simp only [List.length_cons] at hle ⊢
      cases a with
      | work cf ins => simp [Action.isLoopOf] at ha
      | accept u r p n => simp [Action.isLoopOf] at ha
      | registry op => simp [Action.isLoopOf] at ha
      | spawn r => simp [Action.isLoopOf] at ha
      | closeRoom r j => simp [Action.isLoopOf] at ha
      | loop j choice cf ins we =>
        have hj : j = k := by simpa [Action.isLoopOf] using ha
        subst hj
        have hreads : sl.elems s.uc.heap = conns := hk.reads
        have hlt : j < s.loops.length := by
          by_contra hge
          rw [List.getElem?_eq_none (by omega)] at hl
          cases hl
        cases hget : conns[i]? with
        | none =>
          have hlen : conns.length ≤ i := by
            by_contra hlt2
            rw [List.getElem?_eq_getElem (by omega)] at hget
            cases hget
          have hcount : (rest.filter (Action.isLoopOf j)).length = 0 := by omega
          have hstep : s.step g (.loop j choice cf ins we) =
              s.setPc j ⟨roomID, room, .ranging msg sl i⟩ .selecting := by
            show s.loopStep j choice cf ins we = _
            simp only [Sys.loopStep, hl, hreads, hget]
          have hl1 : (s.step g (.loop j choice cf ins we)).loops[j]? =
              some ⟨roomID, room, .selecting⟩ := by
            rw [hstep]
            simp only [Sys.setPc, List.getElem?_set_self hlt]
          have hidle := writesOf_idle g j _ rest _ hcount hl1
          have hw : (s.step g (.loop j choice cf ins we)).writes = s.writes := by rw [hstep]; rfl
          simp only [Sys.writesOf, ha, if_true, hw, List.drop_length, List.nil_append, hidle.1,
            hcount]
          refine ⟨by simp [List.drop_eq_nil_of_le hlen, nonNil], ?_⟩
          rw [hidle.2]
          have : ¬ i + (0 + 1) ≤ conns.length := by omega
          simp only [this, if_false]
        | some c =>
          have hlt2 : i < conns.length := by
            by_contra hge
            rw [List.getElem?_eq_none (by omega)] at hget
            cases hget
          have hdrop : conns.drop i = c :: conns.drop (i + 1) := by
            rw [List.drop_eq_getElem_cons hlt2]
            rw [List.getElem?_eq_getElem hlt2] at hget
            cases hget
            rfl
          have hle1 : i + 1 + (rest.filter (Action.isLoopOf j)).length ≤ conns.length + 1 := by
            omega
          have harith : i + ((rest.filter (Action.isLoopOf j)).length + 1) =
              i + 1 + (rest.filter (Action.isLoopOf j)).length := by omega
          rw [harith, hdrop, List.take_succ_cons]
          cases c with
          | none =>
            have hstep : s.step g (.loop j choice cf ins we) =
                s.setPc j ⟨roomID, room, .ranging msg sl i⟩ (.ranging msg sl (i + 1)) := by
              show s.loopStep j choice cf ins we = _
              simp only [Sys.loopStep, hl, hreads, hget]
            have hl1 : (s.step g (.loop j choice cf ins we)).loops[j]? =
                some ⟨roomID, room, .ranging msg sl (i + 1)⟩ := by
              rw [hstep]
              simp only [Sys.setPc, List.getElem?_set_self hlt]
            have hk1 : SnapshotKept (s.step g (.loop j choice cf ins we)).uc roomID sl conns := by
              rw [hstep]; exact hk
            have hw : (s.step g (.loop j choice cf ins we)).writes = s.writes := by
              rw [hstep]; rfl
            have := ih _ (i + 1) hk1 hl1 hlt2 hkeep1 hle1
            simp only [Sys.writesOf, ha, if_true, hw, List.drop_length, List.nil_append]
            refine ⟨?_, this.2⟩
            rw [this.1]
            simp [nonNil]
          | some b =>
            have hstep : s.step g (.loop j choice cf ins we) =
                { s.setPc j ⟨roomID, room, .ranging msg sl i⟩ (.ranging msg sl (i + 1)) with
                  writes := s.writes ++ [⟨b, msg, we⟩] } := by
              show s.loopStep j choice cf ins we = _
              simp only [Sys.loopStep, hl, hreads, hget]
            have hl1 : (s.step g (.loop j choice cf ins we)).loops[j]? =
                some ⟨roomID, room, .ranging msg sl (i + 1)⟩ := by
              rw [hstep]
              simp only [Sys.setPc, List.getElem?_set_self hlt]
            have hk1 : SnapshotKept (s.step g (.loop j choice cf ins we)).uc roomID sl conns := by
              rw [hstep]; exact hk
            have hw : (s.step g (.loop j choice cf ins we)).writes =
                s.writes ++ [⟨b, msg, we⟩] := by
              rw [hstep]
            have := ih _ (i + 1) hk1 hl1 hlt2 hkeep1 hle1
            simp only [Sys.writesOf, ha, if_true, hw, List.drop_left, List.map_append,
              List.map_cons, List.map_nil]
            refine ⟨?_, this.2⟩
            rw [this.1]
            simp [nonNil]

/-- While a `CloseRoom` holds the lock, a move of a broadcaster writes nothing and takes
no broadcaster into the range over a slice. -/
theorem loopStep_locked (s : Sys) (j : Nat) (choice : SelectChoice) (cf : Option Err)
    (ins : Except Err Int) (we : Option Err) (hc : s.closing ≠ none)
    (hr : ∀ l ∈ s.loops, ∀ m sl i, l.pc ≠ .ranging m sl i) :
    (s.loopStep j choice cf ins we).writes = s.writes ∧
    ∀ l ∈ (s.loopStep j choice cf ins we).loops, ∀ m sl i, l.pc ≠ .ranging m sl i := by
  have hset : ∀ (l : Loop) (pc : LoopPc), (∀ m sl i, pc ≠ .ranging m sl i) →
      ∀ l1 ∈ s.loops.set j { l with pc := pc }, ∀ m sl i, l1.pc ≠ .ranging m sl i := by
    intro l pc hpc l1 hl1 m sl i
    rcases List.mem_or_eq_of_mem_set hl1 with h | h
    · exact hr l1 h m sl i
    · rw [h]; exact hpc m sl i
  cases hlj : s.loops[j]? with
  | none =>
    simp only [Sys.loopStep, hlj]
    first | exact ⟨rfl, hr⟩ | exact ⟨trivial, hr⟩
  | some l =>
    cases hp : l.pc with
    | selecting =>
      cases choice with
      | room =>
        simp only [Sys.loopStep, hlj, hp]
        split
        · exact ⟨rfl, hset l _ (fun m sl i h => by cases h)⟩
        · split
          · exact ⟨rfl, hr⟩
          · split
            · exact ⟨rfl, hset l _ (fun m sl i h => by cases h)⟩
            · exact ⟨rfl, hr⟩
      | done =>
        simp only [Sys.loopStep, hlj, hp]
        split
        · exact ⟨rfl, hr⟩
        · split
          · exact ⟨rfl, hset l _ (fun m sl i h => by cases h)⟩
          · exact ⟨rfl, hr⟩
    | received m =>
      simp only [Sys.loopStep, hlj, hp]
      exact ⟨rfl, hset l _ (fun m sl i h => by cases h)⟩
    | saved m =>
      obtain ⟨c, hcl⟩ := Option.ne_none_iff_exists'.1 hc
      simp only [Sys.loopStep, hlj, hp, hcl]
      first | exact ⟨rfl, hr⟩ | exact ⟨trivial, hr⟩
    | ranging m sl i => exact absurd hp (hr l (List.getElem?_mem hlj) m sl i)
    | returned =>
      simp only [Sys.loopStep, hlj, hp]
      first | exact ⟨rfl, hr⟩ | exact ⟨trivial, hr⟩

theorem step_locked (g : Nat → Nat) (s : Sys) (a : Action) (hc : s.closing ≠ none)
    (hr : ∀ l ∈ s.loops, ∀ m sl i, l.pc ≠ .ranging m sl i) :
    (s.step g a).writes = s.writes ∧
    ∀ l ∈ (s.step g a).loops, ∀ m sl i, l.pc ≠ .ranging m sl i := by
  obtain ⟨c, hcl⟩ := Option.ne_none_iff_exists'.1 hc
  cases a with
  | loop j choice cf ins we => exact loopStep_locked s j choice cf ins we hc hr
  | work cf ins =>
    show (s.workerStep cf ins).writes = _ ∧ ∀ l ∈ (s.workerStep cf ins).loops, _
    unfold Sys.workerStep
    split <;> exact ⟨rfl, hr⟩
  | accept u r p n => exact ⟨rfl, hr⟩
  | registry op =>
    have hsame : s.step g (.registry op) = s := by simp only [Sys.step, Sys.registry, hcl]
    rw [hsame]
    exact ⟨rfl, hr⟩
  | spawn r =>
    show (s.spawn r).writes = _ ∧ ∀ l ∈ (s.spawn r).loops, _
    unfold Sys.spawn
    split
    · refine ⟨rfl, ?_⟩
      intro l hl m sl i
      rcases List.mem_append.1 hl with h | h
      · exact hr l h m sl i
      · simp only [List.mem_singleton] at h
        rw [h]; intro hcontra; cases hcontra
    · refine ⟨rfl, ?_⟩
      intro l hl m sl i
      rcases List.mem_append.1 hl with h | h
      · exact hr l h m sl i
      · simp only [List.mem_singleton] at h
        rw [h]; intro hcontra; cases hcontra
  | closeRoom r j =>
    have hsame : s.step g (.closeRoom r j) = s := by simp only [Sys.step, Sys.closeRoom, hcl]
    rw [hsame]
    exact ⟨rfl, hr⟩

/-- While `CloseRoom` is blocked in its send on the `done` of goroutine `k`, which waits
for the lock or has returned, and no broadcaster is in its range: whatever moves are
made, nothing is written. -/
theorem locked_no_writes (g : Nat → Nat) (k : Nat) (v : Bool) :
    ∀ (acts : List Action) (s : Sys), s.closing = some (k, v) →
      (∃ l, s.loops[k]? = some l ∧ (l.pc = .returned ∨ ∃ m, l.pc = .saved m)) →
      (∀ l ∈ s.loops, ∀ m sl i, l.pc ≠ .ranging m sl i) →
      (Sys.run g s acts).writes = s.writes := by
  intro acts
  induction acts with
  | nil => intro s _ _ _; rfl
  | cons a rest ih =>
    intro s hc hk hr
    rw [Sys.run_cons]
    have h1 := lock_stays_step g k v s a hc hk
    have h2 := step_locked g s a (by rw [hc]; simp) hr
    rw [ih (s.step g a) h1.1 h1.2.1 h2.2, h2.1]

/-- C10, as stated, fails.  First: room "1" lists connections 1, 2 and 3 and its
broadcaster has taken "one" and written it to connection 1 when connection 1 leaves the
room; `RemoveClientFromRoom` shifts the entries within the array the broadcaster ranges
over, so "one" is then written to connection 3 twice and never to connection 2.  Second:
in `exampleLockHeld` broadcaster 0 has taken a message and room "1" lists connection 4,
but `CloseRoom` holds the lock: whatever moves the server makes, nothing is ever
written. -/
theorem C10_range_disturbed_counterexample :
    exampleThree.uc.clientList "1" = [some 1, some 2, some 3] ∧
    exampleThree.feed = [(0, ⟨0, 7, "1", "one", 1⟩)] ∧
    (Sys.run (fun c => 2 * c) exampleThree exampleLeaveDuringRange).writes.map
        (fun w => (w.client, w.msg)) =
      [(1, ⟨0, 7, "1", "one", 1⟩), (3, ⟨0, 7, "1", "one", 1⟩), (3, ⟨0, 7, "1", "one", 1⟩)] ∧
    (Sys.run (fun c => 2 * c) exampleThree exampleLeaveDuringRange).loops =
      [⟨"1", 0, .selecting⟩] ∧
    exampleLockHeld.loops[0]? = some ⟨"1", 0, .saved zeroMessage⟩ ∧
    exampleLockHeld.uc.clientList "1" = [some 4] ∧
    ∀ acts : List Action, (Sys.run (fun c => 2 * c) exampleLockHeld acts).writes = [] := by
  refine ⟨by decide, by decide, by decide, by decide, by decide, by decide, ?_⟩
  intro acts
  rw [locked_no_writes (fun c => 2 * c) 0 true acts exampleLockHeld (by decide)
    ⟨⟨"1", 0, .saved zeroMessage⟩, by decide, Or.inr ⟨_, rfl⟩⟩ ?_]
  · decide
  · have hloops : exampleLockHeld.loops =
        [⟨"1", 0, .saved zeroMessage⟩, ⟨"1", 0, .selecting⟩, ⟨"2", 1, .selecting⟩,
          ⟨"2", 1, .selecting⟩] := by decide
    intro l hmem m sl i
    rw [hloops] at hmem
    simp only [List.mem_cons, List.mem_singleton, List.not_mem_nil, or_false] at hmem
    rcases hmem with rfl | rfl | rfl | rfl <;> intro h <;> cases h

/-- C10 (amended): a broadcaster that has taken a message passes it to `SaveMessage`
and, whatever that returns, goes on to `GetConnectedClients(roomID)`, where it waits
while a `CloseRoom` holds the lock.  When the lock is free at that call and the registry
is a reachable one, then, from the return of the call on and whatever moves the other
goroutines make in between, as long as no `RemoveClientFromRoom(roomID, c)` is made for a
connection `c` of the list returned: after `m` of its moves the broadcaster has written the
message, once each and in list order, to the non-nil connections among the first `m`
entries of that list, whatever the writes return; after one move more than the list has
entries it has written to every non-nil connection of the list and is back in `select`.
No move of a broadcaster changes `rooms`, `clients`, the slices or the channels. -/
theorem C10_writes_of_taken_message (growCap : Nat → Nat) (s : Sys) (k : Nat) (l : Loop)
    (msg : Message) (choice : SelectChoice) (cf : Option Err) (ins : Except Err Int)
    (we : Option Err) (acts : List Action)
    (hreg : Reachable growCap s.uc) (hl : s.loops[k]? = some l) (hpc : l.pc = .saved msg)
    (hlock : s.closing = none)
    (hkeep : ∀ c ∈ s.uc.clientList l.roomID,
      Action.registry (.RemoveClientFromRoom l.roomID c) ∉ acts)
    (hmoves : (acts.filter (Action.isLoopOf k)).length ≤ (s.uc.clientList l.roomID).length + 1) :
    (Sys.writesOf growCap k (s.loopStep k choice cf ins we) acts).map (fun w => (w.client, w.msg)) =
      (nonNil ((s.uc.clientList l.roomID).take (acts.filter (Action.isLoopOf k)).length)).map
        (fun a => (a, msg)) ∧
    ((acts.filter (Action.isLoopOf k)).length = (s.uc.clientList l.roomID).length + 1 →
      (Sys.writesOf growCap k (s.loopStep k choice cf ins we) acts).map
          (fun w => (w.client, w.msg)) =
        (nonNil (s.uc.clientList l.roomID)).map (fun a => (a, msg)) ∧
      (Sys.run growCap (s.loopStep k choice cf ins we) acts).loops[k]? =
        some { l with pc := .selecting }) ∧
    (∀ (t : Sys) (j : Nat) (lj : Loop) (m : Message) ch cf1 ins1 we1,
      t.loops[j]? = some lj → lj.pc = .received m →
      (t.loopStep j ch cf1 ins1 we1).loops[j]? = some { lj with pc := .saved m } ∧
      (t.loopStep j ch cf1 ins1 we1).writes = t.writes) ∧
    (∀ (t : Sys) (j : Nat) (lj : Loop) (m : Message) ch cf1 ins1 we1,
      t.loops[j]? = some lj → lj.pc = .saved m → t.closing ≠ none →
      t.loopStep j ch cf1 ins1 we1 = t) ∧
    (∀ (t : Sys) (j : Nat) ch cf1 ins1 we1,
      (t.loopStep j ch cf1 ins1 we1).uc.clients = t.uc.clients ∧
      (t.loopStep j ch cf1 ins1 we1).uc.heap = t.uc.heap ∧
      (t.loopStep j ch cf1 ins1 we1).uc.rooms = t.uc.rooms ∧
      (t.loopStep j ch cf1 ins1 we1).uc.chans = t.uc.chans) := by
  have hlt : k < s.loops.length := by
    by_contra hge
    rw [List.getElem?_eq_none (by omega)] at hl
    cases hl
  have hstep : s.loopStep k choice cf ins we =
      s.setPc k l (.ranging msg (s.uc.GetConnectedClients l.roomID) 0) := by
    simp only [Sys.loopStep, hl, hpc, hlock]
  have hl0 : (s.loopStep k choice cf ins we).loops[k]? =
      some ⟨l.roomID, l.room, .ranging msg (s.uc.GetConnectedClients l.roomID) 0⟩ := by
    rw [hstep]
    simp only [Sys.setPc, List.getElem?_set_self hlt]
  have hk0 : SnapshotKept (s.loopStep k choice cf ins we).uc l.roomID
      (s.uc.GetConnectedClients l.roomID) (s.uc.clientList l.roomID) := by
    rw [hstep]
    exact SnapshotKept_init s.uc (Reachable_clientsWF growCap s.uc hreg) l.roomID
  have hmain := ranging_writes growCap k l.roomID l.room msg (s.uc.GetConnectedClients l.roomID)
    (s.uc.clientList l.roomID) acts (s.loopStep k choice cf ins we) 0 hk0 hl0 (Nat.zero_le _)
    hkeep (by omega)
  simp only [List.drop_zero, Nat.zero_add] at hmain
  refine ⟨hmain.1, ?_, ?_, ?_, ?_⟩
  · intro hall
    refine ⟨?_, ?_⟩
    · rw [hmain.1, hall, List.take_of_length_le (Nat.le_succ _)]
    · rw [hmain.2]
      have : ¬ (acts.filter (Action.isLoopOf k)).length ≤ (s.uc.clientList l.roomID).length := by
        omega
      simp only [this, if_false]
  · intro t j lj m ch cf1 ins1 we1 htl hpc1
    have hjlt : j < t.loops.length := by
      by_contra hge
      rw [List.getElem?_eq_none (by omega)] at htl
      cases htl
    refine ⟨?_, ?_⟩
    · simp only [Sys.loopStep, htl, hpc1, Sys.setPc, List.getElem?_set_self hjlt]
    · simp only [Sys.loopStep, htl, hpc1, Sys.setPc]
  · intro t j lj m ch cf1 ins1 we1 htl hpc1 hc
    obtain ⟨c, hcl⟩ := Option.ne_none_iff_exists'.1 hc
    simp only [Sys.loopStep, htl, hpc1, hcl]
  · intro t j ch cf1 ins1 we1
    exact loopStep_registry t j ch cf1 ins1 we1

/-- C10 on the example: the broadcaster holds "one" for the room listing 1, 2 and 3;
while it ranges, connection 9 joins and leaves and the write to connection 2 fails; "one"
is written once each to 1, 2 and 3, in that order. -/
theorem C10_writes_of_taken_message_witness :
    Reachable (fun c => 2 * c) exampleSaved.uc ∧
    exampleSaved.loops[0]? = some ⟨"1", 0, .saved ⟨0, 7, "1", "one", 1⟩⟩ ∧
    exampleSaved.closing = none ∧
    exampleSaved.uc.clientList "1" = [some 1, some 2, some 3] ∧
    (Sys.writesOf (fun c => 2 * c) 0 (exampleSaved.loopStep 0 .room none (.ok 1) none)
        exampleJoinDuringRange).map (fun w => (w.client, w.msg)) =
      [(1, ⟨0, 7, "1", "one", 1⟩), (2, ⟨0, 7, "1", "one", 1⟩), (3, ⟨0, 7, "1", "one", 1⟩)] :=
  ⟨⟨⟨[], [⟨1, 7, "1", "one", 1⟩]⟩,
      [.CreateRoom ⟨"", "general", 0⟩ none (.ok ("1", 10)), .AddClientToRoom "1" (some 1),
        .AddClientToRoom "1" (some 2), .AddClientToRoom "1" (some 3)], rfl⟩,
    by decide, by decide, by decide,
    ((C10_writes_of_taken_message (fun c => 2 * c) exampleSaved 0
      ⟨"1", 0, .saved ⟨0, 7, "1", "one", 1⟩⟩ ⟨0, 7, "1", "one", 1⟩ .room none (.ok 1) none
      exampleJoinDuringRange
      ⟨⟨[], [⟨1, 7, "1", "one", 1⟩]⟩,
        [.CreateRoom ⟨"", "general", 0⟩ none (.ok ("1", 10)), .AddClientToRoom "1" (some 1),
          .AddClientToRoom "1" (some 2), .AddClientToRoom "1" (some 3)], rfl⟩
      (by decide) rfl (by decide)
      (by
        intro c hc
        have hlist : exampleSaved.uc.clientList "1" = [some 1, some 2, some 3] := by decide
        rw [hlist] at hc
        simp only [List.mem_cons, List.mem_singleton, List.not_mem_nil, or_false] at hc
        rcases hc with rfl | rfl | rfl <;> simp [exampleJoinDuringRange])
      (by decide)).2.1 (by decide)).1⟩

/-! ## C11: the order of the writes of a single broadcaster -/

theorem RoomKept_of_eq (uc : ChatUsecase) (roomID : String) (room : Nat) (uc1 uc2 : ChatUsecase)
    (h : RoomKept uc roomID room uc1)
    (heq : uc2.clients = uc1.clients ∧ uc2.heap = uc1.heap ∧ uc2.rooms = uc1.rooms ∧
      uc2.chans = uc1.chans) : RoomKept uc roomID room uc2 := by
  refine ⟨ClientsWF_of_eq uc1 uc2 h.wf ⟨heq.1, heq.2.1⟩, ?_, ?_, ?_, ?_⟩
  · rw [clientList_of_eq uc1 uc2 ⟨heq.1, heq.2.1⟩]; exact h.list
  · rw [GetConnectedClients_of_clients uc1 uc2 heq.1]; exact h.stored
  · rw [heq.2.2.2]; exact h.isOpen
  · rw [heq.2.2.1]; exact h.owner

/-- A call on the registry that spares `roomID` keeps the room as it was. -/
theorem RoomKept_step (g : Nat → Nat) (uc : ChatUsecase) (roomID : String) (room : Nat)
    (uc1 uc2 : ChatUsecase) (op : Op) (h : RoomKept uc roomID room uc1)
    (hop : op.spares roomID = true) (hstep : uc1.step g op = .ok uc2) :
    RoomKept uc roomID room uc2 := by
  have hlt : room < uc1.chans.length := by
    by_contra hge
    have := h.isOpen
    rw [List.getElem?_eq_none (by omega)] at this
    cases this
  cases op with
  | CreateRoom r f ins =>
    simp only [ChatUsecase.step] at hstep
    cases hstep
    rcases CreateRoom_cases uc1 r f ins with hc | ⟨id, t, _, _, _, _, _, hc⟩
    · rw [hc.1]; exact h
    · rw [hc]
      refine ⟨ClientsWF_of_eq uc1 _ h.wf ⟨rfl, rfl⟩, h.list, h.stored, ?_, ?_⟩
      · show (uc1.chans ++ [false])[room]? = some false
        rw [List.getElem?_append_left hlt]
        exact h.isOpen
      · intro r1 hr1
        have hr2 : (uc1.rooms.set id uc1.chans.length).get r1 = some room := hr1
        by_cases hid : r1 = id
        · simp only [GoMap.get_set, hid, if_true, Option.some.injEq] at hr2
          omega
        · simp only [GoMap.get_set, hid, if_false] at hr2
          exact h.owner r1 hr2
  | CloseRoom r =>
    have hne : r ≠ roomID := by simpa [Op.spares] using hop
    obtain ⟨b, hb⟩ := step_CloseRoom_ok g uc1 uc2 r hstep
    rcases CloseRoom_cases uc1 uc2 r b hb with hc | ⟨ch, hch, _, _, hc⟩
    · rw [hc.2.1]; exact h
    · rw [hc]
      have hchne : ch ≠ room := by
        intro heq
        rw [heq] at hch
        exact hne (h.owner r hch)
      refine ⟨ClientsWF_of_eq uc1 _ h.wf ⟨rfl, rfl⟩, h.list, h.stored, ?_, ?_⟩
      · show (uc1.chans.set ch true)[room]? = some false
        rw [List.getElem?_set_ne hchne]
        exact h.isOpen
      · intro r1 hr1
        have hr2 : (uc1.rooms.delete r).get r1 = some room := hr1
        by_cases hid : r1 = r
        · simp [hid] at hr2
        · simp only [GoMap.get_delete, hid, if_false] at hr2
          exact h.owner r1 hr2
  | AddClientToRoom r c =>
    have hne : r ≠ roomID := by simpa [Op.spares] using hop
    simp only [ChatUsecase.step] at hstep
    cases hstep
    have hspec := AddClientToRoom_spec g uc1 h.wf r c
    refine ⟨hspec.1, ?_, ?_, ?_, ?_⟩
    · rw [hspec.2.2 roomID (Ne.symm hne)]; exact h.list
    · rw [← h.stored, AddClientToRoom_eq]
      simp [ChatUsecase.GetConnectedClients, Ne.symm hne]
    · rw [AddClientToRoom_eq]; exact h.isOpen
    · rw [AddClientToRoom_eq]; exact h.owner
  | RemoveClientFromRoom r c =>
    have hne : r ≠ roomID := by simpa [Op.spares] using hop
    simp only [ChatUsecase.step] at hstep
    cases hstep
    have hspec := RemoveClientFromRoom_spec g uc1 h.wf r c
    have hrr := RemoveClientFromRoom_rooms g uc1 r c
    refine ⟨hspec.1, ?_, ?_, ?_, ?_⟩
    · rw [hspec.2.2 roomID (Ne.symm hne)]; exact h.list
    · rw [← h.stored]
      unfold ChatUsecase.RemoveClientFromRoom
      repeat' split
      all_goals simp [ChatUsecase.GetConnectedClients, Ne.symm hne]
    · rw [hrr.2]; exact h.isOpen
    · rw [hrr.1]; exact h.owner

/-- A move of a broadcaster keeps `AloneInv`; while no `CloseRoom` holds the lock it
never brings the only broadcaster further from having nothing left to do, and a move on
the room case brings it one move closer. -/
theorem AloneInv_loopStep (uc : ChatUsecase) (roomID : String) (room : Nat)
    (msgs : List Message) (s : Sys) (pc : LoopPc)
    (h : AloneInv uc roomID room msgs s pc) (k : Nat) (choice : SelectChoice)
    (cf : Option Err) (ins : Except Err Int) (we : Option Err) :
    ∃ pc1, AloneInv uc roomID room msgs (s.loopStep k choice cf ins we) pc1 ∧
      (s.closing = none → pc ≠ .returned →
        (s.loopStep k choice cf ins we).closing = none ∧ pc1 ≠ .returned ∧
        (s.loopStep k choice cf ins we).feed.length * ((uc.clientList roomID).length + 4) +
            pc1.togo (uc.clientList roomID).length ≤
          s.feed.length * ((uc.clientList roomID).length + 4) +
            pc.togo (uc.clientList roomID).length ∧
        (k = 0 → choice = .room →
          (s.loopStep k choice cf ins we).feed.length * ((uc.clientList roomID).length + 4) +
              pc1.togo (uc.clientList roomID).length =
            s.feed.length * ((uc.clientList roomID).length + 4) +
              pc.togo (uc.clientList roomID).length - 1)) := by
  by_cases hk : k = 0
  swap
  · have hnone : s.loops[k]? = none := by
      rw [h.loops]
      exact List.getElem?_eq_none (by simp; omega)
    have hsame : s.loopStep k choice cf ins we = s := by
      simp only [Sys.loopStep, hnone]
    rw [hsame]
    exact ⟨pc, h, fun hcl hnr => ⟨hcl, hnr, Nat.le_refl _, fun h0 => absurd h0 hk⟩⟩
  subst hk
  have hl : s.loops[0]? = some ⟨roomID, room, pc⟩ := by rw [h.loops]; rfl
  have hset : ∀ pc1, s.loops.set 0 { (⟨roomID, room, pc⟩ : Loop) with pc := pc1 } =
      [⟨roomID, room, pc1⟩] := by
    intro pc1; rw [h.loops]; rfl
  have hkept : ∀ uc2 : ChatUsecase, uc2.clients = s.uc.clients ∧ uc2.heap = s.uc.heap ∧
      uc2.rooms = s.uc.rooms ∧ uc2.chans = s.uc.chans → RoomKept uc roomID room uc2 :=
    fun uc2 heq => RoomKept_of_eq uc roomID room s.uc uc2 h.kept heq
  cases pc with
  | returned =>
    have hsame : s.loopStep 0 choice cf ins we = s := by
      simp only [Sys.loopStep, hl]
    rw [hsame]
    exact ⟨.returned, h, fun _ hnr => absurd rfl hnr⟩
  | selecting =>
    cases choice with
    | done =>
      cases hc : s.closing with
      | none =>
        have hsame : s.loopStep 0 .done cf ins we = s := by
          simp only [Sys.loopStep, hl, hc]
        rw [hsame]
        exact ⟨.selecting, h, fun _ hnr => ⟨hc, hnr, Nat.le_refl _, fun _ hch => by cases hch⟩⟩
      | some p =>
        obtain ⟨j, v⟩ := p
        by_cases hj : j = 0
        · refine ⟨.returned, ?_, fun hcl _ => by cases hcl⟩
          simp only [Sys.loopStep, hl, hc, hj, if_true, Sys.setPc]
          refine ⟨by rw [hset], hkept _ ⟨rfl, rfl, rfl, rfl⟩, h.feed, ?_, ?_⟩
          · intro msg cl i hcontra; cases hcontra
          · simpa [LoopPc.owed] using h.total
        · have hsame : s.loopStep 0 .done cf ins we = s := by
            simp only [Sys.loopStep, hl, hc, hj, if_false]
          rw [hsame]
          exact ⟨.selecting, h, fun hcl _ => by cases hcl⟩
    | room =>
      have hch : ¬ s.uc.chans[room]? = some true := by
        rw [h.kept.isOpen]; simp
      cases hf : s.feed with
      | nil =>
        have hsame : s.loopStep 0 .room cf ins we = s := by
          simp only [Sys.loopStep, hl, hch, if_false, hf]
        rw [hsame]
        refine ⟨.selecting, h, fun hcl hnr => ⟨hcl, hnr, by simp [hf], fun _ _ => ?_⟩⟩
        simp [hf, LoopPc.togo]
      | cons p rest =>
        obtain ⟨ch, m⟩ := p
        have hchr : ch = room := h.feed (ch, m) (by rw [hf]; exact List.mem_cons_self _ _)
        subst hchr
        have hmul : (rest.length + 1) * ((uc.clientList roomID).length + 4) =
            rest.length * ((uc.clientList roomID).length + 4) +
              ((uc.clientList roomID).length + 4) := by ring
        refine ⟨.received m, ?_, fun hcl _ => ?_⟩
        · simp only [Sys.loopStep, hl, hch, if_false, hf, if_true, Sys.setPc]
          refine ⟨by rw [hset], hkept _ ⟨rfl, rfl, rfl, rfl⟩, ?_, ?_, ?_⟩
          · intro q hq
            exact h.feed q (by rw [hf]; exact List.mem_cons_of_mem _ hq)
          · intro msg cl i hcontra; cases hcontra
          · have := h.total
            rw [hf] at this
            simpa [LoopPc.owed, expectedWrites_cons] using this
        · simp only [Sys.loopStep, hl, hch, if_false, hf, if_true, Sys.setPc]
          simp only [List.length_cons, LoopPc.togo]
          refine ⟨hcl, by simp, by omega, fun _ _ => by omega⟩
  | received m =>
    refine ⟨.saved m, ?_, fun hcl _ => ?_⟩
    · simp only [Sys.loopStep, hl, Sys.setPc]
      refine ⟨by rw [hset], hkept _ ⟨rfl, rfl, rfl, rfl⟩, h.feed, ?_, ?_⟩
      · intro msg cl i hcontra; cases hcontra
      · simpa [LoopPc.owed] using h.total
    · simp only [Sys.loopStep, hl, Sys.setPc, LoopPc.togo]
      refine ⟨hcl, by simp, by omega, fun _ _ => by omega⟩
  | saved m =>
    cases hc : s.closing with
    | some p =>
      have hsame : s.loopStep 0 choice cf ins we = s := by
        simp only [Sys.loopStep, hl, hc]
      rw [hsame]
      exact ⟨.saved m, h, fun hcl _ => by cases hcl⟩
    | none =>
      refine ⟨.ranging m (uc.GetConnectedClients roomID) 0, ?_, fun _ _ => ?_⟩
      · simp only [Sys.loopStep, hl, hc, Sys.setPc]
        rw [h.kept.stored]
        refine ⟨by rw [hset], hkept _ ⟨rfl, rfl, rfl, rfl⟩, h.feed, ?_, ?_⟩
        · intro msg cl i heq
          cases heq
          exact ⟨rfl, Nat.zero_le _⟩
        · simpa [LoopPc.owed] using h.total
      · simp only [Sys.loopStep, hl, hc, Sys.setPc, LoopPc.togo]
        refine ⟨trivial, by simp, by omega, fun _ _ => by omega⟩
  | ranging m cl i =>
    obtain ⟨hcl, hi⟩ := h.slice m cl i rfl
    have helems : cl.elems s.uc.heap = uc.clientList roomID := by
      rw [hcl, ← h.kept.stored, ← h.kept.list]; rfl
    cases hget : (uc.clientList roomID)[i]? with
    | none =>
      have hlen : (uc.clientList roomID).length ≤ i := by
        by_contra hlt
        rw [List.getElem?_eq_getElem (by omega)] at hget
        cases hget
      refine ⟨.selecting, ?_, fun hc _ => ?_⟩
      · simp only [Sys.loopStep, hl, helems, hget, Sys.setPc]
        refine ⟨by rw [hset], hkept _ ⟨rfl, rfl, rfl, rfl⟩, h.feed, ?_, ?_⟩
        · intro msg cl1 i1 hcontra; cases hcontra
        · have := h.total
          simpa [LoopPc.owed, List.drop_eq_nil_of_le hlen, nonNil] using this
      · simp only [Sys.loopStep, hl, helems, hget, Sys.setPc, LoopPc.togo]
        refine ⟨hc, by simp, by omega, fun _ _ => by omega⟩
    | some c =>
      have hlt : i < (uc.clientList roomID).length := by
        by_contra hge
        rw [List.getElem?_eq_none (by omega)] at hget
        cases hget
      have hdrop : (uc.clientList roomID).drop i = c :: (uc.clientList roomID).drop (i + 1) := by
        rw [List.drop_eq_getElem_cons hlt]
        rw [List.getElem?_eq_getElem hlt] at hget
        cases hget
        rfl
      cases c with
      | none =>
        refine ⟨.ranging m cl (i + 1), ?_, fun hc _ => ?_⟩
        · simp only [Sys.loopStep, hl, helems, hget, Sys.setPc]
          refine ⟨by rw [hset], hkept _ ⟨rfl, rfl, rfl, rfl⟩, h.feed, ?_, ?_⟩
          · intro msg cl1 i1 heq
            cases heq
            exact ⟨hcl, hlt⟩
          · have := h.total
            simpa [LoopPc.owed, hdrop, nonNil] using this
        · simp only [Sys.loopStep, hl, helems, hget, Sys.setPc, LoopPc.togo]
          refine ⟨hc, by simp, by omega, fun _ _ => by omega⟩
      | some a =>
        refine ⟨.ranging m cl (i + 1), ?_, fun hc _ => ?_⟩
        · simp only [Sys.loopStep, hl, helems, hget, Sys.setPc]
          refine ⟨by rw [hset], hkept _ ⟨rfl, rfl, rfl, rfl⟩, h.feed, ?_, ?_⟩
          · intro msg cl1 i1 heq
            cases heq
            exact ⟨hcl, hlt⟩
          · have := h.total
            simpa [LoopPc.owed, hdrop, nonNil] using this
        · simp only [Sys.loopStep, hl, helems, hget, Sys.setPc, LoopPc.togo]
          refine ⟨hc, by simp, by omega, fun _ _ => by omega⟩

theorem AloneInv_of_uc (uc : ChatUsecase) (roomID : String) (room : Nat) (msgs : List Message)
    (s s1 : Sys) (pc : LoopPc) (h : AloneInv uc roomID room msgs s pc)
    (hloops : s1.loops = s.loops) (hfeed : s1.feed = s.feed) (hwrites : s1.writes = s.writes)
    (hkept : RoomKept uc roomID room s1.uc) : AloneInv uc roomID room msgs s1 pc := by
  refine ⟨by rw [hloops]; exact h.loops, hkept, by rw [hfeed]; exact h.feed, h.slice, ?_⟩
  rw [hwrites, hfeed]
  exact h.total

/-- A move that spares the room keeps `AloneInv`; unless it is a `CloseRoom`, it leaves
the lock free when it was, and the only broadcaster no further from having nothing left
to do, one move closer when it is a move of that broadcaster on the room case. -/
theorem AloneInv_step (g : Nat → Nat) (uc : ChatUsecase) (roomID : String) (room : Nat)
    (msgs : List Message) (s : Sys) (pc : LoopPc)
    (h : AloneInv uc roomID room msgs s pc) (a : Action) (ha : a.spares roomID = true) :
    ∃ pc1, AloneInv uc roomID room msgs (s.step g a) pc1 ∧
      (s.closing = none → pc ≠ .returned → a.isCloseRoom = false →
        (s.step g a).closing = none ∧ pc1 ≠ .returned ∧
        (s.step g a).feed.length * ((uc.clientList roomID).length + 4) +
            pc1.togo (uc.clientList roomID).length ≤
          s.feed.length * ((uc.clientList roomID).length + 4) +
            pc.togo (uc.clientList roomID).length - (if a.isRoomTick 0 then 1 else 0)) := by
  cases a with
  | loop k choice cf ins we =>
    obtain ⟨pc1, h1, hm⟩ := AloneInv_loopStep uc roomID room msgs s pc h k choice cf ins we
    refine ⟨pc1, h1, fun hcl hnr _ => ?_⟩
    obtain ⟨hc1, hnr1, hle, heq⟩ := hm hcl hnr
    refine ⟨hc1, hnr1, ?_⟩
    cases choice with
    | done => simpa [Action.isRoomTick] using hle
    | room =>
      by_cases hk : k = 0
      · have := heq hk rfl
        subst hk
        simp only [Action.isRoomTick, decide_True, if_true]
        exact Nat.le_of_eq this
      · simpa [Action.isRoomTick, hk] using hle
  | work cf ins =>
    refine ⟨pc, ?_, fun hcl hnr _ => ?_⟩
    · show AloneInv uc roomID room msgs (s.workerStep cf ins) pc
      unfold Sys.workerStep
      split
      · exact h
      · exact AloneInv_of_uc uc roomID room msgs s _ pc h rfl rfl rfl
          (RoomKept_of_eq uc roomID room s.uc _ h.kept ⟨rfl, rfl, rfl, rfl⟩)
    · have hfeed : (s.step g (.work cf ins)).feed = s.feed := by
        show (s.workerStep cf ins).feed = s.feed
        unfold Sys.workerStep
        split <;> rfl
      have hclosing : (s.step g (.work cf ins)).closing = s.closing := by
        show (s.workerStep cf ins).closing = s.closing
        unfold Sys.workerStep
        split <;> rfl
      rw [hfeed, hclosing]
      exact ⟨hcl, hnr, by simp [Action.isRoomTick]⟩
  | accept u r p n =>
    exact ⟨pc, AloneInv_of_uc uc roomID room msgs s _ pc h rfl rfl rfl h.kept,
      fun hcl hnr _ => ⟨hcl, hnr, by simp [Action.isRoomTick, Sys.step, Sys.accept]⟩⟩
  | registry op =>
    have hop : op.spares roomID = true := ha
    refine ⟨pc, ?_, fun hcl hnr _ => ?_⟩
    · show AloneInv uc roomID room msgs (s.registry g op) pc
      unfold Sys.registry
      split
      · exact h
      · split
        · exact h
        · rename_i uc1 hstep
          exact AloneInv_of_uc uc roomID room msgs s _ pc h rfl rfl rfl
            (RoomKept_step g uc roomID room s.uc uc1 op h.kept hop hstep)
    · have hfeed : (s.step g (.registry op)).feed = s.feed := by
        show (s.registry g op).feed = s.feed
        unfold Sys.registry
        repeat' split
        all_goals rfl
      have hclosing : (s.step g (.registry op)).closing = s.closing := by
        show (s.registry g op).closing = s.closing
        unfold Sys.registry
        repeat' split
        all_goals rfl
      rw [hfeed, hclosing]
      exact ⟨hcl, hnr, by simp [Action.isRoomTick]⟩
  | spawn r => simp [Action.spares] at ha
  | closeRoom r j =>
    have hne : r ≠ roomID := by simpa [Action.spares] using ha
    refine ⟨pc, ?_, fun _ _ hcr => by simp [Action.isCloseRoom] at hcr⟩
    show AloneInv uc roomID room msgs (s.closeRoom r j) pc
    unfold Sys.closeRoom
    split
    · exact h
    · split
      · exact h
      · rename_i uc1 v hclose
        have hstep : s.uc.step g (.CloseRoom r) = .ok uc1 := by
          simp [ChatUsecase.step, hclose]
        exact AloneInv_of_uc uc roomID room msgs s _ pc h rfl rfl rfl
          (RoomKept_step g uc roomID room s.uc uc1 (.CloseRoom r) h.kept
            (by simpa [Op.spares] using hne) hstep)

theorem AloneInv_run (g : Nat → Nat) (uc : ChatUsecase) (roomID : String) (room : Nat)
    (msgs : List Message) :
    ∀ (acts : List Action) (s : Sys) (pc : LoopPc), AloneInv uc roomID room msgs s pc →
      (∀ a ∈ acts, a.spares roomID = true) →
      ∃ pc1, AloneInv uc roomID room msgs (Sys.run g s acts) pc1 := by
  intro acts
  induction acts with
  | nil => intro s pc h _; exact ⟨pc, h⟩
  | cons a rest ih =>
    intro s pc h hall
    rw [Sys.run_cons]
    obtain ⟨pc1, h1, _⟩ := AloneInv_step g uc roomID room msgs s pc h a
      (hall a (List.mem_cons_self _ _))
    exact ih _ pc1 h1 (fun b hb => hall b (List.mem_cons_of_mem _ hb))

theorem AloneInv_progress (g : Nat → Nat) (uc : ChatUsecase) (roomID : String) (room : Nat)
    (msgs : List Message) :
    ∀ (acts : List Action) (s : Sys) (pc : LoopPc), AloneInv uc roomID room msgs s pc →
      s.closing = none → pc ≠ .returned →
      (∀ a ∈ acts, a.spares roomID = true ∧ a.isCloseRoom = false) →
      ∃ pc1, AloneInv uc roomID room msgs (Sys.run g s acts) pc1 ∧
        (Sys.run g s acts).feed.length * ((uc.clientList roomID).length + 4) +
            pc1.togo (uc.clientList roomID).length ≤
          s.feed.length * ((uc.clientList roomID).length + 4) +
            pc.togo (uc.clientList roomID).length - (acts.filter (Action.isRoomTick 0)).length := by
  intro acts
  induction acts with
  | nil => intro s pc h _ _ _; exact ⟨pc, h, by simp [Sys.run]⟩
  | cons a rest ih =>
    intro s pc h hcl hnr hall
    rw [Sys.run_cons]
    have ha := hall a (List.mem_cons_self _ _)
    obtain ⟨pc1, h1, hm⟩ := AloneInv_step g uc roomID room msgs s pc h a ha.1
    obtain ⟨hc1, hnr1, hle⟩ := hm hcl hnr ha.2
    obtain ⟨pc2, h2, hle2⟩ := ih _ pc1 h1 hc1 hnr1 (fun b hb => hall b (List.mem_cons_of_mem _ hb))
    refine ⟨pc2, h2, ?_⟩
    cases htick : a.isRoomTick 0 with
    | false =>
      simp only [htick, Bool.false_eq_true, if_false, Nat.sub_zero] at hle
      simp only [List.filter, htick]
      omega
    | true =>
      simp only [htick, if_true] at hle
      simp only [List.filter, htick, List.length_cons]
      omega

theorem AloneInv_init (g : Nat → Nat) (uc : ChatUsecase) (wp : WorkerPool) (roomID : String)
    (room : Nat) (msgs : List Message) (hreach : Reachable g uc)
    (hroom : uc.rooms.get roomID = some room) :
    AloneInv uc roomID room msgs (Sys.oneLoop uc wp roomID room msgs) .selecting := by
  have hrw := Reachable_roomsWF g uc hreach
  refine ⟨rfl, ⟨Reachable_clientsWF g uc hreach, rfl, rfl, hrw.isOpen roomID room hroom,
    fun r hr => hrw.inj r roomID room hr hroom⟩, ?_, ?_, ?_⟩
  · intro p hp
    simp only [Sys.oneLoop, List.mem_map] at hp
    obtain ⟨m, _, rfl⟩ := hp
    rfl
  · intro msg cl i hcontra; cases hcontra
  · simp [Sys.oneLoop, LoopPc.owed, Function.comp_def]

/-- C11 (amended): for a reachable registry in which `roomID` has the channel `room`,
when a single `BroadcastMessages` goroutine runs, that of `roomID`, and the messages
m1..mn are sent on that channel in order: whatever moves the server makes that start no
further broadcaster, make no connection join or leave `roomID` and do not close it
(moves of the broadcaster, of workers and handlers, calls on other rooms, saves and
writes failing), at every moment the writes made are an initial part of "each message
in turn, to each non-nil connection of the client list in list order", so a connection
listed once has been written an initial part of m1..mn, in that order; and when moreover
no `CloseRoom` call is made, then once the goroutine has made `n * (len + 4)` moves on
the room case, `len` being the length of the client list, all these writes are made:
a connection listed once has been written m1..mn. -/
theorem C11_single_broadcaster_order (growCap : Nat → Nat) (uc : ChatUsecase)
    (wp : WorkerPool) (roomID : String) (room : Nat) (msgs : List Message)
    (hreach : Reachable growCap uc) (hroom : uc.rooms.get roomID = some room) :
    (∀ acts : List Action, (∀ a ∈ acts, a.spares roomID = true) →
      (Sys.run growCap (Sys.oneLoop uc wp roomID room msgs) acts).writes.map
          (fun w => (w.client, w.msg)) <+: expectedWrites (uc.clientList roomID) msgs ∧
      ∀ a, (nonNil (uc.clientList roomID)).count a = 1 →
        ((Sys.run growCap (Sys.oneLoop uc wp roomID room msgs) acts).writes.filter
          (fun w => w.client = a)).map (·.msg) <+: msgs) ∧
    (∀ acts : List Action, (∀ a ∈ acts, a.spares roomID = true ∧ a.isCloseRoom = false) →
      msgs.length * ((uc.clientList roomID).length + 4) ≤
        (acts.filter (Action.isRoomTick 0)).length →
      (Sys.run growCap (Sys.oneLoop uc wp roomID room msgs) acts).writes.map
          (fun w => (w.client, w.msg)) = expectedWrites (uc.clientList roomID) msgs ∧
      ∀ a, (nonNil (uc.clientList roomID)).count a = 1 →
        ((Sys.run growCap (Sys.oneLoop uc wp roomID room msgs) acts).writes.filter
          (fun w => w.client = a)).map (·.msg) = msgs) := by
  have hinit := AloneInv_init growCap uc wp roomID room msgs hreach hroom
  have hconn : ∀ (ws : List WriteAttempt) (a : Nat),
      ((ws.map (fun w => (w.client, w.msg))).filter (fun p => p.1 = a)).map (·.2) =
        (ws.filter (fun w => w.client = a)).map (·.msg) := by
    intro ws a
    rw [List.filter_map, List.map_map]
    rfl
  refine ⟨?_, ?_⟩
  · intro acts hacts
    obtain ⟨pc1, h1⟩ := AloneInv_run growCap uc roomID room msgs acts _ _ hinit hacts
    have hpre : (Sys.run growCap (Sys.oneLoop uc wp roomID room msgs) acts).writes.map
        (fun w => (w.client, w.msg)) <+: expectedWrites (uc.clientList roomID) msgs := by
      rw [← h1.total, List.append_assoc]
      exact List.prefix_append _ _
    refine ⟨hpre, ?_⟩
    intro a ha
    have h2 := (hpre.filter (fun p => p.1 = a)).map (·.2)
    rw [expectedWrites_for_conn _ a ha msgs, hconn] at h2
    exact h2
  · intro acts hacts hn
    obtain ⟨pc1, h1, hle⟩ := AloneInv_progress growCap uc roomID room msgs acts _ _ hinit rfl
      (by simp) hacts
    have hz : (Sys.run growCap (Sys.oneLoop uc wp roomID room msgs) acts).feed.length *
        ((uc.clientList roomID).length + 4) + pc1.togo (uc.clientList roomID).length = 0 := by
      have : (Sys.oneLoop uc wp roomID room msgs).feed.length = msgs.length := by
        simp [Sys.oneLoop]
      have ht : LoopPc.togo (uc.clientList roomID).length .selecting = 0 := rfl
      rw [this, ht] at hle
      omega
    have hfeed : (Sys.run growCap (Sys.oneLoop uc wp roomID room msgs) acts).feed = [] := by
      have : (Sys.run growCap (Sys.oneLoop uc wp roomID room msgs) acts).feed.length = 0 := by
        have h5 := (Nat.add_eq_zero_iff.1 hz).1
        rcases Nat.mul_eq_zero.1 h5 with h6 | h6
        · exact h6
        · omega
      exact List.length_eq_zero.1 this
    have htogo := (Nat.add_eq_zero_iff.1 hz).2
    have howed : pc1.owed (uc.clientList roomID) = [] := by
      cases pc1 with
      | selecting => rfl
      | returned => rfl
      | received m => simp [LoopPc.togo] at htogo
      | saved m => simp [LoopPc.togo] at htogo
      | ranging m cl i =>
        have := (h1.slice m cl i rfl).2
        simp only [LoopPc.togo] at htogo
        omega
    have hall : (Sys.run growCap (Sys.oneLoop uc wp roomID room msgs) acts).writes.map
        (fun w => (w.client, w.msg)) = expectedWrites (uc.clientList roomID) msgs := by
      have := h1.total
      rw [hfeed, howed] at this
      simpa [expectedWrites] using this
    refine ⟨hall, ?_⟩
    intro a ha
    rw [← hconn, hall]
    exact expectedWrites_for_conn _ a ha msgs

/-- C11 on the example room with the only broadcaster, on a schedule in which room "2"
is created, joined, left and closed meanwhile: "one" and "two" are written to
connections 1 and 2 in the order sent. -/
theorem C11_single_broadcaster_order_witness :
    Reachable (fun c => 2 * c) exampleRoom ∧ exampleRoom.rooms.get "1" = some 0 ∧
    (∀ a ∈ exampleBusy, a.spares "1" = true ∧ a.isCloseRoom = false) ∧
    (Sys.run (fun c => 2 * c)
        (Sys.oneLoop exampleRoom NewWorkerPool "1" 0
          [⟨0, 7, "1", "one", 1⟩, ⟨0, 7, "1", "two", 2⟩])
        exampleBusy).writes.map (fun w => (w.client, w.msg)) =
      [(1, ⟨0, 7, "1", "one", 1⟩), (2, ⟨0, 7, "1", "one", 1⟩),
        (1, ⟨0, 7, "1", "two", 2⟩), (2, ⟨0, 7, "1", "two", 2⟩)] :=
  ⟨⟨⟨[], []⟩, [.CreateRoom ⟨"", "general", 0⟩ none (.ok ("1", 10)),
      .AddClientToRoom "1" (some 1), .AddClientToRoom "1" none, .AddClientToRoom "1" (some 2)],
      rfl⟩,
    by decide, by decide,
    (((C11_single_broadcaster_order (fun c => 2 * c) exampleRoom NewWorkerPool "1" 0
      [⟨0, 7, "1", "one", 1⟩, ⟨0, 7, "1", "two", 2⟩]
      ⟨⟨[], []⟩, [.CreateRoom ⟨"", "general", 0⟩ none (.ok ("1", 10)),
        .AddClientToRoom "1" (some 1), .AddClientToRoom "1" none,
        .AddClientToRoom "1" (some 2)], rfl⟩
      (by decide)).2 exampleBusy (by decide) (by decide)).1).trans (by decide)⟩

end ChatApi
